import Mathlib

/-!
# fi6s: target address generator and scanner core

A shallow embedding of `src/target-gen.c` and `src/scan.c`.

* `uint8_t[16]` arrays are `List Nat` (sixteen bytes, index 0 first, as in memory);
* `uint64_t` arithmetic is `Nat` arithmetic with an explicit `% 2 ^ 64`;
* a C `for` loop over a fixed range is a left fold over the list of the values the
  loop variable takes; a `goto out` that leaves the loops is a flag of the loop state
  which makes the remaining iterations no-ops;
* a `while(1)` loop takes fuel and returns `none` when the fuel runs out.
-/

namespace Fi6s

/-! ## Definitions: `target-gen.c`, one target -/

/-- The `struct targetspec` of `target.h`: `addr[16]` and `mask[16]`. -/
structure targetspec where
  addr : List Nat
  mask : List Nat
deriving DecidableEq, Repr

/-- The `struct targetstate` of `target-gen.c`. -/
structure targetstate where
  spec : targetspec
  cur : List Nat
  delayed_start : Nat
  done : Bool
deriving DecidableEq, Repr

/-- The local variables of the addition loop of `next_addr`: the array `t->cur`, the
flags `any` and `carry`, and `out`, set once `goto out` was taken. -/
structure addloop where
  cur : List Nat
  any : Bool
  carry : Bool
  out : Bool
deriving DecidableEq, Repr

/-- The body of the inner loop of `next_addr` for byte `i` and bit value `j`.
`~j` on an `unsigned int` is `j ^^^ 0xffffffff`; the store to a `uint8_t` is `% 256`. -/
def next_addr_bit (mask : List Nat) (i j : Nat) (s : addloop) : addloop :=
  if s.out then s
  else if mask.getD i 0 &&& j ≠ 0 then s
  else if s.cur.getD i 0 &&& j ≠ 0 then
    { cur := s.cur.set i ((s.cur.getD i 0 &&& (j ^^^ 0xffffffff)) % 256),
      any := true, carry := true, out := false }
  else
    { cur := s.cur.set i ((s.cur.getD i 0 ||| j) % 256),
      any := true, carry := false, out := true }

/-- The inner loop of `next_addr`: `for(j = 1; j != (1 << 8); j <<= 1)`. -/
def next_addr_byte (mask : List Nat) (s : addloop) (i : Nat) : addloop :=
  [1, 2, 4, 8, 16, 32, 64, 128].foldl (fun s j => next_addr_bit mask i j s) s

/-- The outer loop of `next_addr`: `for(i = 15; i >= 0; i--)`. -/
def next_addr_loop (mask : List Nat) (s : addloop) : addloop :=
  [15, 14, 13, 12, 11, 10, 9, 8, 7, 6, 5, 4, 3, 2, 1, 0].foldl (next_addr_byte mask) s

/-- The function `next_addr`: the new target state and the address written to `dst`. -/
def next_addr (t : targetstate) : targetstate × List Nat :=
  let dst := (List.range 16).map (fun i => t.spec.addr.getD i 0 ||| t.cur.getD i 0)
  let s := next_addr_loop t.spec.mask { cur := t.cur, any := false, carry := false, out := false }
  ({ spec := t.spec, cur := s.cur, delayed_start := t.delayed_start,
     done := if !s.any || s.carry then true else t.done }, dst)

/-- The body of the inner loop of `progress_single` on the pair `(_total, _done)`. -/
def progress_bit (t : targetstate) (i j : Nat) (s : Nat × Nat) : Nat × Nat :=
  if t.spec.mask.getD i 0 &&& j ≠ 0 then s
  else (((s.1 <<< 1) % 2 ^ 64) ||| 1,
        ((s.2 <<< 1) % 2 ^ 64) ||| (if t.cur.getD i 0 &&& j ≠ 0 then 1 else 0))

/-- The inner loop of `progress_single`: `for(j = (1 << 7); j != 0; j >>= 1)`. -/
def progress_byte (t : targetstate) (s : Nat × Nat) (i : Nat) : Nat × Nat :=
  [128, 64, 32, 16, 8, 4, 2, 1].foldl (fun s j => progress_bit t i j s) s

/-- The loops of `progress_single`, giving the final `(_total, _done)`. -/
def progress_loop (t : targetstate) : Nat × Nat :=
  (List.range 16).foldl (progress_byte t) (0, 0)

/-- The function `progress_single`: the new values of `*total` and `*done`. -/
def progress_single (t : targetstate) (total done : Nat) : Nat × Nat :=
  let s := progress_loop t
  ((total + (s.1 + 1) % 2 ^ 64) % 2 ^ 64,
   if t.done then (done + (s.1 + 1) % 2 ^ 64) % 2 ^ 64 else (done + s.2) % 2 ^ 64)

/-- The function `count_total`: the new values of `*total` and `*overflowed`. -/
def count_total (t : targetstate) (total : Nat) (overflowed : Bool) : Nat × Bool :=
  let one := (progress_single t 0 0).1
  if one = 0 then (total, true)
  else
    let tmp := total
    let total := (total + one) % 2 ^ 64
    if total < tmp then (total, true) else (total, overflowed)

/-- The loop of `popcount`, `for (; x; x >>= 1) c += x & 1`, for a `uint32_t`: at most 32
rounds are needed, since `x < 2 ^ 32`. -/
def popcount_loop : Nat → Nat → Nat → Nat
  | 0, _, c => c
  | fuel + 1, x, c => if x = 0 then c else popcount_loop fuel (x >>> 1) (c + (x &&& 1))

/-- The function `popcount` on a `uint32_t`. -/
def popcount (x : Nat) : Nat := popcount_loop 32 (x % 2 ^ 32) 0

/-- The target state that `target_gen_add` stores for the spec `s`: `done = 0`,
`delayed_start = 0`, the spec copied, `cur` zeroed. -/
def new_target (s : targetspec) : targetstate :=
  { spec := s, cur := List.replicate 16 0, delayed_start := 0, done := false }

/-! ## Definitions: bits of a sixteen-byte array -/

/-- A well-formed `uint8_t[16]`: sixteen entries, each below 256. -/
def wf16 (l : List Nat) : Prop := l.length = 16 ∧ ∀ x ∈ l, x < 256

instance (l : List Nat) : Decidable (wf16 l) := by unfold wf16; infer_instance

/-- Bit `p` (0 = least significant) of the 128-bit big-endian number held in `l`: bit
`p % 8` of byte `15 - p / 8`. -/
def bitAt (l : List Nat) (p : Nat) : Bool := (l.getD (15 - p / 8) 0).testBit (p % 8)

/-- The number of varying (mask bit clear) positions below `n`. -/
def nvar (mask : List Nat) : Nat → Nat
  | 0 => 0
  | n + 1 => nvar mask n + (if bitAt mask n then 0 else 1)

/-- The squeezed value of the low `n` positions of `cur`: the number whose binary digits
are the bits of `cur` at the varying positions below `n`, in significance order. -/
def squeeze (mask cur : List Nat) : Nat → Nat
  | 0 => 0
  | n + 1 => squeeze mask cur n + (if !bitAt mask n && bitAt cur n then 2 ^ nvar mask n else 0)

/-- The number of varying bits of a mask, `popcount(~mask)`: the sum over the sixteen bytes
of the `popcount` of the complemented byte. -/
def varying_bits (mask : List Nat) : Nat :=
  ((List.range 16).map (fun i => popcount (mask.getD i 0 ^^^ 0xff))).sum

/-- Bytewise `a & b` of two sixteen-byte arrays. -/
def and16 (a b : List Nat) : List Nat :=
  (List.range 16).map (fun i => a.getD i 0 &&& b.getD i 0)

/-- Bytewise `a | b` of two sixteen-byte arrays. -/
def or16 (a b : List Nat) : List Nat :=
  (List.range 16).map (fun i => a.getD i 0 ||| b.getD i 0)

/-- Bytewise `a & ~b` of two sixteen-byte arrays. -/
def andnot16 (a b : List Nat) : List Nat :=
  (List.range 16).map (fun i => a.getD i 0 &&& (b.getD i 0 ^^^ 0xff))

/-- The all-zero sixteen-byte array. -/
def zero16 : List Nat := List.replicate 16 0

/-- The state after `n` calls of `next_addr` on one target, with the addresses emitted,
oldest first. -/
def next_addr_iter : Nat → targetstate → targetstate × List (List Nat)
  | 0, t => (t, [])
  | n + 1, t =>
    let r := next_addr_iter n t
    let r2 := next_addr r.1
    (r2.1, r.2 ++ [r2.2])

/-- The state of the addition loop of `next_addr` after its first `n` iterations, which
visit the bit positions `0, ..., n - 1` (byte `15 - p / 8`, bit value `2 ^ (p % 8)`). -/
def add_steps (mask : List Nat) (s : addloop) : Nat → addloop
  | 0 => s
  | n + 1 => next_addr_bit mask (15 - n / 8) (2 ^ (n % 8)) (add_steps mask s n)

/-- The pair `(_total, _done)` of `progress_single` after the first `n` iterations of its
loops, which visit the bit positions `127, ..., 128 - n` (byte `n / 8`, bit value
`2 ^ (7 - n % 8)`). -/
def prog_steps (t : targetstate) : Nat → Nat × Nat
  | 0 => (0, 0)
  | n + 1 => progress_bit t (n / 8) (2 ^ (7 - n % 8)) (prog_steps t n)

/-- The number of clear bits among the low eight bits of a byte. -/
def nvar_byte (m : Nat) : Nat :=
  (if m.testBit 0 then 0 else 1) + (if m.testBit 1 then 0 else 1) +
  (if m.testBit 2 then 0 else 1) + (if m.testBit 3 then 0 else 1) +
  (if m.testBit 4 then 0 else 1) + (if m.testBit 5 then 0 else 1) +
  (if m.testBit 6 then 0 else 1) + (if m.testBit 7 then 0 else 1)

/-- No fixed-position bit of `cur` is set. -/
def masked0 (mask cur : List Nat) : Prop :=
  ∀ p < 128, bitAt mask p = true → bitAt cur p = false

/-- The invariant of the addition loop of `next_addr` after `n` iterations. -/
def add_inv (mask cur0 : List Nat) (n : Nat) (s : addloop) : Prop :=
  wf16 s.cur ∧
  (∀ p < 128, (n ≤ p ∨ bitAt mask p = true) → bitAt s.cur p = bitAt cur0 p) ∧
  (s.out = false → squeeze mask cur0 n + 1 = 2 ^ nvar mask n ∧ squeeze mask s.cur n = 0 ∧
      s.carry = s.any ∧ s.any = decide (0 < nvar mask n)) ∧
  (s.out = true → squeeze mask s.cur n = squeeze mask cur0 n + 1 ∧ s.any = true ∧
      s.carry = false)

/-- The invariant of the loops of `progress_single` once the positions `q, ..., 127` were
visited; `K` and `S` stand for the number of varying bits and the squeezed value of `cur`. -/
def prog_inv (t : targetstate) (K S q : Nat) (s : Nat × Nat) : Prop :=
  ∃ v, v + nvar t.spec.mask q = K ∧ s.1 + 1 = 2 ^ (min v 64) ∧
    (K ≤ 64 → S < 2 ^ K → s.2 * 2 ^ nvar t.spec.mask q + squeeze t.spec.mask t.cur q = S)

/-- What holds of a target after any number of `next_addr` calls since `target_gen_add`. -/
def target_inv (t : targetstate) : Prop :=
  wf16 t.cur ∧ masked0 t.spec.mask t.cur

/-! ## Definitions: example inputs -/

/-- The address `2001:db8::`. -/
def ex_addr_db8 : List Nat := [0x20, 0x01, 0x0d, 0xb8, 0, 0, 0, 0, 0, 0, 0, 0, 0, 0, 0, 0]

/-- The mask of a `/126`: all bits fixed but the two lowest. -/
def ex_mask_126 : List Nat :=
  [255, 255, 255, 255, 255, 255, 255, 255, 255, 255, 255, 255, 255, 255, 255, 252]

/-! ## Definitions: `target-gen.c`, the generator -/

/-- What `target-gen.c` takes from files that are not among the sources: the constants
`TARGET_RANDOMIZE_SIZE`, `TARGET_SANITY_MAX_BITS` and `TARGET_EVEN_SPREAD` of `target.h`,
and the helpers `trim_string` (called with the set `" \t\r\n"`) and `parse_ipv6` of
`util.c`, `parse_ipv6` giving the sixteen bytes or `none` for a negative return. -/
structure consts where
  TARGET_RANDOMIZE_SIZE : Nat
  TARGET_SANITY_MAX_BITS : Nat
  TARGET_EVEN_SPREAD : Bool
  trim_string : List Char → List Char
  parse_ipv6 : List Char → Option (List Nat)

/-- The static variables of `target-gen.c`. `targets_i` is the length of `targets`;
`targets_from` is what is left to read of the stream; `rand_next k` is the outcome of the
`k`-th call from now of the C library's `rand()` or of `rand64()` of `util.c`. -/
structure gen where
  randomize : Bool
  mode_streaming : Bool
  cache : List (List Nat)
  cache_i : Nat
  cache_size : Nat
  targets_from : List Char
  targets : List targetstate
  rand_next : Nat → Nat

/-- One call of `rand()`: an `int` in `[0, RAND_MAX]`, and the outcomes left. -/
def rand (r : Nat → Nat) : Nat × (Nat → Nat) := (r 0 % 2 ^ 31, fun k => r (k + 1))

/-- One call of `rand64()`: a `uint64_t`, and the outcomes left. -/
def rand64 (r : Nat → Nat) : Nat × (Nat → Nat) := (r 0 % 2 ^ 64, fun k => r (k + 1))

/-- The loop of `shuffle`, `for(i = n-1; i > 0; i--)`, entered with the loop variable
equal to the first argument: `j = rand() % (i+1)`, then elements `j` and `i` are swapped
through `tmp`. -/
def shuffle_loop {α : Type} : Nat → List α → (Nat → Nat) → List α × (Nat → Nat)
  | 0, buf, r => (buf, r)
  | i + 1, buf, r =>
    let j := (rand r).1 % (i + 1 + 1)
    let buf2 := match buf[j]?, buf[i + 1]? with
      | some tmp, some bi => (buf.set j bi).set (i + 1) tmp
      | _, _ => buf
    shuffle_loop i buf2 (rand r).2

/-- The function `shuffle` on a buffer of `n` elements (of any stride). -/
def shuffle {α : Type} (r : Nat → Nat) (buf : List α) (n : Nat) : List α × (Nat → Nat) :=
  shuffle_loop (n - 1) buf r

/-- The state of the process before `target_gen_init`: the initialisers `randomize = 1`,
`mode_streaming = 0`, and the outcomes `r` that `rand()` is going to give. -/
def gen_static (r : Nat → Nat) : gen :=
  { randomize := true, mode_streaming := false, cache := [], cache_i := 0, cache_size := 0,
    targets_from := [], targets := [], rand_next := r }

/-- The function `target_gen_init` (allocation taken to succeed): a zeroed cache of
`TARGET_RANDOMIZE_SIZE` slots and no target. -/
def target_gen_init (E : consts) (g : gen) : gen :=
  { g with cache := List.replicate E.TARGET_RANDOMIZE_SIZE (List.replicate 16 0),
           cache_i := 0, cache_size := 0, targets := [] }

/-- The function `target_gen_set_randomized`. -/
def target_gen_set_randomized (g : gen) (v : Int) : gen :=
  { g with randomize := decide (v ≠ 0) }

/-- The function `target_gen_set_streaming`; `none` is the null pointer. -/
def target_gen_set_streaming (g : gen) (f : Option (List Char)) : gen :=
  { g with mode_streaming := f.isSome, targets_from := f.getD [] }

/-- The function `target_gen_add` (reallocation taken to succeed). -/
def target_gen_add (g : gen) (s : targetspec) : Int × gen :=
  if g.mode_streaming then (-1, g)
  else (0, { g with targets := g.targets ++ [new_target s] })

/-- The first loop of `target_gen_finish_add`: the largest per-target total. -/
def finish_add_max (ts : List targetstate) : Nat :=
  ts.foldl (fun max t => if (progress_single t 0 0).1 > max then (progress_single t 0 0).1
    else max) 0

/-- The second loop of `target_gen_finish_add`, which draws the delays; `none` when
`assert(max > tmp)` fails. -/
def finish_add_delays (max : Nat) :
    List targetstate → (Nat → Nat) → Option (List targetstate × (Nat → Nat))
  | [], r => some ([], r)
  | t :: ts, r =>
    let tmp := (progress_single t 0 0).1
    if tmp = max then
      match finish_add_delays max ts r with
      | some (ts2, r2) => some (t :: ts2, r2)
      | none => none
    else if max > tmp then
      match finish_add_delays max ts (rand64 r).2 with
      | some (ts2, r2) =>
        some ({ t with delayed_start := (rand64 r).1 % ((max - tmp + 1) % 2 ^ 64) } :: ts2, r2)
      | none => none
    else none

/-- The function `target_gen_finish_add`: the value returned and the new state, or
`none` when an assertion fails. -/
def target_gen_finish_add (E : consts) (g : gen) : Option (Int × gen) :=
  if g.mode_streaming then some (0, g)
  else if g.targets.length = 0 then some (-1, g)
  else
    let spread : Option (List targetstate × (Nat → Nat)) :=
      if E.TARGET_EVEN_SPREAD then finish_add_delays (finish_add_max g.targets) g.targets g.rand_next
      else some (g.targets, g.rand_next)
    match spread with
    | none => none
    | some (ts, r) =>
      if g.randomize then
        some (0, { g with targets := (shuffle r ts ts.length).1,
                          rand_next := (shuffle r ts ts.length).2 })
      else some (0, { g with targets := ts, rand_next := r })

/-- The call `fgets(buf, size, f)` once the stream is known not to be at its end: at most
`n = size - 1` characters, up to and including the first newline; and the rest. -/
def fgets_loop : Nat → List Char → List Char × List Char
  | 0, f => ([], f)
  | _ + 1, [] => ([], [])
  | n + 1, c :: f =>
    if c = Char.ofNat 10 then ([c], f)
    else ((c :: (fgets_loop n f).1), (fgets_loop n f).2)

/-- The call `fgets(buf, size, f)`: `none` for `NULL`, at the end of the stream. -/
def fgets (size : Nat) (f : List Char) : Option (List Char × List Char) :=
  if f = [] then none else some (fgets_loop (size - 1) f)

/-- The variables that the loops of `fill_cache` change: the cache, `cache_size`, the flag
`any`, and `out`, set once `goto out` was taken because the cache is full. -/
structure fillst where
  cache : List (List Nat)
  cache_size : Nat
  any : Bool
  out : Bool

/-- The streaming loop of `fill_cache`, `while(cache_size < TARGET_RANDOMIZE_SIZE)`; `none`
when the fuel runs out. -/
def fill_stream (E : consts) :
    Nat → List Char → List (List Nat) → Nat → Option (List Char × List (List Nat) × Nat)
  | 0, _, _, _ => none
  | fuel + 1, f, cache, cache_size =>
    if cache_size < E.TARGET_RANDOMIZE_SIZE then
      match fgets 128 f with
      | none => some (f, cache, cache_size)
      | some (buf, f2) =>
        let buf := E.trim_string buf
        if buf.head? = some (Char.ofNat 35) || buf.head? = none then
          fill_stream E fuel f2 cache cache_size
        else
          match E.parse_ipv6 buf with
          | none => some (f2, cache, cache_size)
          | some a => fill_stream E fuel f2 (cache.set cache_size a) (cache_size + 1)
    else some (f, cache, cache_size)

/-- The loop `for(int i = 0; i < targets_i; i++)` of `fill_cache` over the targets not yet
visited in this round. -/
def fill_round (E : consts) : List targetstate → fillst → List targetstate × fillst
  | [], s => ([], s)
  | t :: ts, s =>
    if t.done then (t :: (fill_round E ts s).1, (fill_round E ts s).2)
    else if t.delayed_start > 0 then
      ({ t with delayed_start := t.delayed_start - 1 } :: (fill_round E ts s).1,
        (fill_round E ts s).2)
    else
      let s2 : fillst :=
        { cache := s.cache.set s.cache_size (next_addr t).2, cache_size := s.cache_size + 1,
          any := true, out := false }
      if s2.cache_size = E.TARGET_RANDOMIZE_SIZE then
        ((next_addr t).1 :: ts, { s2 with out := true })
      else ((next_addr t).1 :: (fill_round E ts s2).1, (fill_round E ts s2).2)

/-- The loop `while(1)` of `fill_cache`; `none` when the fuel runs out. -/
def fill_while (E : consts) :
    Nat → List targetstate → fillst → Option (List targetstate × fillst)
  | 0, _, _ => none
  | fuel + 1, ts, s =>
    let r := fill_round E ts { s with any := false }
    if r.2.out then some r
    else if !r.2.any then some r
    else fill_while E fuel r.1 r.2

/-- The function `fill_cache`; `none` if one of its loops does not end. The streaming loop
reads at least one character per round, the other loop fills at least one slot per round. -/
def fill_cache (E : consts) (g : gen) : Option gen :=
  if g.mode_streaming then
    match fill_stream E (g.targets_from.length + 1) g.targets_from g.cache 0 with
    | none => none
    | some (f, cache, cache_size) =>
      some { g with cache_i := 0, cache_size := cache_size, cache := cache, targets_from := f }
  else
    match fill_while E (E.TARGET_RANDOMIZE_SIZE + 1) g.targets
        { cache := g.cache, cache_size := 0, any := false, out := false } with
    | none => none
    | some (ts, s) =>
      some { g with cache_i := 0, cache_size := s.cache_size, cache := s.cache, targets := ts }

/-- The function `target_gen_next`: `none` if it does not return; otherwise the address
copied to `dst` (`none` for the return value -1) and the new state. -/
def target_gen_next (E : consts) (g : gen) : Option (Option (List Nat) × gen) :=
  if g.cache_i = g.cache_size then
    match fill_cache E g with
    | none => none
    | some g1 =>
      if g1.cache_size = 0 then some (none, g1)
      else
        let g2 : gen :=
          if g1.randomize then
            { g1 with cache := (shuffle g1.rand_next g1.cache g1.cache_size).1,
                      rand_next := (shuffle g1.rand_next g1.cache g1.cache_size).2 }
          else g1
        some (some (g2.cache.getD g2.cache_i []), { g2 with cache_i := g2.cache_i + 1 })
  else some (some (g.cache.getD g.cache_i []), { g with cache_i := g.cache_i + 1 })

/-- The sums `total` and `done` of `target_gen_progress` after its loop over the targets. -/
def progress_sums (ts : List targetstate) : Nat × Nat :=
  ts.foldl (fun s t => progress_single t s.1 s.2) (0, 0)

/-- The value of `done` in `target_gen_progress` after `done -= cache_size - cache_i`, an
`int` converted to `uint64_t`. -/
def progress_done (g : gen) : Nat :=
  ((((progress_sums g.targets).2 : Int) - ((g.cache_size : Int) - (g.cache_i : Int)))
    % 2 ^ 64).toNat

/-- The function `target_gen_progress`. The `float` it returns is given as the rational
number `q / 1000` with `q = done * 1000 / total` the integer quotient the code computes
(`q <= 1000` is exact in a `float`); `-1` stands for `-1.0f`. -/
def target_gen_progress (g : gen) : ℚ :=
  if g.mode_streaming then -1
  else if (progress_sums g.targets).1 = 0 then -1
  else (((progress_done g * 1000 % 2 ^ 64) / (progress_sums g.targets).1 : Nat) : ℚ) / 1000

/-- The function `target_gen_sanity_check`: its return value. -/
def target_gen_sanity_check (E : consts) (g : gen) : Int :=
  let s := g.targets.foldl (fun s t => count_total t s.1 s.2) (0, false)
  let limit := (1 <<< E.TARGET_SANITY_MAX_BITS) % 2 ^ 64
  if s.2 || s.1 ≥ limit then -1 else 0

/-- The generator after `target_gen_init`, `target_gen_set_randomized(v)` and one
`target_gen_add` per spec, as `main` does for non-streamed targets. -/
def gen_load (E : consts) (r : Nat → Nat) (v : Int) (specs : List targetspec) : gen :=
  specs.foldl (fun g s => (target_gen_add g s).2)
    (target_gen_set_randomized (target_gen_init E (gen_static r)) v)

/-- The outcome of `n` calls of `target_gen_next` in a row: the number of calls that
returned 0, the addresses they produced, and the final state; `none` if a call does not
return. -/
def gen_calls (E : consts) : Nat → gen → Option (Nat × List (List Nat) × gen)
  | 0, g => some (0, [], g)
  | n + 1, g =>
    match gen_calls E n g with
    | none => none
    | some (k, out, g1) =>
      match target_gen_next E g1 with
      | none => none
      | some (none, g2) => some (k, out, g2)
      | some (some a, g2) => some (k + 1, out ++ [a], g2)

/-- The exact (unbounded) number of addresses of a list of targets: the sum of
`2^popcount(~mask)`. -/
def exact_total (ts : List targetstate) : Nat :=
  (ts.map (fun t => 2 ^ varying_bits t.spec.mask)).sum

/-- How the pair `(total, overflowed)` kept by `count_total` relates to the exact sum `S`. -/
def count_inv (S : Nat) (s : Nat × Bool) : Prop :=
  s.1 < 2 ^ 64 ∧ (s.2 = false → s.1 = S) ∧ (s.2 = true → 2 ^ 64 ≤ S)

/-- Example values for what the sources at hand do not define: the cache size 1024 and the
sanity limit `2^40` that the specification names, even spread switched on, and stand-ins
for the two string helpers (no claim about non-streamed targets depends on them). -/
def ex_consts : consts :=
  { TARGET_RANDOMIZE_SIZE := 1024, TARGET_SANITY_MAX_BITS := 40, TARGET_EVEN_SPREAD := true,
    trim_string := id, parse_ipv6 := fun _ => none }

/-- The progress of one target as `progress_single` counts it: all of its `2^k` addresses
once it is done, the squeezed value of `cur` before. -/
def tprog (t : targetstate) : Nat :=
  if t.done then 2 ^ nvar t.spec.mask 128 else squeeze t.spec.mask t.cur 128

/-- A target state whose counters fit 64 bits: `cur` is well-formed, has no fixed-position
bit set, and there are fewer than 64 varying bits. -/
def tgood (t : targetstate) : Prop :=
  wf16 t.cur ∧ masked0 t.spec.mask t.cur ∧ nvar t.spec.mask 128 < 64

/-- The sum of the per-target totals `2^k`. -/
def sumT (ts : List targetstate) : Nat := (ts.map (fun t => 2 ^ nvar t.spec.mask 128)).sum

/-- The sum of the per-target progress. -/
def sumP (ts : List targetstate) : Nat := (ts.map tprog).sum

/-- The invariant of a non-streaming generator of `T` addresses that has handed out `n` of
them: what the targets have produced is what was handed out plus what is buffered. -/
def gen_inv (T n : Nat) (g : gen) : Prop :=
  g.mode_streaming = false ∧ (∀ t ∈ g.targets, tgood t) ∧ sumT g.targets = T ∧
  g.cache_i ≤ g.cache_size ∧ sumP g.targets = n + (g.cache_size - g.cache_i)

/-- The part of a target state that `target_gen_finish_add` leaves alone. -/
def tcore (t : targetstate) : targetspec × List Nat × Bool := (t.spec, t.cur, t.done)

/-- The combined address total of a list of specs: the sum of `2^popcount(~mask)`. -/
def total_addresses (specs : List targetspec) : Nat :=
  (specs.map (fun s => 2 ^ varying_bits s.mask)).sum

/-- A target that has not started yet and waits `d` visits before its first address. -/
def waiting_target (s : targetspec) (d : Nat) : targetstate :=
  { spec := s, cur := List.replicate 16 0, delayed_start := d, done := false }

/-- The mask of a `/117`: eleven varying bits, 2048 addresses. -/
def ex_mask_117 : List Nat :=
  [255, 255, 255, 255, 255, 255, 255, 255, 255, 255, 255, 255, 255, 255, 248, 0]

/-- The mask of a `/128`: no varying bit, one address. -/
def ex_mask_128 : List Nat :=
  [255, 255, 255, 255, 255, 255, 255, 255, 255, 255, 255, 255, 255, 255, 255, 255]

/-- The address `2001:db9::`. -/
def ex_addr_db9 : List Nat := [0x20, 0x01, 0x0d, 0xb9, 0, 0, 0, 0, 0, 0, 0, 0, 0, 0, 0, 0]

/-- The targets of the generator loaded with a spec `sA` of `2 * TARGET_RANDOMIZE_SIZE`
addresses and a spec `sB` delayed by `2 * TARGET_RANDOMIZE_SIZE - 1`, once `i` addresses
were handed out. -/
def stall_targets (E : consts) (sA sB : targetspec) (i : Nat) : List targetstate :=
  if i = 0 then [new_target sA, waiting_target sB (2 * E.TARGET_RANDOMIZE_SIZE - 1)]
  else if i ≤ E.TARGET_RANDOMIZE_SIZE then
    [(next_addr_iter E.TARGET_RANDOMIZE_SIZE (new_target sA)).1,
      waiting_target sB E.TARGET_RANDOMIZE_SIZE]
  else [(next_addr_iter (2 * E.TARGET_RANDOMIZE_SIZE) (new_target sA)).1, waiting_target sB 1]

/-- The state of that generator once `i` addresses were handed out, the cache contents and
the addresses apart. -/
def stall_state (E : consts) (sA sB : targetspec) (i : Nat) (g : gen) : Prop :=
  g.randomize = false ∧ g.mode_streaming = false ∧ g.targets = stall_targets E sA sB i ∧
  g.cache_size = (if i = 0 then 0 else E.TARGET_RANDOMIZE_SIZE) ∧
  g.cache_i = (if i = 0 then 0 else if i ≤ E.TARGET_RANDOMIZE_SIZE then i
    else i - E.TARGET_RANDOMIZE_SIZE)

/-- The spec `2001:db8::/117`, of 2048 addresses. -/
def ex_spec_large : targetspec := { addr := ex_addr_db8, mask := ex_mask_117 }

/-- The spec `2001:db9::/128`, of one address. -/
def ex_spec_small : targetspec := { addr := ex_addr_db9, mask := ex_mask_128 }

/-- The generator loaded with `2001:db8::/117` and `2001:db9::/128`, in this order, with
randomization off, after `target_gen_finish_add` when `rand64()` gives 2047: the small
target starts with a delay of 2047. -/
def ex_stall_gen : gen :=
  { randomize := false, mode_streaming := false,
    cache := List.replicate 1024 (List.replicate 16 0), cache_i := 0, cache_size := 0,
    targets_from := [], targets := [new_target ex_spec_large, waiting_target ex_spec_small 2047],
    rand_next := fun _ => 2047 }

/-! ## Definitions: `scan.c` -/

/-- `SEND_FINISHED = (1 << 0)`. -/
def SEND_FINISHED : Nat := 1

/-- `ERROR_SEND_THREAD = (1 << 1)`. -/
def ERROR_SEND_THREAD : Nat := 2

/-- `ERROR_RECV_THREAD = (1 << 2)`. -/
def ERROR_RECV_THREAD : Nat := 4

/-- `#define FIRST_SEQNUM 0xf0000000` of `scan.h`. -/
def FIRST_SEQNUM : Nat := 0xf0000000

/-- `UINT_MAX` of `limits.h` for a 32-bit `unsigned int`. -/
def UINT_MAX : Nat := 2 ^ 32 - 1

/-- What `scan.c` takes from headers and files that are not among the sources: the sizes
of the headers, `BANNER_MAX_LENGTH`, the codes of the three IP types, `ICMP_BODY`, and
`banner_postprocess` of `banner.c` (IP type, port, bytes; the bytes it leaves). -/
structure scanconsts where
  FRAME_ETH_SIZE : Nat
  FRAME_IP_SIZE : Nat
  TCP_HEADER_SIZE : Nat
  UDP_HEADER_SIZE : Nat
  ICMP_HEADER_SIZE : Nat
  BANNER_MAX_LENGTH : Nat
  IP_TYPE_TCP : Nat
  IP_TYPE_UDP : Nat
  IP_TYPE_ICMPV6 : Nat
  ICMP_BODY : Nat
  banner_postprocess : Nat → Nat → List Nat → List Nat

/-- The configuration variables of `scan.c`: `source_addr`, `source_port`, `ports`,
`max_rate`, `show_closed`, `banners`, `ip_type`, and the flag `outdef.raw`. The port set is
kept as the sequence of port values that its iterator produces. -/
structure scan where
  source_addr : List Nat
  source_port : Int
  ports : List Nat
  max_rate : Nat
  show_closed : Int
  banners : Int
  ip_type : Nat
  raw : Bool

/-- The function `scan_set_general`; the `int` `_max_rate - 1` is converted to
`unsigned int`. -/
def scan_set_general (c : scan) (_ports : List Nat) (_max_rate _show_closed _banners : Int) :
    scan :=
  { c with ports := _ports,
           max_rate := if _max_rate < 0 then UINT_MAX else ((_max_rate - 1) % 2 ^ 32).toNat,
           show_closed := _show_closed, banners := _banners }

/-- The function `scan_set_network`. -/
def scan_set_network (c : scan) (_source_addr : List Nat) (_source_port : Int)
    (_ip_type : Nat) : scan :=
  { c with source_addr := _source_addr, source_port := _source_port, ip_type := _ip_type }

/-- The function `source_port_rand`: the value returned and the outcomes of `rand()` left. -/
def source_port_rand (r : Nat → Nat) : Int × (Nat → Nat) :=
  ((((rand r).1 &&& 0xffff) ||| 16384 : Nat), (rand r).2)

/-- Modelled from the spec: `struct ports_iter` with `ports_iter_begin` and
`ports_iter_next`, which are not among the sources. The iterator produces each port value
of its set in order; `begin` rewinds, with a null pointer it rewinds on the set it is on;
`next` returns 0 past the end and otherwise stores the port in `val`. -/
structure ports_iter where
  set : List Nat
  pos : Nat
  val : Nat
deriving DecidableEq, Repr

/-- Modelled from the spec: `ports_iter_begin`; `none` is the null pointer. -/
def ports_iter_begin (p : Option (List Nat)) (it : ports_iter) : ports_iter :=
  { set := p.getD it.set, pos := 0, val := it.val }

/-- Modelled from the spec: `ports_iter_next`, the value returned and the iterator. -/
def ports_iter_next (it : ports_iter) : Int × ports_iter :=
  match it.set[it.pos]? with
  | some v => (1, { set := it.set, pos := it.pos + 1, val := v })
  | none => (0, it)

/-- Modelled from the spec: the fields of the frame that `send_thread_tcp` builds with the
encoders of `rawsock.c` and `tcp.c`, which are not among the sources: the destination
address, the two ports, the sequence and acknowledgement numbers, the flags. -/
structure tcp_frame where
  dstaddr : List Nat
  srcport : Nat
  dstport : Nat
  seqnum : Nat
  acknum : Nat
  f_syn : Bool
  f_ack : Bool
  f_rst : Bool
deriving DecidableEq, Repr

/-- Modelled from the spec: the frame after `rawsock_eth_prepare` and `rawsock_ip_prepare`,
no field of the model set yet. -/
def frame_prepared : tcp_frame :=
  { dstaddr := [], srcport := 0, dstport := 0, seqnum := 0, acknum := 0, f_syn := false,
    f_ack := false, f_rst := false }

/-- Modelled from the spec: `rawsock_ip_modify` stores the destination address. -/
def rawsock_ip_modify (f : tcp_frame) (dstaddr : List Nat) : tcp_frame :=
  { f with dstaddr := dstaddr }

/-- Modelled from the spec: `tcp_prepare` initialises the TCP header. -/
def tcp_prepare (f : tcp_frame) : tcp_frame :=
  { f with srcport := 0, dstport := 0, seqnum := 0, acknum := 0, f_syn := false,
           f_ack := false, f_rst := false }

/-- Modelled from the spec: `tcp_make_syn` makes the segment a SYN with the given sequence
number and acknowledgement 0. -/
def tcp_make_syn (f : tcp_frame) (seqnum : Nat) : tcp_frame :=
  { f with seqnum := seqnum % 2 ^ 32, acknum := 0, f_syn := true, f_ack := false,
           f_rst := false }

/-- Modelled from the spec: `tcp_modify` stores the two ports, each `& 0xffff` as
`udp_modify` of `udp.c` does. -/
def tcp_modify (f : tcp_frame) (srcport dstport : Int) : tcp_frame :=
  { f with srcport := (srcport % 65536).toNat, dstport := (dstport % 65536).toNat }

/-- The rate control of the senders as one sender sees it: `atomic_fetch_add(&pkts_sent, 1)`
and, if the value before was at least `max_rate`, the wait until the stats loop has stored
0 in `pkts_sent`. The value of `pkts_sent` afterwards. -/
def rate_control (c : scan) (pkts_sent : Nat) : Nat :=
  if pkts_sent ≥ c.max_rate then 0 else (pkts_sent + 1) % 2 ^ 32

/-- The local variables of `send_thread_tcp` inside its loop, the generator, the frames
given to `rawsock_send` so far (oldest first) and the counter `pkts_sent`. -/
structure tcp_loop where
  gen : gen
  packet : tcp_frame
  it : ports_iter
  wire : List tcp_frame
  pkts_sent : Nat

/-- The loop `while(1)` of `send_thread_tcp`; `none` when the fuel runs out or
`target_gen_next` does not return; otherwise the state at the `break`. `tcp_checksum`
changes no field of the model. -/
def send_loop_tcp (E : consts) (c : scan) : Nat → tcp_loop → Option tcp_loop
  | 0, _ => none
  | fuel + 1, s =>
    if (ports_iter_next s.it).1 = 0 then
      match target_gen_next E s.gen with
      | none => none
      | some (none, g) =>
        some { gen := g, packet := s.packet, it := (ports_iter_next s.it).2, wire := s.wire,
               pkts_sent := s.pkts_sent }
      | some (some dstaddr, g) =>
        send_loop_tcp E c fuel
          { gen := g, packet := rawsock_ip_modify s.packet dstaddr,
            it := ports_iter_begin none (ports_iter_next s.it).2, wire := s.wire,
            pkts_sent := s.pkts_sent }
    else
      let sp : Int × (Nat → Nat) :=
        if c.source_port = -1 then source_port_rand s.gen.rand_next
        else (c.source_port, s.gen.rand_next)
      let packet := tcp_modify s.packet sp.1 (ports_iter_next s.it).2.val
      send_loop_tcp E c fuel
        { gen := { s.gen with rand_next := sp.2 }, packet := packet,
          it := (ports_iter_next s.it).2, wire := s.wire ++ [packet],
          pkts_sent := rate_control c s.pkts_sent }

/-- What a sender thread leaves behind: the generator, the frames given to `rawsock_send`
(oldest first), `pkts_sent` and `status_bits`. -/
structure sender where
  gen : gen
  wire : List tcp_frame
  pkts_sent : Nat
  status_bits : Nat

/-- The function `send_thread_tcp`, started with the given generator, `pkts_sent` and
`status_bits`; `none` if it does not return with the given fuel. -/
def send_thread_tcp (E : consts) (c : scan) (fuel : Nat) (g : gen)
    (pkts_sent status_bits : Nat) : Option sender :=
  match target_gen_next E g with
  | none => none
  | some (none, g1) =>
    some { gen := g1, wire := [], pkts_sent := pkts_sent,
           status_bits := status_bits ||| ERROR_SEND_THREAD }
  | some (some dstaddr, g1) =>
    match send_loop_tcp E c fuel
        { gen := g1,
          packet := tcp_make_syn (tcp_prepare (rawsock_ip_modify frame_prepared dstaddr))
            FIRST_SEQNUM,
          it := ports_iter_begin (some c.ports) { set := [], pos := 0, val := 0 },
          wire := [], pkts_sent := pkts_sent } with
    | none => none
    | some s =>
      some { gen := s.gen, wire := s.wire, pkts_sent := s.pkts_sent,
             status_bits := status_bits ||| SEND_FINISHED }

/-- The generator after its caller has made `k` calls of `rand()`. -/
def shift_rand (g : gen) (k : Nat) : gen :=
  { g with rand_next := fun i => g.rand_next (i + k) }

/-- The output sequence of the generator: the addresses that `target_gen_next` gives when it
is called until it returns -1, its caller making `draws` calls of `rand()` after each
address; `none` when the fuel runs out first or a call does not return. -/
def gen_drain (E : consts) (draws : Nat) : Nat → gen → Option (List (List Nat) × gen)
  | 0, _ => none
  | fuel + 1, g =>
    match target_gen_next E g with
    | none => none
    | some (none, g1) => some ([], g1)
    | some (some a, g1) =>
      match gen_drain E draws fuel (shift_rand g1 draws) with
      | none => none
      | some (as, g2) => some (a :: as, g2)

/-- The frames that a TCP scan of the addresses `as` on the ports `ps` is to send, in
address-major order, as pairs of destination address and destination port. -/
def syn_targets (as : List (List Nat)) (ps : List Nat) : List (List Nat × Nat) :=
  as.flatMap (fun a => ps.map (fun p => (a, p)))

/-! ### Rate control as a transition system -/

/-- Where the sender is in `rawsock_send(...); if(atomic_fetch_add(&pkts_sent, 1) >=
max_rate) do usleep(1000); while(atomic_load(&pkts_sent) != 0);`: about to send a frame,
about to fetch-and-add, or about to load the counter in the wait loop. -/
inductive rate_pc where
  | send
  | add
  | wait
deriving DecidableEq, Repr

/-- Who takes the next atomic step: the sender thread, or the stats loop of `scan_main` with
`atomic_exchange(&pkts_sent, 0)`. -/
inductive agent where
  | sender
  | stats
deriving DecidableEq, Repr

/-- The shared counter `pkts_sent`, the place of the sender, and the number of frames sent
since the counter was last reset (or since the start). -/
structure ratest where
  pc : rate_pc
  pkts_sent : Nat
  since_reset : Nat
deriving DecidableEq, Repr

/-- One atomic step of the given agent with the stored threshold `max_rate`. -/
def rate_step (max_rate : Nat) (s : ratest) : agent → ratest
  | agent.stats => { pc := s.pc, pkts_sent := 0, since_reset := 0 }
  | agent.sender =>
    match s.pc with
    | rate_pc.send => { pc := rate_pc.add, pkts_sent := s.pkts_sent,
                        since_reset := s.since_reset + 1 }
    | rate_pc.add =>
      { pc := if s.pkts_sent ≥ max_rate then rate_pc.wait else rate_pc.send,
        pkts_sent := (s.pkts_sent + 1) % 2 ^ 32, since_reset := s.since_reset }
    | rate_pc.wait =>
      { pc := if s.pkts_sent ≠ 0 then rate_pc.wait else rate_pc.send,
        pkts_sent := s.pkts_sent, since_reset := s.since_reset }

/-- The state after the steps of an interleaving, from the state in which `scan_main`
starts the sender (`atomic_store(&pkts_sent, 0)`). -/
def rate_run (max_rate : Nat) (sched : List agent) : ratest :=
  sched.foldl (rate_step max_rate) { pc := rate_pc.send, pkts_sent := 0, since_reset := 0 }

/-- The invariant of the rate control for a configured rate `R`. -/
def rate_inv (R : Nat) (s : ratest) : Prop :=
  s.since_reset ≤ R ∧
  match s.pc with
  | rate_pc.send => s.since_reset ≤ s.pkts_sent ∧ s.pkts_sent + 1 ≤ R
  | rate_pc.add => s.since_reset ≤ s.pkts_sent + 1 ∧ s.pkts_sent + 1 ≤ R
  | rate_pc.wait => s.pkts_sent = 0 → s.since_reset = 0

/-! ### The receive handlers -/

/-- `OUTPUT_STATUS_OPEN`, `OUTPUT_STATUS_CLOSED` and `OUTPUT_STATUS_UP` of `output.h`. -/
inductive out_status where
  | OPEN
  | CLOSED
  | UP
deriving DecidableEq, Repr

/-- `OUTPUT_PROTO_TCP`, `OUTPUT_PROTO_UDP` and `OUTPUT_PROTO_ICMP` of `output.h`. -/
inductive out_proto where
  | TCP
  | UDP
  | ICMP
deriving DecidableEq, Repr

/-- Modelled from the spec: a captured frame as the decoders of `rawsock.c`, `tcp.c`,
`udp.c` and `icmp.h` let the handlers read it: the TCP flags, the source port that
`tcp_decode` or `udp_decode` gives (`v`), the value that `rawsock_ip_decode` gives in its
third result (`v2`), the bytes from `UDP_DATA(packet)` on, and the ICMPv6 type and body. -/
structure rx_packet where
  f_syn : Bool
  f_ack : Bool
  f_rst : Bool
  v : Nat
  v2 : Nat
  udp_data : List Nat
  icmp_type : Nat
  icmp_body32 : Nat
deriving DecidableEq, Repr

/-- What a receive handler does for a frame, in order: a call of `outdef.output_status`, a
call of `outdef.output_banner`, or the hand-off `scan_responder_process`. -/
inductive event where
  | status (ts : Nat) (src : List Nat) (proto : out_proto) (v v2 : Nat) (st : out_status)
  | banner (ts : Nat) (src : List Nat) (proto : out_proto) (v : Nat) (data : List Nat)
  | responder (ts : Nat) (len : Int)
deriving DecidableEq, Repr

/-- Whether an event is a status event. -/
def event.is_status : event → Bool
  | event.status _ _ _ _ _ _ => true
  | _ => false

/-- The function `recv_handler_tcp`: the calls it makes, in order. -/
def recv_handler_tcp (C : scanconsts) (c : scan) (ts : Nat) (len : Int) (packet : rx_packet)
    (csrcaddr : List Nat) : List event :=
  if len < C.FRAME_ETH_SIZE + C.FRAME_IP_SIZE + C.TCP_HEADER_SIZE then []
  else
    (if packet.f_ack && (packet.f_syn || packet.f_rst) then
      if c.raw || c.show_closed ≠ 0 || packet.f_syn then
        [event.status ts csrcaddr out_proto.TCP packet.v packet.v2
          (if packet.f_syn then out_status.OPEN else out_status.CLOSED)]
      else []
    else []) ++
    (if c.banners ≠ 0 then [event.responder ts len] else [])

/-- The function `recv_handler_udp`: the calls it makes, in order. `plen` is a `uint32_t`;
`memcpy(temp, UDP_DATA(packet), plen)` takes the first `plen` bytes of the payload. -/
def recv_handler_udp (C : scanconsts) (c : scan) (ts : Nat) (len : Int) (packet : rx_packet)
    (csrcaddr : List Nat) : List event :=
  if len < C.FRAME_ETH_SIZE + C.FRAME_IP_SIZE + C.UDP_HEADER_SIZE then []
  else if c.banners = 0 then
    [event.status ts csrcaddr out_proto.UDP packet.v packet.v2 out_status.OPEN]
  else
    let plen0 := ((len - (C.FRAME_ETH_SIZE + C.FRAME_IP_SIZE + C.UDP_HEADER_SIZE : Nat)) %
      2 ^ 32).toNat
    if plen0 = 0 then []
    else
      let plen := if plen0 > C.BANNER_MAX_LENGTH then C.BANNER_MAX_LENGTH else plen0
      let temp := packet.udp_data.take plen
      let data := if !c.raw then C.banner_postprocess C.IP_TYPE_UDP packet.v temp else temp
      [event.banner ts csrcaddr out_proto.UDP packet.v data]

/-- The number of `rand()` calls that `send_thread_tcp` makes per frame: one if the source
port is not pinned. -/
def draws_per_frame (c : scan) : Nat := if c.source_port = -1 then 1 else 0

/-- What `send_thread_tcp` keeps fixed while it sends the frames of one address. -/
def same_header (p q : tcp_frame) : Prop :=
  q.dstaddr = p.dstaddr ∧ q.seqnum = p.seqnum ∧ q.f_syn = p.f_syn

/-- Example header sizes and codes: Ethernet 14, IPv6 40, TCP 20, UDP 8, ICMPv6 8 bytes,
banners of at most 256 bytes, and a banner post-processor that changes nothing. -/
def ex_scanconsts : scanconsts :=
  { FRAME_ETH_SIZE := 14, FRAME_IP_SIZE := 40, TCP_HEADER_SIZE := 20, UDP_HEADER_SIZE := 8,
    ICMP_HEADER_SIZE := 8, BANNER_MAX_LENGTH := 256, IP_TYPE_TCP := 6, IP_TYPE_UDP := 17,
    IP_TYPE_ICMPV6 := 58, ICMP_BODY := 0, banner_postprocess := fun _ _ d => d }

/-- An example configuration: source port pinned to 40000, port 80, no rate limit yet, TCP,
`show_closed` and `banners` off, text output. -/
def ex_scan : scan :=
  { source_addr := [], source_port := 40000, ports := [80], max_rate := 0, show_closed := 0,
    banners := 0, ip_type := 6, raw := false }

/-- The generator loaded with the single spec `2001:db8::/126`, randomization off, after
`target_gen_finish_add`. -/
def ex_gen_126 : gen :=
  { randomize := false, mode_streaming := false,
    cache := List.replicate 1024 (List.replicate 16 0), cache_i := 0, cache_size := 0,
    targets_from := [], targets := [new_target { addr := ex_addr_db8, mask := ex_mask_126 }],
    rand_next := fun _ => 0 }

/-- A SYN to port 80 of the address `2001:db8::` with last byte `b`, from source port 40000,
with sequence number `0xF0000000`. -/
def ex_syn (b : Nat) : tcp_frame :=
  { dstaddr := [0x20, 0x01, 0x0d, 0xb8, 0, 0, 0, 0, 0, 0, 0, 0, 0, 0, 0, b], srcport := 40000,
    dstport := 80, seqnum := 0xF0000000, acknum := 0, f_syn := true, f_ack := false,
    f_rst := false }

/-- A captured frame with the given TCP flags, from port 80. -/
def ex_rx (syn ack rst : Bool) (data : List Nat) : rx_packet :=
  { f_syn := syn, f_ack := ack, f_rst := rst, v := 80, v2 := 64, udp_data := data,
    icmp_type := 0, icmp_body32 := 0 }

/-! ## Definitions: `scan.c`, the receive path -/

/-- The function `recv_handler_icmp`: the calls it makes, in order. -/
def recv_handler_icmp (C : scanconsts) (ts : Nat) (len : Int) (packet : rx_packet)
    (csrcaddr : List Nat) : List event :=
  if len < C.FRAME_ETH_SIZE + C.FRAME_IP_SIZE + C.ICMP_HEADER_SIZE then []
  else if packet.icmp_type ≠ 129 then []
  else if packet.icmp_body32 ≠ C.ICMP_BODY then []
  else [event.status ts csrcaddr out_proto.ICMP 0 packet.v2 out_status.UP]

/-- What `recv_handler` takes from `rawsock.h` and `rawsock.c`, which are not among the
sources: the constant `ETH_TYPE_IPV6` and the value of `rawsock_has_ethernet_headers()`. -/
structure linkconsts where
  ETH_TYPE_IPV6 : Nat
  has_ethernet_headers : Bool

/-- Modelled from the spec: a captured frame as `recv_handler` reads it through
`rawsock_eth_decode` and `rawsock_ip_decode` of `rawsock.c`, which are not among the
sources: the EtherType, the IP type and the source address they give, and what the handlers
of the three protocols read. -/
structure rx_frame where
  eth_type : Nat
  ip_type : Nat
  csrcaddr : List Nat
  packet : rx_packet
deriving DecidableEq, Repr

/-- The function `recv_handler`: the new value of `pkts_recv` and the calls made, in order.
Without Ethernet headers the frame is read as if one stood before it (`packet -=
FRAME_ETH_SIZE; len += FRAME_ETH_SIZE`); `len` is at most the capture length 65535, so the
`int` does not overflow. -/
def recv_handler (C : scanconsts) (L : linkconsts) (c : scan) (pkts_recv ts : Nat) (len : Int)
    (f : rx_frame) : Nat × List event :=
  let n := (pkts_recv + 1) % 2 ^ 32
  if L.has_ethernet_headers && decide (len < C.FRAME_ETH_SIZE) then (n, [])
  else
    let v := if L.has_ethernet_headers then f.eth_type else L.ETH_TYPE_IPV6
    let len := if L.has_ethernet_headers then len else len + C.FRAME_ETH_SIZE
    if v ≠ L.ETH_TYPE_IPV6 ∨ len < C.FRAME_ETH_SIZE + C.FRAME_IP_SIZE then (n, [])
    else if f.ip_type ≠ c.ip_type then (n, [])
    else if c.ip_type = C.IP_TYPE_TCP then (n, recv_handler_tcp C c ts len f.packet f.csrcaddr)
    else if c.ip_type = C.IP_TYPE_UDP then (n, recv_handler_udp C c ts len f.packet f.csrcaddr)
    else (n, recv_handler_icmp C ts len f.packet f.csrcaddr)

/-- Whether an event is a banner event. -/
def event.is_banner : event → Bool
  | event.banner _ _ _ _ _ => true
  | _ => false

/-- Whether an event is a hand-off to the responder. -/
def event.is_responder : event → Bool
  | event.responder _ _ => true
  | _ => false

/-- An Ethernet capture: `ETH_TYPE_IPV6 = 0x86DD`, frames come with Ethernet headers. -/
def ex_link : linkconsts := { ETH_TYPE_IPV6 := 0x86DD, has_ethernet_headers := true }

/-- A captured IPv6 frame of the given IP type from `2001:db8::`. -/
def ex_frame (ip_type : Nat) (packet : rx_packet) : rx_frame :=
  { eth_type := 0x86DD, ip_type := ip_type, csrcaddr := ex_addr_db8, packet := packet }


/-! ## Definitions: `scan.c`, the UDP and ICMPv6 senders -/

/-- Modelled from the spec: the fields of the frame that `send_thread_udp` builds: the
payload length and destination address that `rawsock_ip_modify` of `rawsock.c` stores
(not among the sources), the ports and the length that `udp_modify` and `udp_modify2` of
`udp.c` store, and the bytes last copied to `UDP_DATA(packet)`. -/
structure udp_frame where
  ip_len : Nat
  dstaddr : List Nat
  srcport : Nat
  dstport : Nat
  len : Nat
  data : List Nat
deriving DecidableEq, Repr

/-- The frame of `send_thread_udp` after `rawsock_eth_prepare` and `rawsock_ip_prepare`, no
field of the model set yet. -/
def udp_prepared : udp_frame :=
  { ip_len := 0, dstaddr := [], srcport := 0, dstport := 0, len := 0, data := [] }

/-- The function `udp_modify` of `udp.c`: each port is stored `& 0xffff`. -/
def udp_modify (pkt : udp_frame) (srcport dstport : Int) : udp_frame :=
  { pkt with srcport := (srcport % 65536).toNat, dstport := (dstport % 65536).toNat }

/-- The function `udp_modify2` of `udp.c`: `dlen` is a `uint16_t`, the length field has 16
bits. -/
def udp_modify2 (C : scanconsts) (pkt : udp_frame) (dlen : Nat) : udp_frame :=
  { pkt with len := (C.UDP_HEADER_SIZE + dlen % 65536) % 65536 }

/-- The local variables of `send_thread_udp` inside its loop, the generator, the frames
given to `rawsock_send` so far with their lengths (oldest first) and `pkts_sent`. -/
structure udp_loop where
  gen : gen
  packet : udp_frame
  dstaddr : List Nat
  it : ports_iter
  wire : List (udp_frame × Nat)
  pkts_sent : Nat

/-- One round of the loop of `send_thread_udp` when the iterator gave a port: the frame is
completed and given to `rawsock_send`, then the rate control. `Q` is `banner_get_query` of
`banner.c` (not among the sources): for an IP type and a port, the payload, `none` for a
null pointer, and the value left in `dlen`. `udp_checksum` changes no field of the model. -/
def udp_send_frame (C : scanconsts) (Q : Nat → Nat → Option (List Nat) × Nat) (c : scan)
    (s : udp_loop) : udp_loop :=
  let dstport := (ports_iter_next s.it).2.val % 65536
  let sp : Int × (Nat → Nat) :=
    if c.source_port = -1 then source_port_rand s.gen.rand_next
    else (c.source_port, s.gen.rand_next)
  let p1 := udp_modify s.packet sp.1 dstport
  let q := Q C.IP_TYPE_UDP dstport
  let dlen := if c.banners ≠ 0 then q.2 % 2 ^ 32 else 0
  let p2 :=
    if c.banners ≠ 0 then
      udp_modify2 C
        { p1 with data := if q.1.isSome && decide (dlen > 0) then (q.1.getD []).take dlen
                    else p1.data,
                  ip_len := C.UDP_HEADER_SIZE + dlen, dstaddr := s.dstaddr } dlen
    else p1
  { gen := { s.gen with rand_next := sp.2 }, packet := p2, dstaddr := s.dstaddr,
    it := (ports_iter_next s.it).2,
    wire := s.wire ++ [(p2, C.FRAME_ETH_SIZE + C.FRAME_IP_SIZE + C.UDP_HEADER_SIZE + dlen)],
    pkts_sent := rate_control c s.pkts_sent }

/-- One round of the loop of `send_thread_udp` when the ports are exhausted and
`target_gen_next` gave the address `dstaddr` and left the generator `g`. -/
def udp_next_target (C : scanconsts) (c : scan) (s : udp_loop) (dstaddr : List Nat)
    (g : gen) : udp_loop :=
  { gen := g,
    packet := if c.banners = 0 then
        { s.packet with ip_len := C.UDP_HEADER_SIZE, dstaddr := dstaddr }
      else s.packet,
    dstaddr := dstaddr, it := ports_iter_begin none (ports_iter_next s.it).2,
    wire := s.wire, pkts_sent := s.pkts_sent }

/-- The loop `while(1)` of `send_thread_udp`; `none` when the fuel runs out or
`target_gen_next` does not return; otherwise the state at the `break`. -/
def send_loop_udp (E : consts) (C : scanconsts) (Q : Nat → Nat → Option (List Nat) × Nat)
    (c : scan) : Nat → udp_loop → Option udp_loop
  | 0, _ => none
  | fuel + 1, s =>
    if (ports_iter_next s.it).1 = 0 then
      match target_gen_next E s.gen with
      | none => none
      | some (none, g) =>
        some { gen := g, packet := s.packet, dstaddr := s.dstaddr,
               it := (ports_iter_next s.it).2, wire := s.wire, pkts_sent := s.pkts_sent }
      | some (some dstaddr, g) => send_loop_udp E C Q c fuel (udp_next_target C c s dstaddr g)
    else send_loop_udp E C Q c fuel (udp_send_frame C Q c s)

/-- What `send_thread_udp` leaves behind: the generator, the frames given to `rawsock_send`
with their lengths, `pkts_sent` and `status_bits`. -/
structure sender_udp where
  gen : gen
  wire : List (udp_frame × Nat)
  pkts_sent : Nat
  status_bits : Nat

/-- The function `send_thread_udp`, started with the given generator, `pkts_sent` and
`status_bits`; `none` if it does not return with the given fuel. -/
def send_thread_udp (E : consts) (C : scanconsts) (Q : Nat → Nat → Option (List Nat) × Nat)
    (c : scan) (fuel : Nat) (g : gen) (pkts_sent status_bits : Nat) : Option sender_udp :=
  match target_gen_next E g with
  | none => none
  | some (none, g1) =>
    some { gen := g1, wire := [], pkts_sent := pkts_sent,
           status_bits := status_bits ||| ERROR_SEND_THREAD }
  | some (some dstaddr, g1) =>
    match send_loop_udp E C Q c fuel
        { gen := g1,
          packet := if c.banners = 0 then
              udp_modify2 C { udp_prepared with ip_len := C.UDP_HEADER_SIZE, dstaddr := dstaddr } 0
            else udp_prepared,
          dstaddr := dstaddr,
          it := ports_iter_begin (some c.ports) { set := [], pos := 0, val := 0 },
          wire := [], pkts_sent := pkts_sent } with
    | none => none
    | some s =>
      some { gen := s.gen, wire := s.wire, pkts_sent := s.pkts_sent,
             status_bits := status_bits ||| SEND_FINISHED }

/-- Modelled from the spec: the fields of the frame that `send_thread_icmp` builds: the
payload length and destination address that `rawsock_ip_modify` stores, and the `type`,
`code` and `body32` of `struct icmp_header` of `icmp.h` (not among the sources). -/
structure icmp_frame where
  ip_len : Nat
  dstaddr : List Nat
  icmp_type : Nat
  code : Nat
  body32 : Nat
deriving DecidableEq, Repr

/-- The local variables of `send_thread_icmp` inside its loop, the generator, the frames
given to `rawsock_send` so far (oldest first) and `pkts_sent`. -/
structure icmp_loop where
  gen : gen
  packet : icmp_frame
  wire : List icmp_frame
  pkts_sent : Nat

/-- The loop `while(1)` of `send_thread_icmp`; `none` when the fuel runs out or
`target_gen_next` does not return; otherwise the state at the `break`. `icmp_checksum`
changes no field of the model. -/
def send_loop_icmp (E : consts) (C : scanconsts) (c : scan) :
    Nat → icmp_loop → Option icmp_loop
  | 0, _ => none
  | fuel + 1, s =>
    match target_gen_next E s.gen with
    | none => none
    | some (none, g) =>
      some { gen := g, packet := s.packet, wire := s.wire ++ [s.packet],
             pkts_sent := rate_control c s.pkts_sent }
    | some (some dstaddr, g) =>
      send_loop_icmp E C c fuel
        { gen := g,
          packet := { s.packet with ip_len := C.ICMP_HEADER_SIZE, dstaddr := dstaddr },
          wire := s.wire ++ [s.packet], pkts_sent := rate_control c s.pkts_sent }

/-- What `send_thread_icmp` leaves behind: the generator, the frames given to
`rawsock_send`, `pkts_sent` and `status_bits`. -/
structure sender_icmp where
  gen : gen
  wire : List icmp_frame
  pkts_sent : Nat
  status_bits : Nat

/-- The function `send_thread_icmp`, started with the given generator, `pkts_sent` and
`status_bits`; `none` if it does not return with the given fuel. -/
def send_thread_icmp (E : consts) (C : scanconsts) (c : scan) (fuel : Nat) (g : gen)
    (pkts_sent status_bits : Nat) : Option sender_icmp :=
  match target_gen_next E g with
  | none => none
  | some (none, g1) =>
    some { gen := g1, wire := [], pkts_sent := pkts_sent,
           status_bits := status_bits ||| ERROR_SEND_THREAD }
  | some (some dstaddr, g1) =>
    match send_loop_icmp E C c fuel
        { gen := g1,
          packet := { ip_len := C.ICMP_HEADER_SIZE, dstaddr := dstaddr, icmp_type := 128,
                      code := 0, body32 := C.ICMP_BODY },
          wire := [], pkts_sent := pkts_sent } with
    | none => none
    | some s =>
      some { gen := s.gen, wire := s.wire, pkts_sent := s.pkts_sent,
             status_bits := status_bits ||| SEND_FINISHED }

/-- The generator of a streamed scan whose target file is empty, after `target_gen_init`,
`target_gen_set_streaming` and `target_gen_finish_add`. -/
def ex_gen_empty : gen :=
  target_gen_set_streaming (target_gen_init ex_consts (gen_static (fun _ => 0))) (some [])

/-- A stand-in for `banner_get_query`: no query for any port. -/
def ex_query : Nat → Nat → Option (List Nat) × Nat := fun _ _ => (none, 0)


/-! ## Definitions: `scan_main` and the scan branch of `main` -/

/-- What the calls of `scan_main` into code that is not among the sources return
(`rawsock_open`, `scan_responder_init`, `rawsock_setfilter`, the two `pthread_create`), and
the value that `atomic_load(&status_bits)` gives in round `k` of the stats loop. -/
structure scan_env where
  rawsock_open : Int
  scan_responder_init : Int
  rawsock_setfilter : Int
  pthread_create_recv : Int
  pthread_create_send : Int
  status_bits_at : Nat → Nat

/-- What `scan_main` does that can be seen from outside, the progress lines of the stats
loop apart: the calls and the messages on `stderr`. -/
inductive scan_step where
  | responder_init
  | warn_udp_without_banners
  | warn_icmp_banners
  | setfilter (dstport : Bool)
  | output_begin
  | recv_thread
  | send_thread (p : out_proto)
  | waiting
  | errors_encountered
  | breakloop
  | responder_finish
  | output_end
  | rawsock_close
deriving DecidableEq, Repr

/-- The value that `scan_main` returns, and what it did. -/
structure scan_result where
  r : Int
  log : List scan_step
deriving DecidableEq, Repr

/-- The stats loop of `scan_main`, `while(1)`, from round `k` on: the value of the
`unsigned char cur_status` at the `break`; `none` when the fuel runs out. -/
def stats_loop (env : scan_env) : Nat → Nat → Option Nat
  | 0, _ => none
  | fuel + 1, k =>
    if env.status_bits_at k % 256 ≠ 0 then some (env.status_bits_at k % 256)
    else stats_loop env fuel (k + 1)

/-- The function `scan_main`; `none` if the stats loop does not end with the given fuel.
The progress lines, which is all that `quiet` changes, are left out. -/
def scan_main (C : scanconsts) (c : scan) (env : scan_env) (fuel : Nat) : Option scan_result :=
  if env.rawsock_open < 0 then some { r := -1, log := [] }
  else
    let tcpb : Bool := decide (c.banners ≠ 0) && decide (c.ip_type = C.IP_TYPE_TCP)
    let l1 : List scan_step := if tcpb then [scan_step.responder_init] else []
    if tcpb && decide (env.scan_responder_init < 0) then
      some { r := 1, log := l1 ++ [scan_step.rawsock_close] }
    else
      let l2 := l1 ++
        (if c.banners = 0 ∧ c.ip_type = C.IP_TYPE_UDP then [scan_step.warn_udp_without_banners]
          else []) ++
        (if c.banners ≠ 0 ∧ c.ip_type = C.IP_TYPE_ICMPV6 then [scan_step.warn_icmp_banners]
          else [])
      let l3 := l2 ++
        [scan_step.setfilter (decide (c.source_port ≠ -1) && decide (c.ip_type ≠ C.IP_TYPE_ICMPV6))]
      if env.rawsock_setfilter < 0 then some { r := 1, log := l3 ++ [scan_step.rawsock_close] }
      else
        let l4 := l3 ++ [scan_step.output_begin]
        if env.pthread_create_recv < 0 then
          some { r := 1, log := l4 ++ [scan_step.rawsock_close] }
        else
          let l5 := l4 ++ [scan_step.recv_thread]
          if env.pthread_create_send < 0 then
            some { r := 1, log := l5 ++ [scan_step.rawsock_close] }
          else
            let l6 := l5 ++
              [scan_step.send_thread
                (if c.ip_type = C.IP_TYPE_TCP then out_proto.TCP
                  else if c.ip_type = C.IP_TYPE_UDP then out_proto.UDP else out_proto.ICMP)]
            match stats_loop env fuel 0 with
            | none => none
            | some cur =>
              let cur_status := cur &&& 0xfe
              some { r := 0,
                     log := l6 ++
                      (if cur_status = 0 then [scan_step.waiting]
                        else [scan_step.errors_encountered]) ++
                      [scan_step.breakloop] ++
                      (if tcpb then [scan_step.responder_finish] else []) ++
                      [scan_step.output_end, scan_step.rawsock_close] }

/-- The function `scan_set_output`, of which the model keeps the flag `outdef.raw`. -/
def scan_set_output (c : scan) (raw : Bool) : scan := { c with raw := raw }

/-- The configuration variables of `scan.c` before they are set: static storage, zeroed. -/
def scan_static : scan :=
  { source_addr := List.replicate 16 0, source_port := 0, ports := [], max_rate := 0,
    show_closed := 0, banners := 0, ip_type := 0, raw := false }

/-- The local variables of `main` that its scan branch reads. `ports` is the sequence the
port iterator produces and `ports_valid` the value of `validate_ports(&ports)`, of files
that are not among the sources; `raw` is the flag of the chosen output format. -/
structure main_opts where
  source_mac : List Nat
  router_mac : List Nat
  source_addr : List Nat
  ports : List Nat
  ports_valid : Bool
  max_rate : Int
  show_closed : Int
  banners : Int
  source_port : Int
  ip_type : Nat
  raw : Bool

/-- The function `is_all_ff` of `main.c`, on a buffer of `len` bytes. -/
def is_all_ff : List Nat → Bool
  | [] => true
  | b :: buf => if b ≠ 0xff then false else is_all_ff buf

/-- The options that the scan branch of `main` can find missing. -/
inductive missing_opt where
  | source_mac
  | router_mac
  | source_ip
  | p
  | source_port
deriving DecidableEq, Repr

/-- The chain of checks of the scan branch of `main` that sets `missing`. -/
def main_missing (C : scanconsts) (o : main_opts) : Option missing_opt :=
  if is_all_ff o.source_mac then some missing_opt.source_mac
  else if is_all_ff o.router_mac then some missing_opt.router_mac
  else if is_all_ff o.source_addr then some missing_opt.source_ip
  else if o.ip_type ≠ C.IP_TYPE_ICMPV6 ∧ o.ports_valid = false then some missing_opt.p
  else if o.banners ≠ 0 ∧ o.ip_type = C.IP_TYPE_TCP ∧ o.source_port = -1 then
    some missing_opt.source_port
  else none

/-- The configuration of `scan.c` after the three `scan_set_` calls of `main`. -/
def main_config (o : main_opts) : scan :=
  scan_set_output
    (scan_set_network (scan_set_general scan_static o.ports o.max_rate o.show_closed o.banners)
      o.source_addr o.source_port o.ip_type)
    o.raw

/-- The scan branch of `main` (the last `else` of the mode dispatch) up to `return r`: the
exit status of the process; `none` if `scan_main` does not return. -/
def main_scan (E : consts) (C : scanconsts) (o : main_opts) (g : gen) (env : scan_env)
    (fuel : Nat) : Option Int :=
  let r : Int := if target_gen_sanity_check E g < 0 then 1 else 0
  let r : Int := if r = 0 then (if (main_missing C o).isSome then 1 else r) else r
  if r = 0 then
    match scan_main C (main_config o) env fuel with
    | none => none
    | some res => some (if res.r < 0 then 1 else 0)
  else some r

/-- Example options of a TCP scan of port 80 with every required option given. -/
def ex_opts : main_opts :=
  { source_mac := [0x02, 0, 0, 0, 0, 0x01], router_mac := [0x02, 0, 0, 0, 0, 0x02],
    source_addr := ex_addr_db8, ports := [80], ports_valid := true, max_rate := -1,
    show_closed := 0, banners := 0, source_port := 40000, ip_type := 6, raw := false }

/-- An environment in which the transport opens and `rawsock_setfilter` fails. -/
def ex_env_filter_fails : scan_env :=
  { rawsock_open := 0, scan_responder_init := 0, rawsock_setfilter := -1,
    pthread_create_recv := 0, pthread_create_send := 0, status_bits_at := fun _ => 0 }

/-- An environment in which start-up succeeds and the stats loop finds `status_bits` zero
in its first round and `ERROR_RECV_THREAD` set in its second. -/
def ex_env_recv_error : scan_env :=
  { rawsock_open := 0, scan_responder_init := 0, rawsock_setfilter := 0,
    pthread_create_recv := 0, pthread_create_send := 0,
    status_bits_at := fun k => if k = 0 then 0 else ERROR_RECV_THREAD }


/-! ## Definitions: `target_gen_print_summary` -/

/-- The `uint32_t` that `memcpy(&v, &t->spec.mask[4*j], 4)` gives on a little-endian
machine (`popcount` does not depend on the byte order). -/
def mask_word (mask : List Nat) (j : Nat) : Nat :=
  mask.getD (4 * j) 0 + mask.getD (4 * j + 1) 0 * 2 ^ 8 + mask.getD (4 * j + 2) 0 * 2 ^ 16 +
    mask.getD (4 * j + 3) 0 * 2 ^ 24

/-- The value of `maskbits` after the loop `for(int j = 0; j < 4; j++)`. -/
def maskbits (mask : List Nat) : Nat :=
  [0, 1, 2, 3].foldl (fun n j => n + popcount (mask_word mask j)) 0

/-- The variables of the loop over the targets in `target_gen_print_summary`. -/
structure sumst where
  total : Nat
  total_overflowed : Bool
  largest : Nat
  smallest : Nat
deriving DecidableEq, Repr

/-- The loop over the targets in `target_gen_print_summary`. -/
def summary_loop (ts : List targetstate) : sumst :=
  ts.foldl
    (fun s t =>
      { total := (count_total t s.total s.total_overflowed).1,
        total_overflowed := (count_total t s.total s.total_overflowed).2,
        largest := if maskbits t.spec.mask < s.largest then maskbits t.spec.mask else s.largest,
        smallest := if maskbits t.spec.mask > s.smallest then maskbits t.spec.mask
          else s.smallest })
    { total := 0, total_overflowed := false, largest := 128, smallest := 0 }

/-- The estimate of `target_gen_print_summary` when `max_rate != -1`: `none` when an
`assert` fails, `some none` when the label `over` is reached, and otherwise the `uint32_t
dur` that is decomposed. -/
def summary_duration (total : Nat) (total_overflowed : Bool) (max_rate nports : Int) :
    Option (Option Nat) :=
  if total_overflowed then some none
  else if ¬ (nports ≥ 1) then none
  else
    let dur64 := (total * nports.toNat) % 2 ^ 64
    if dur64 < total then some none
    else if ¬ (max_rate ≥ 1) then none
    else
      let dur64 := dur64 / max_rate.toNat
      if dur64 > 2 ^ 32 - 1 then some none
      else some (some (dur64 % 2 ^ 32))

/-- The unit names that `f1` and `f2` can point to. -/
inductive dur_unit where
  | weeks
  | days
  | hours
  | minutes
  | seconds
deriving DecidableEq, Repr

/-- The values of `n1`, `f1`, `n2`, `f2` that `target_gen_print_summary` computes from
`dur`. -/
def duration_split (dur : Nat) : Nat × dur_unit × Nat × dur_unit :=
  if dur > 7 * 24 * 60 * 60 then
    (dur / (7 * 24 * 60 * 60), dur_unit.weeks, dur % (7 * 24 * 60 * 60) / (24 * 60 * 60),
      dur_unit.days)
  else if dur > 24 * 60 * 60 then
    (dur / (24 * 60 * 60), dur_unit.days, dur % (24 * 60 * 60) / (60 * 60), dur_unit.hours)
  else if dur > 60 * 60 then
    (dur / (60 * 60), dur_unit.hours, dur % (60 * 60) / 60, dur_unit.minutes)
  else (dur / 60, dur_unit.minutes, dur % 60, dur_unit.seconds)

/-- What follows "the estimated scan duration is": "more than 100 years", one number with
its unit, or two. -/
inductive duration_line where
  | over
  | one (n : Nat) (f : dur_unit)
  | two (n1 : Nat) (f1 : dur_unit) (n2 : Nat) (f2 : dur_unit)
deriving DecidableEq, Repr

/-- The last `printf` of `target_gen_print_summary`, for `n1`, `f1`, `n2`, `f2`. -/
def duration_print (s : Nat × dur_unit × Nat × dur_unit) : duration_line :=
  if s.1 = 0 then duration_line.one s.2.2.1 s.2.2.2
  else if s.2.2.1 = 0 then duration_line.one s.1 s.2.1
  else duration_line.two s.1 s.2.1 s.2.2.1 s.2.2.2

/-- What `target_gen_print_summary` reports: the number of targets, the number of
addresses (`none` for "more than 2^64"), the two subnet sizes (with one target only
`largest` is printed), and the duration line, which is absent when `max_rate == -1`. -/
structure summary where
  targets : Nat
  total : Option Nat
  largest : Nat
  smallest : Nat
  duration : Option duration_line
deriving DecidableEq, Repr

/-- The output of `target_gen_print_summary`: "???" in streaming mode, or the report. -/
inductive summary_out where
  | unknown
  | report (s : summary)
deriving DecidableEq, Repr

/-- The function `target_gen_print_summary`; `none` when an `assert` fails. -/
def target_gen_print_summary (g : gen) (max_rate nports : Int) : Option summary_out :=
  if g.mode_streaming then some summary_out.unknown
  else
    let s := summary_loop g.targets
    let head : Option duration_line → summary_out := fun d =>
      summary_out.report
        { targets := g.targets.length,
          total := if s.total_overflowed then none else some s.total,
          largest := s.largest, smallest := s.smallest, duration := d }
    if max_rate ≠ -1 then
      match summary_duration s.total s.total_overflowed max_rate nports with
      | none => none
      | some none => some (head (some duration_line.over))
      | some (some dur) => some (head (some (duration_print (duration_split dur))))
    else some (head none)

/-- The number of seconds in a unit. -/
def unit_seconds : dur_unit → Nat
  | dur_unit.weeks => 604800
  | dur_unit.days => 86400
  | dur_unit.hours => 3600
  | dur_unit.minutes => 60
  | dur_unit.seconds => 1

/-- The mask of a `/66`: 62 varying bits. -/
def ex_mask_66 : List Nat :=
  [255, 255, 255, 255, 255, 255, 255, 255, 192, 0, 0, 0, 0, 0, 0, 0]

/-- The generator loaded with the single spec `2001:db8::/66`, randomization off, after
`target_gen_finish_add`. -/
def ex_gen_66 : gen :=
  { randomize := false, mode_streaming := false,
    cache := List.replicate 1024 (List.replicate 16 0), cache_i := 0, cache_size := 0,
    targets_from := [], targets := [new_target { addr := ex_addr_db8, mask := ex_mask_66 }],
    rand_next := fun _ => 0 }


/-! ## Definitions: the squeezed counter and the order of addresses -/

/-- The counter that the specification describes for a target with `k` varying bits: from
the squeezed value `s` the step to `s + 1` with `done` clear, or, at `s = 2^k - 1` (which
includes `k = 0`), the reset to 0 with `done` set. The pair is the new squeezed value and
`done`. -/
def squeezed_increment (k s : Nat) : Nat × Bool :=
  if s + 1 < 2 ^ k then (s + 1, false) else (0, true)

/-- The 128-bit number that sixteen bytes hold in network byte order (index 0 is the most
significant byte). -/
def val128 (l : List Nat) : Nat :=
  (List.range 16).foldl (fun v i => v * 256 + l.getD i 0) 0

/-- The number formed by the bits of `l` at the positions below `n`. -/
def bitval (l : List Nat) : Nat → Nat
  | 0 => 0
  | n + 1 => bitval l n + (if bitAt l n then 2 ^ n else 0)

/-- The number formed by the low eight bits of `m`. -/
def byte_value (m : Nat) : Nat :=
  (if m.testBit 0 then 1 else 0) + (if m.testBit 1 then 2 else 0) +
  (if m.testBit 2 then 4 else 0) + (if m.testBit 3 then 8 else 0) +
  (if m.testBit 4 then 16 else 0) + (if m.testBit 5 then 32 else 0) +
  (if m.testBit 6 then 64 else 0) + (if m.testBit 7 then 128 else 0)


/-! ## Definitions: streamed targets -/

/-- What the streaming loop of `fill_cache` makes of the characters `chunk` that one
`fgets` call stored: `none` when they are skipped (empty or a `#` comment after
`trim_string`), otherwise the outcome of `parse_ipv6`, `some none` for a failure. -/
def line_addr (E : consts) (chunk : List Char) : Option (Option (List Nat)) :=
  if (E.trim_string chunk).head? = some (Char.ofNat 35) || (E.trim_string chunk).head? = none
  then none
  else some (E.parse_ipv6 (E.trim_string chunk))

/-- The addresses of the chunks that are not skipped, in order. -/
def stream_addrs (E : consts) (chunks : List (List Char)) : List (List Nat) :=
  chunks.filterMap (fun c => (line_addr E c).bind id)

/-- The pieces in which `fgets` with the 128-byte buffer reads a stream that consists of
the lines `ls`, each followed by a newline, and of the characters `last` after the final
newline (none when the file ends with a newline). -/
def chunks_of (ls : List (List Char)) (last : List Char) : List (List Char) :=
  ls.map (fun l => l ++ [Char.ofNat 10]) ++ (if last = [] then [] else [last])

/-- The stream as a sequence of characters. -/
def stream_of (ls : List (List Char)) (last : List Char) : List Char :=
  (chunks_of ls last).flatten

/-- Each chunk of the list is what one `fgets(buf, 128, f)` reads when the stream holds the
chunks from it on. -/
def proper_chunks : List (List Char) → Prop
  | [] => True
  | c :: rest => c ≠ [] ∧ fgets 128 (c ++ rest.flatten) = some (c, rest.flatten) ∧
      proper_chunks rest

/-- The invariant of a generator that streams the addresses `A` with randomization off and
has handed out `n` of them: what is buffered in the cache and what the rest of the stream
holds are the addresses still to come. -/
def stream_inv (E : consts) (A : List (List Nat)) (n : Nat) (g : gen) : Prop :=
  g.mode_streaming = true ∧ g.randomize = false ∧
  g.cache.length = E.TARGET_RANDOMIZE_SIZE ∧ g.cache_i ≤ g.cache_size ∧
  g.cache_size ≤ E.TARGET_RANDOMIZE_SIZE ∧
  ∃ chunks, g.targets_from = chunks.flatten ∧ proper_chunks chunks ∧
    (∀ c ∈ chunks, line_addr E c ≠ some none) ∧
    (g.cache.take g.cache_size).drop g.cache_i ++ stream_addrs E chunks = A.drop n

/-- The generator after `target_gen_init`, `target_gen_set_randomized(0)` and
`target_gen_set_streaming(f)` for a stream `f`, as `main` leaves it for streamed targets
(`target_gen_finish_add` changes nothing in streaming mode). -/
def gen_stream (E : consts) (r : Nat → Nat) (f : List Char) : gen :=
  target_gen_set_streaming (target_gen_set_randomized (target_gen_init E (gen_static r)) 0)
    (some f)

/-- Whether a character is one of `" \t\r\n"`. -/
def is_trimmed (c : Char) : Bool :=
  c = Char.ofNat 32 || c = Char.ofNat 9 || c = Char.ofNat 13 || c = Char.ofNat 10

/-- Modelled from the spec: example values for a streamed scan. `trim_string` of `util.c`,
which is not among the sources, removes the characters of the given set from both ends;
the stand-in for `parse_ipv6` knows the literal `::1` only and rejects every other string
(the examples use it on `::1` and on strings that are no IPv6 literal). -/
def ex_stream_consts : consts :=
  { TARGET_RANDOMIZE_SIZE := 1024, TARGET_SANITY_MAX_BITS := 40, TARGET_EVEN_SPREAD := true,
    trim_string := fun s => ((s.dropWhile is_trimmed).reverse.dropWhile is_trimmed).reverse,
    parse_ipv6 := fun s =>
      if s = [':', ':', '1'] then some [0, 0, 0, 0, 0, 0, 0, 0, 0, 0, 0, 0, 0, 0, 0, 1]
      else none }

/-- A comment line of 128 characters: `#` and 127 times `x`. -/
def ex_long_comment : List Char := '#' :: List.replicate 127 'x'

/-- The line `::1`. -/
def ex_line_one : List Char := [':', ':', '1']


/-! ## Definitions: the exchanges of `shuffle` -/

/-- The three `memcpy` of one round of `shuffle`: the elements `j` and `i` of the buffer
change places through `tmp`. -/
def swap_at {α : Type} (buf : List α) (j i : Nat) : List α :=
  match buf[j]?, buf[i]? with
  | some tmp, some bi => (buf.set j bi).set i tmp
  | _, _ => buf

/-- The pairs `(j, i)` of indices that the loop of `shuffle` exchanges, in order, when it is
entered with the loop variable equal to the first argument. -/
def shuffle_swaps : Nat → (Nat → Nat) → List (Nat × Nat)
  | 0, _ => []
  | i + 1, r => ((rand r).1 % (i + 1 + 1), i + 1) :: shuffle_swaps i (rand r).2

/-- A line that is no IPv6 literal. -/
def ex_line_bad : List Char := ['b', 'a', 'd']

/-! ## Definitions: the cache of the generator -/

/-- The bounds on the cache indices: the cache has `TARGET_RANDOMIZE_SIZE` slots and
`0 <= cache_i <= cache_size <= TARGET_RANDOMIZE_SIZE`. -/
def cache_ok (E : consts) (g : gen) : Prop :=
  g.cache.length = E.TARGET_RANDOMIZE_SIZE ∧ g.cache_i ≤ g.cache_size ∧
  g.cache_size ≤ E.TARGET_RANDOMIZE_SIZE

/-- The generator states that the functions of `target-gen.c` can produce: the state after
`target_gen_init`, and the states that the functions changing the state give from such a
state. -/
inductive reachable (E : consts) : gen → Prop where
  | init (g : gen) : reachable E (target_gen_init E g)
  | set_randomized (g : gen) (v : Int) : reachable E g →
      reachable E (target_gen_set_randomized g v)
  | set_streaming (g : gen) (f : Option (List Char)) : reachable E g →
      reachable E (target_gen_set_streaming g f)
  | add (g : gen) (s : targetspec) : reachable E g → reachable E (target_gen_add g s).2
  | finish_add (g : gen) (r : Int) (g2 : gen) : reachable E g →
      target_gen_finish_add E g = some (r, g2) → reachable E g2
  | next (g : gen) (res : Option (List Nat)) (g2 : gen) : reachable E g →
      target_gen_next E g = some (res, g2) → reachable E g2

/-- The indices of the cache slots that the streaming loop of `fill_cache` writes
(`&cache[cache_size*16]`, handed to `parse_ipv6`), in order; the same loop as
`fill_stream`, of which only `cache_size` matters here. -/
def fill_stream_log (E : consts) : Nat → List Char → Nat → Option (List Nat)
  | 0, _, _ => none
  | fuel + 1, f, cache_size =>
    if cache_size < E.TARGET_RANDOMIZE_SIZE then
      match fgets 128 f with
      | none => some []
      | some (buf, f2) =>
        let buf := E.trim_string buf
        if buf.head? = some (Char.ofNat 35) || buf.head? = none then
          fill_stream_log E fuel f2 cache_size
        else
          match E.parse_ipv6 buf with
          | none => some [cache_size]
          | some _ => (fill_stream_log E fuel f2 (cache_size + 1)).map (fun l => cache_size :: l)
    else some []

/-- The indices of the cache slots that the loop over the targets in `fill_cache` writes
(`&cache[cache_size*16]`, handed to `next_addr`), in order; the same loop as
`fill_round`. -/
def fill_round_log (E : consts) : List targetstate → fillst → List Nat
  | [], _ => []
  | t :: ts, s =>
    if t.done then fill_round_log E ts s
    else if t.delayed_start > 0 then fill_round_log E ts s
    else
      let s2 : fillst :=
        { cache := s.cache.set s.cache_size (next_addr t).2, cache_size := s.cache_size + 1,
          any := true, out := false }
      if s2.cache_size = E.TARGET_RANDOMIZE_SIZE then [s.cache_size]
      else s.cache_size :: fill_round_log E ts s2

/-- The indices of the cache slots written in the loop `while(1)` of `fill_cache`, in
order; the same loop as `fill_while`. -/
def fill_while_log (E : consts) : Nat → List targetstate → fillst → Option (List Nat)
  | 0, _, _ => none
  | fuel + 1, ts, s =>
    let r := fill_round E ts { s with any := false }
    let w := fill_round_log E ts { s with any := false }
    if r.2.out then some w
    else if !r.2.any then some w
    else (fill_while_log E fuel r.1 r.2).map (fun l => w ++ l)

/-- The indices of the cache slots that one call of `fill_cache` writes, in order. -/
def fill_cache_log (E : consts) (g : gen) : Option (List Nat) :=
  if g.mode_streaming then fill_stream_log E (g.targets_from.length + 1) g.targets_from 0
  else fill_while_log E (E.TARGET_RANDOMIZE_SIZE + 1) g.targets
    { cache := g.cache, cache_size := 0, any := false, out := false }


/-! ## Bits of a byte array -/

set_option maxRecDepth 100000 in
theorem next_addr_loop_eq (mask : List Nat) (s : addloop) :
    next_addr_loop mask s = add_steps mask s 128 := rfl

theorem and_two_pow_ne_zero (x b : Nat) : (x &&& 2 ^ b ≠ 0) ↔ x.testBit b = true := by
  rw [Nat.and_two_pow]
  cases h : x.testBit b <;> simp

theorem getD_and_bit (l : List Nat) (n : Nat) :
    (l.getD (15 - n / 8) 0 &&& 2 ^ (n % 8) ≠ 0) ↔ bitAt l n = true := by
  unfold bitAt
  exact and_two_pow_ne_zero _ _

theorem testBit_set_bit (x b c : Nat) (hc : c < 8) :
    ((x ||| 2 ^ b) % 256).testBit c = (x.testBit c || decide (b = c)) := by
  have h256 : (256 : Nat) = 2 ^ 8 := by norm_num
  rw [h256, Nat.testBit_mod_two_pow, Nat.testBit_or, Nat.testBit_two_pow]
  simp [hc]

theorem testBit_clear_bit (x b c : Nat) (hc : c < 8) :
    ((x &&& (2 ^ b ^^^ 0xffffffff)) % 256).testBit c = (x.testBit c && !decide (b = c)) := by
  have h256 : (256 : Nat) = 2 ^ 8 := by norm_num
  have hff : (0xffffffff : Nat) = 2 ^ 32 - 1 := by norm_num
  rw [h256, Nat.testBit_mod_two_pow, Nat.testBit_and, Nat.testBit_xor, Nat.testBit_two_pow, hff,
    Nat.testBit_two_pow_sub_one]
  have : c < 32 := by omega
  simp [hc, this]

theorem bitAt_set (l : List Nat) (n q v : Nat) (hl : l.length = 16) (hn : n < 128) (hq : q < 128) :
    bitAt (l.set (15 - n / 8) v) q =
      if q / 8 = n / 8 then v.testBit (q % 8) else bitAt l q := by
  unfold bitAt
  by_cases h : q / 8 = n / 8
  · simp only [h, if_true]
    rw [List.getD_eq_getElem _ _ (by simp [hl]; omega)]
    simp
  · simp only [h, if_false]
    have hne : 15 - n / 8 ≠ 15 - q / 8 := by omega
    rw [List.getD_eq_getElem _ _ (by simp [hl]; omega), List.getD_eq_getElem _ _ (by omega)]
    simp [List.getElem_set_ne hne]

theorem bitAt_set_bit (l : List Nat) (n q : Nat) (hl : l.length = 16) (hn : n < 128)
    (hq : q < 128) :
    bitAt (l.set (15 - n / 8) ((l.getD (15 - n / 8) 0 ||| 2 ^ (n % 8)) % 256)) q =
      if q = n then true else bitAt l q := by
  rw [bitAt_set l n q _ hl hn hq]
  by_cases h : q / 8 = n / 8
  · rw [if_pos h, testBit_set_bit _ _ _ (Nat.mod_lt _ (by norm_num))]
    by_cases h2 : q = n
    · subst h2; simp
    · have : n % 8 ≠ q % 8 := by omega
      simp [h2, this, bitAt, h]
  · have : q ≠ n := by intro h2; exact h (by rw [h2])
    simp [h, this]

theorem bitAt_clear_bit (l : List Nat) (n q : Nat) (hl : l.length = 16) (hn : n < 128)
    (hq : q < 128) :
    bitAt (l.set (15 - n / 8) ((l.getD (15 - n / 8) 0 &&& (2 ^ (n % 8) ^^^ 0xffffffff)) % 256)) q =
      if q = n then false else bitAt l q := by
  rw [bitAt_set l n q _ hl hn hq]
  by_cases h : q / 8 = n / 8
  · rw [if_pos h, testBit_clear_bit _ _ _ (Nat.mod_lt _ (by norm_num))]
    by_cases h2 : q = n
    · subst h2; simp
    · have : n % 8 ≠ q % 8 := by omega
      simp [h2, this, bitAt, h]
  · have : q ≠ n := by intro h2; exact h (by rw [h2])
    simp [h, this]

theorem wf16_set (l : List Nat) (i v : Nat) (hl : wf16 l) : wf16 (l.set i (v % 256)) := by
  refine ⟨by simp [hl.1], ?_⟩
  intro x hx
  rcases List.mem_or_eq_of_mem_set hx with h | h
  · exact hl.2 x h
  · rw [h]; exact Nat.mod_lt _ (by norm_num)

/-! ## The addition loop of `next_addr` -/

theorem squeeze_congr (mask c c2 : List Nat) (n : Nat)
    (h : ∀ p < n, bitAt c p = bitAt c2 p) : squeeze mask c n = squeeze mask c2 n := by
  induction n with
  | zero => rfl
  | succ n ih =>
    simp only [squeeze]
    rw [ih (fun p hp => h p (Nat.lt_succ_of_lt hp)), h n (Nat.lt_succ_self n)]

theorem squeeze_lt (mask c : List Nat) (n : Nat) : squeeze mask c n < 2 ^ nvar mask n := by
  induction n with
  | zero => simp [squeeze, nvar]
  | succ n ih =>
    simp only [squeeze, nvar]
    cases hm : bitAt mask n <;> cases hc : bitAt c n <;> simp [pow_succ] <;> omega

theorem add_inv_step (mask cur0 : List Nat) (n : Nat) (s : addloop) (hn : n < 128)
    (h : add_inv mask cur0 n s) :
    add_inv mask cur0 (n + 1) (next_addr_bit mask (15 - n / 8) (2 ^ (n % 8)) s) := by
  obtain ⟨hwf, hsame, hno, hout⟩ := h
  unfold next_addr_bit
  cases hs : s.out
  · -- still carrying
    obtain ⟨h1, h2, h3, h4⟩ := hno hs
    simp only [Bool.false_eq_true, if_false]
    by_cases hm : bitAt mask n = true
    · rw [if_pos ((getD_and_bit mask n).2 hm)]
      refine ⟨hwf, fun p hp hc => hsame p hp (by rcases hc with hc | hc; exact Or.inl (by omega); exact Or.inr hc), ?_, ?_⟩
      · intro _
        simp only [squeeze, nvar, hm, if_true, Bool.not_true, Bool.false_and, Bool.false_eq_true,
          if_false, Nat.add_zero]
        exact ⟨h1, h2, h3, h4⟩
      · intro h; rw [hs] at h; exact absurd h (by simp)
    · rw [if_neg (fun hh => hm ((getD_and_bit mask n).1 hh))]
      have hm2 : bitAt mask n = false := by simpa using hm
      have hcn : bitAt s.cur n = bitAt cur0 n := hsame n hn (Or.inl le_rfl)
      by_cases hc : bitAt s.cur n = true
      · rw [if_pos ((getD_and_bit s.cur n).2 hc)]
        have hbits : ∀ q < 128, bitAt (s.cur.set (15 - n / 8)
            ((s.cur.getD (15 - n / 8) 0 &&& (2 ^ (n % 8) ^^^ 0xffffffff)) % 256)) q =
            if q = n then false else bitAt s.cur q :=
          fun q hq => bitAt_clear_bit s.cur n q hwf.1 hn hq
        refine ⟨wf16_set _ _ _ hwf, ?_, ?_, ?_⟩
        · intro p hp hcond
          rw [hbits p hp]
          have hpn : p ≠ n := by
            rcases hcond with hc2 | hc2
            · omega
            · intro h; rw [h, hm2] at hc2; exact absurd hc2 (by simp)
          rw [if_neg hpn]
          exact hsame p hp (by rcases hcond with hc2 | hc2; exact Or.inl (by omega); exact Or.inr hc2)
        · intro _
          simp only [squeeze, nvar, hm2, Bool.false_eq_true, if_false, Bool.not_false, Bool.true_and]
          rw [← hcn, hc, hbits n hn]
          simp only [if_true, Bool.false_eq_true, if_false, Nat.add_zero]
          refine ⟨?_, ?_, by simp, by simp⟩
          · rw [pow_succ]; omega
          · rw [squeeze_congr mask _ s.cur n (fun p hp => by rw [hbits p (by omega), if_neg (by omega)])]
            exact h2
        · intro h; exact absurd h (by simp)
      · rw [if_neg (fun hh => hc ((getD_and_bit s.cur n).1 hh))]
        have hc2 : bitAt s.cur n = false := by simpa using hc
        have hbits : ∀ q < 128, bitAt (s.cur.set (15 - n / 8)
            ((s.cur.getD (15 - n / 8) 0 ||| 2 ^ (n % 8)) % 256)) q =
            if q = n then true else bitAt s.cur q :=
          fun q hq => bitAt_set_bit s.cur n q hwf.1 hn hq
        refine ⟨wf16_set _ _ _ hwf, ?_, ?_, ?_⟩
        · intro p hp hcond
          rw [hbits p hp]
          have hpn : p ≠ n := by
            rcases hcond with hc3 | hc3
            · omega
            · intro h; rw [h, hm2] at hc3; exact absurd hc3 (by simp)
          rw [if_neg hpn]
          exact hsame p hp (by rcases hcond with hc3 | hc3; exact Or.inl (by omega); exact Or.inr hc3)
        · intro h; exact absurd h (by simp)
        · intro _
          simp only [squeeze, nvar, hm2, Bool.false_eq_true, if_false, Bool.not_false, Bool.true_and]
          rw [← hcn, hc2, hbits n hn]
          simp only [if_true, Bool.false_eq_true, if_false, Nat.add_zero]
          refine ⟨?_, by simp, by simp⟩
          rw [squeeze_congr mask _ s.cur n (fun p hp => by rw [hbits p (by omega), if_neg (by omega)])]
          omega
  · -- `goto out` was taken: the state no longer changes
    obtain ⟨h1, h2, h3⟩ := hout hs
    simp only [if_true]
    refine ⟨hwf, fun p hp hc => hsame p hp (by rcases hc with hc | hc; exact Or.inl (by omega); exact Or.inr hc), ?_, ?_⟩
    · intro h; rw [hs] at h; exact absurd h (by simp)
    · intro _
      simp only [squeeze]
      rw [hsame n hn (Or.inl le_rfl), h1]
      exact ⟨by omega, h2, h3⟩

theorem add_inv_steps (mask cur0 : List Nat) (hwf : wf16 cur0) (n : Nat) (hn : n ≤ 128) :
    add_inv mask cur0 n
      (add_steps mask { cur := cur0, any := false, carry := false, out := false } n) := by
  induction n with
  | zero =>
    refine ⟨hwf, fun _ _ _ => rfl, ?_, ?_⟩
    · intro _; simp [squeeze, nvar, add_steps]
    · intro h; simp [add_steps] at h
  | succ n ih =>
    exact add_inv_step mask cur0 n _ (by omega) (ih (by omega))

/-! ## Sixteen-byte arrays as bit vectors -/

theorem getD_map_range16 (f : Nat → Nat) (i : Nat) (hi : i < 16) :
    ((List.range 16).map f).getD i 0 = f i := by
  rw [List.getD_eq_getElem _ _ (by simp; exact hi)]
  simp

theorem wf16_map_range (f : Nat → Nat) (h : ∀ i < 16, f i < 256) :
    wf16 ((List.range 16).map f) := by
  refine ⟨by simp, ?_⟩
  intro x hx
  rw [List.mem_map] at hx
  obtain ⟨i, hi, rfl⟩ := hx
  exact h i (List.mem_range.1 hi)

theorem wf16_getD_lt (l : List Nat) (h : wf16 l) (i : Nat) : l.getD i 0 < 256 := by
  by_cases hi : i < l.length
  · rw [List.getD_eq_getElem _ _ hi]
    exact h.2 _ (List.getElem_mem _)
  · rw [List.getD_eq_default _ _ (by omega)]
    norm_num

theorem bitAt_map_range (f : Nat → Nat) (p : Nat) (hp : p < 128) :
    bitAt ((List.range 16).map f) p = (f (15 - p / 8)).testBit (p % 8) := by
  unfold bitAt
  rw [getD_map_range16 f _ (by omega)]

theorem bitAt_and16 (a b : List Nat) (p : Nat) (hp : p < 128) :
    bitAt (and16 a b) p = (bitAt a p && bitAt b p) := by
  unfold and16
  rw [bitAt_map_range _ p hp, Nat.testBit_and]
  rfl

theorem bitAt_or16 (a b : List Nat) (p : Nat) (hp : p < 128) :
    bitAt (or16 a b) p = (bitAt a p || bitAt b p) := by
  unfold or16
  rw [bitAt_map_range _ p hp, Nat.testBit_or]
  rfl

theorem bitAt_andnot16 (a b : List Nat) (p : Nat) (hp : p < 128) :
    bitAt (andnot16 a b) p = (bitAt a p && !bitAt b p) := by
  unfold andnot16
  have hff : (0xff : Nat) = 2 ^ 8 - 1 := by norm_num
  rw [bitAt_map_range _ p hp, Nat.testBit_and, Nat.testBit_xor, hff, Nat.testBit_two_pow_sub_one]
  have : p % 8 < 8 := Nat.mod_lt _ (by norm_num)
  simp [this, bitAt]

theorem bitAt_zero16 (p : Nat) : bitAt zero16 p = false := by
  unfold bitAt zero16
  have h : (List.replicate 16 0).getD (15 - p / 8) 0 = 0 := by
    rw [List.getD_eq_getElem _ _ (by rw [List.length_replicate]; omega)]
    exact List.getElem_replicate _ _
  rw [h]
  exact Nat.zero_testBit _

theorem wf16_zero16 : wf16 zero16 := by decide

theorem wf16_and16 (a b : List Nat) (ha : wf16 a) : wf16 (and16 a b) :=
  wf16_map_range _ (fun i _ => lt_of_le_of_lt Nat.and_le_left (wf16_getD_lt a ha i))

theorem wf16_or16 (a b : List Nat) (ha : wf16 a) (hb : wf16 b) : wf16 (or16 a b) :=
  wf16_map_range _ (fun i _ => by
    have h1 := wf16_getD_lt a ha i
    have h2 := wf16_getD_lt b hb i
    have : (256 : Nat) = 2 ^ 8 := by norm_num
    rw [this] at h1 h2 ⊢
    exact Nat.or_lt_two_pow h1 h2)

theorem byte_ext (x y : Nat) (hx : x < 256) (hy : y < 256)
    (h : ∀ c < 8, x.testBit c = y.testBit c) : x = y := by
  apply Nat.eq_of_testBit_eq
  intro c
  by_cases hc : c < 8
  · exact h c hc
  · have h256 : (256 : Nat) ≤ 2 ^ c := by
      calc (256 : Nat) = 2 ^ 8 := by norm_num
        _ ≤ 2 ^ c := Nat.pow_le_pow_right (by norm_num) (by omega)
    rw [Nat.testBit_lt_two_pow (lt_of_lt_of_le hx h256),
      Nat.testBit_lt_two_pow (lt_of_lt_of_le hy h256)]

theorem ext16 (a b : List Nat) (ha : wf16 a) (hb : wf16 b)
    (h : ∀ p < 128, bitAt a p = bitAt b p) : a = b := by
  apply List.ext_getElem (by rw [ha.1, hb.1])
  intro i h1 h2
  have hi : i < 16 := by rw [ha.1] at h1; exact h1
  apply byte_ext _ _ (ha.2 _ (List.getElem_mem _)) (hb.2 _ (List.getElem_mem _))
  intro c hc
  have := h (8 * (15 - i) + c) (by omega)
  unfold bitAt at this
  have e1 : 15 - (8 * (15 - i) + c) / 8 = i := by omega
  have e2 : (8 * (15 - i) + c) % 8 = c := by omega
  rw [e1, e2, List.getD_eq_getElem _ _ h1, List.getD_eq_getElem _ _ h2] at this
  exact this

theorem masked0_iff (mask cur : List Nat) (hc : wf16 cur) :
    masked0 mask cur ↔ and16 cur mask = zero16 := by
  constructor
  · intro h
    apply ext16 _ _ (wf16_and16 _ _ hc) wf16_zero16
    intro p hp
    rw [bitAt_and16 _ _ p hp, bitAt_zero16]
    cases hm : bitAt mask p
    · simp
    · simp [h p hp hm]
  · intro h p hp hm
    have := bitAt_and16 cur mask p hp
    rw [h, bitAt_zero16, hm] at this
    simpa using this.symm

theorem squeeze_inj (mask c c2 : List Nat) (n : Nat) (hn : n ≤ 128)
    (h1 : masked0 mask c) (h2 : masked0 mask c2)
    (h : squeeze mask c n = squeeze mask c2 n) : ∀ p < n, bitAt c p = bitAt c2 p := by
  induction n with
  | zero => intro p hp; omega
  | succ n ih =>
    simp only [squeeze] at h
    have b1 := squeeze_lt mask c n
    have b2 := squeeze_lt mask c2 n
    have key : squeeze mask c n = squeeze mask c2 n ∧ bitAt c n = bitAt c2 n := by
      cases hm : bitAt mask n
      · cases hc : bitAt c n <;> cases hc2 : bitAt c2 n <;> simp [hm, hc, hc2] at h ⊢ <;> omega
      · rw [h1 n (by omega) hm, h2 n (by omega) hm] at h ⊢
        simpa using h
    intro p hp
    rcases Nat.lt_succ_iff_lt_or_eq.1 hp with hlt | heq
    · exact ih (by omega) key.1 p hlt
    · rw [heq]; exact key.2

/-! ## What one call of `next_addr` does -/

theorem next_addr_dst (t : targetstate) : (next_addr t).2 = or16 t.spec.addr t.cur := rfl

theorem next_addr_spec_eq (t : targetstate) : (next_addr t).1.spec = t.spec := by
  simp only [next_addr]

theorem next_addr_delayed_start (t : targetstate) :
    (next_addr t).1.delayed_start = t.delayed_start := by
  simp only [next_addr]

theorem next_addr_fst (t : targetstate) :
    (next_addr t).1 =
      { spec := t.spec,
        cur := (add_steps t.spec.mask
          { cur := t.cur, any := false, carry := false, out := false } 128).cur,
        delayed_start := t.delayed_start,
        done := if !(add_steps t.spec.mask
              { cur := t.cur, any := false, carry := false, out := false } 128).any ||
            (add_steps t.spec.mask
              { cur := t.cur, any := false, carry := false, out := false } 128).carry
          then true else t.done } := by
  rw [← next_addr_loop_eq]
  rfl

theorem next_addr_spec (t : targetstate) (hwf : wf16 t.cur) :
    wf16 (next_addr t).1.cur ∧ (next_addr t).1.spec = t.spec ∧
    (next_addr t).1.delayed_start = t.delayed_start ∧
    (next_addr t).2 = or16 t.spec.addr t.cur ∧
    (∀ p < 128, bitAt t.spec.mask p = true → bitAt (next_addr t).1.cur p = bitAt t.cur p) ∧
    ((squeeze t.spec.mask t.cur 128 + 1 < 2 ^ nvar t.spec.mask 128 ∧
        squeeze t.spec.mask (next_addr t).1.cur 128 = squeeze t.spec.mask t.cur 128 + 1 ∧
        (next_addr t).1.done = t.done) ∨
     (squeeze t.spec.mask t.cur 128 + 1 = 2 ^ nvar t.spec.mask 128 ∧
        squeeze t.spec.mask (next_addr t).1.cur 128 = 0 ∧ (next_addr t).1.done = true)) := by
  have inv := add_inv_steps t.spec.mask t.cur hwf 128 le_rfl
  rw [next_addr_fst, next_addr_dst]
  generalize add_steps t.spec.mask
    { cur := t.cur, any := false, carry := false, out := false } 128 = s at inv
  obtain ⟨h1, h2, h3, h4⟩ := inv
  refine ⟨h1, rfl, rfl, rfl, fun p hp hm => h2 p hp (Or.inr hm), ?_⟩
  cases ho : s.out
  · obtain ⟨a, b, c, _⟩ := h3 ho
    right
    refine ⟨a, b, ?_⟩
    show (if !s.any || s.carry then true else t.done) = true
    rw [c]
    cases s.any <;> rfl
  · obtain ⟨a, b, c⟩ := h4 ho
    left
    have hlt := squeeze_lt t.spec.mask s.cur 128
    refine ⟨by omega, a, ?_⟩
    show (if !s.any || s.carry then true else t.done) = t.done
    rw [b, c]
    rfl

theorem masked0_next_addr (t : targetstate) (hwf : wf16 t.cur)
    (h : masked0 t.spec.mask t.cur) : masked0 t.spec.mask (next_addr t).1.cur := by
  intro p hp hm
  rw [(next_addr_spec t hwf).2.2.2.2.1 p hp hm]
  exact h p hp hm

theorem masked0_zero16 (mask : List Nat) : masked0 mask zero16 :=
  fun p _ _ => bitAt_zero16 p

theorem squeeze_zero16 (mask : List Nat) (n : Nat) : squeeze mask zero16 n = 0 := by
  induction n with
  | zero => rfl
  | succ n ih => simp [squeeze, ih, bitAt_zero16]

theorem squeeze_eq_zero (mask c : List Nat) (hc : wf16 c) (hm : masked0 mask c)
    (h : squeeze mask c 128 = 0) : c = zero16 := by
  apply ext16 _ _ hc wf16_zero16
  apply squeeze_inj mask c zero16 128 le_rfl hm (masked0_zero16 mask)
  rw [h, squeeze_zero16]

theorem target_inv_new (s : targetspec) : target_inv (new_target s) :=
  ⟨wf16_zero16, masked0_zero16 _⟩

theorem target_inv_next (t : targetstate) (h : target_inv t) : target_inv (next_addr t).1 := by
  refine ⟨(next_addr_spec t h.1).1, ?_⟩
  rw [(next_addr_spec t h.1).2.1]
  exact masked0_next_addr t h.1 h.2

theorem next_addr_iter_spec (n : Nat) (t : targetstate) :
    (next_addr_iter n t).1.spec = t.spec := by
  induction n with
  | zero => rfl
  | succ n ih => simp only [next_addr_iter]; rw [next_addr_spec_eq]; exact ih

theorem target_inv_iter (n : Nat) (t : targetstate) (h : target_inv t) :
    target_inv (next_addr_iter n t).1 := by
  induction n with
  | zero => exact h
  | succ n ih => simp only [next_addr_iter]; exact target_inv_next _ ih

theorem next_addr_iter_emitted (n : Nat) (t : targetstate) :
    (next_addr_iter n t).2 =
      (List.range n).map (fun i => or16 t.spec.addr (next_addr_iter i t).1.cur) := by
  induction n with
  | zero => rfl
  | succ n ih =>
    simp only [next_addr_iter, List.range_succ, List.map_append, List.map_singleton, ih,
      next_addr_dst, next_addr_iter_spec]

theorem and16_emitted (addr mask cur : List Nat) (hc : wf16 cur) (hm : masked0 mask cur) :
    and16 (or16 addr cur) mask = and16 addr mask := by
  have hz := (masked0_iff mask cur hc).1 hm
  unfold and16 or16
  apply List.map_congr_left
  intro i hi
  have hi16 : i < 16 := List.mem_range.1 hi
  rw [getD_map_range16 _ i hi16, Nat.and_comm, Nat.and_or_distrib_left, Nat.and_comm, Nat.and_comm (mask.getD i 0)]
  have : cur.getD i 0 &&& mask.getD i 0 = 0 := by
    have := congrArg (fun l => List.getD l i 0) hz
    simp only [and16] at this
    rw [getD_map_range16 _ i hi16] at this
    rw [this]
    show zero16.getD i 0 = 0
    unfold zero16
    rw [List.getD_eq_getElem _ _ (by rw [List.length_replicate]; exact hi16)]
    exact List.getElem_replicate _ _
  rw [this, Nat.or_zero]

/-! ## The loops of `progress_single` -/

set_option maxRecDepth 100000 in
theorem progress_loop_eq (t : targetstate) : progress_loop t = prog_steps t 128 := rfl

theorem getD_and_bit_top (l : List Nat) (n : Nat) (hn : n < 128) :
    (l.getD (n / 8) 0 &&& 2 ^ (7 - n % 8) ≠ 0) ↔ bitAt l (127 - n) = true := by
  have h := getD_and_bit l (127 - n)
  have e1 : 15 - (127 - n) / 8 = n / 8 := by omega
  have e2 : (127 - n) % 8 = 7 - n % 8 := by omega
  rw [e1, e2] at h
  exact h

theorem shl_or_bit (x b : Nat) (hb : b < 2) :
    ((x <<< 1) % 2 ^ 64) ||| b = 2 * (x % 2 ^ 63) + b := by
  have h1 : (x <<< 1) % 2 ^ 64 = 2 ^ 1 * (x % 2 ^ 63) := by
    rw [Nat.shiftLeft_eq]
    omega
  rw [h1, ← Nat.mul_add_lt_is_or (by simpa using hb)]

theorem nvar_succ (mask : List Nat) (n : Nat) :
    nvar mask (n + 1) = nvar mask n + (if bitAt mask n then 0 else 1) := rfl

theorem squeeze_succ (mask cur : List Nat) (n : Nat) :
    squeeze mask cur (n + 1) =
      squeeze mask cur n + (if !bitAt mask n && bitAt cur n then 2 ^ nvar mask n else 0) := rfl

theorem prog_inv_step (t : targetstate) (K S q : Nat) (s : Nat × Nat) (hq : q < 128)
    (h : prog_inv t K S (q + 1) s) :
    prog_inv t K S q (progress_bit t ((127 - q) / 8) (2 ^ (7 - (127 - q) % 8)) s) := by
  obtain ⟨v, hv, htot, hdn⟩ := h
  unfold progress_bit
  have hbit := fun l => getD_and_bit_top l (127 - q) (by omega)
  have e : 127 - (127 - q) = q := by omega
  simp only [e] at hbit
  rw [nvar_succ] at hv
  rw [nvar_succ, squeeze_succ] at hdn
  by_cases hm : bitAt t.spec.mask q = true
  · rw [if_pos ((hbit _).2 hm)]
    simp only [hm, if_true, Bool.not_true, Bool.false_and, Bool.false_eq_true,
        if_false, Nat.add_zero] at hv hdn
    exact ⟨v, hv, htot, hdn⟩
  · rw [if_neg (fun hh => hm ((hbit _).1 hh))]
    have hm2 : bitAt t.spec.mask q = false := by simpa using hm
    simp only [hm2, Bool.false_eq_true, if_false, Bool.not_false, Bool.true_and] at hv hdn
    refine ⟨v + 1, by omega, ?_, ?_⟩
    · show (s.1 <<< 1 % 2 ^ 64 ||| 1) + 1 = _
      rw [shl_or_bit _ 1 (by norm_num)]
      by_cases hv64 : v < 64
      · rw [min_eq_left (by omega)] at htot
        rw [min_eq_left (by omega), pow_succ]
        have : 2 ^ v ≤ 2 ^ 63 := Nat.pow_le_pow_right (by norm_num) (by omega)
        omega
      · rw [min_eq_right (by omega)] at htot
        rw [min_eq_right (by omega)]
        omega
    · intro hk hlt
      have h1 := hdn hk hlt
      have hpow : 2 ^ K ≤ 2 ^ 64 := Nat.pow_le_pow_right (by norm_num) hk
      have hs2 : s.2 < 2 ^ 63 := by
        by_contra hge
        have : 2 ^ 63 * 2 ^ (nvar t.spec.mask q + 1) ≤ s.2 * 2 ^ (nvar t.spec.mask q + 1) :=
          Nat.mul_le_mul_right _ (by omega)
        have h2 : (2 : Nat) ^ 1 ≤ 2 ^ (nvar t.spec.mask q + 1) :=
          Nat.pow_le_pow_right (by norm_num) (by omega)
        have h3 : (2 : Nat) ^ 63 * 2 ^ 1 ≤ 2 ^ 63 * 2 ^ (nvar t.spec.mask q + 1) :=
          Nat.mul_le_mul_left _ h2
        norm_num at h3
        omega
      by_cases hc : bitAt t.cur q = true
      · show (s.2 <<< 1 % 2 ^ 64 ||| (if t.cur.getD ((127 - q) / 8) 0 &&&
            2 ^ (7 - (127 - q) % 8) ≠ 0 then 1 else 0)) * _ + _ = _
        rw [if_pos ((hbit _).2 hc), shl_or_bit _ 1 (by norm_num), Nat.mod_eq_of_lt hs2]
        rw [hc] at h1
        simp only [if_true] at h1
        rw [← h1, pow_succ]
        ring
      · show (s.2 <<< 1 % 2 ^ 64 ||| (if t.cur.getD ((127 - q) / 8) 0 &&&
            2 ^ (7 - (127 - q) % 8) ≠ 0 then 1 else 0)) * _ + _ = _
        rw [if_neg (fun hh => hc ((hbit _).1 hh)), shl_or_bit _ 0 (by norm_num),
          Nat.mod_eq_of_lt hs2]
        have hc2 : bitAt t.cur q = false := by simpa using hc
        rw [hc2] at h1
        simp only [Bool.false_eq_true, if_false, Nat.add_zero] at h1
        rw [← h1, pow_succ]
        ring

theorem prog_inv_steps (t : targetstate) (K S : Nat) (hK : K = nvar t.spec.mask 128)
    (hS : S = squeeze t.spec.mask t.cur 128) (n q : Nat) (h : q + n = 128) :
    prog_inv t K S q (prog_steps t n) := by
  induction n generalizing q with
  | zero =>
    have hq : q = 128 := by omega
    subst hq
    refine ⟨0, by rw [hK]; omega, rfl, ?_⟩
    intro _ _
    rw [hS]
    show 0 * _ + _ = _
    omega
  | succ n ih =>
    have := prog_inv_step t K S q (prog_steps t n) (by omega) (ih (q + 1) (by omega))
    have e : 127 - q = n := by omega
    rw [e] at this
    exact this

theorem progress_loop_spec (t : targetstate) :
    (progress_loop t).1 + 1 = 2 ^ (min (nvar t.spec.mask 128) 64) ∧
    (nvar t.spec.mask 128 ≤ 64 → (progress_loop t).2 = squeeze t.spec.mask t.cur 128) := by
  rw [progress_loop_eq]
  obtain ⟨v, hv, htot, hdn⟩ := prog_inv_steps t _ _ rfl rfl 128 0 (by norm_num)
  have hv2 : v = nvar t.spec.mask 128 := by
    have : nvar t.spec.mask 0 = 0 := rfl
    omega
  rw [hv2] at htot
  refine ⟨htot, fun hk => ?_⟩
  have := hdn hk (squeeze_lt _ _ _)
  have e0 : nvar t.spec.mask 0 = 0 := rfl
  have e1 : squeeze t.spec.mask t.cur 0 = 0 := rfl
  rw [e0, e1] at this
  omega

/-! ## `popcount(~mask)` and the number of varying positions -/

theorem popcount_compl_byte : ∀ m < 256, popcount (m ^^^ 0xff) = nvar_byte m := by
  decide!

theorem bitAt_byte (l : List Nat) (i b : Nat) (hb : b < 8) :
    bitAt l (8 * i + b) = (l.getD (15 - i) 0).testBit b := by
  unfold bitAt
  have e1 : (8 * i + b) / 8 = i := by omega
  have e2 : (8 * i + b) % 8 = b := by omega
  rw [e1, e2]

theorem nvar_step8 (mask : List Nat) (i : Nat) :
    nvar mask (8 * i + 8) = nvar mask (8 * i) + nvar_byte (mask.getD (15 - i) 0) := by
  have h0 := bitAt_byte mask i 0 (by norm_num)
  have h1 := bitAt_byte mask i 1 (by norm_num)
  have h2 := bitAt_byte mask i 2 (by norm_num)
  have h3 := bitAt_byte mask i 3 (by norm_num)
  have h4 := bitAt_byte mask i 4 (by norm_num)
  have h5 := bitAt_byte mask i 5 (by norm_num)
  have h6 := bitAt_byte mask i 6 (by norm_num)
  have h7 := bitAt_byte mask i 7 (by norm_num)
  rw [Nat.add_zero] at h0
  rw [nvar_succ mask (8 * i + 7), nvar_succ mask (8 * i + 6), nvar_succ mask (8 * i + 5),
    nvar_succ mask (8 * i + 4), nvar_succ mask (8 * i + 3), nvar_succ mask (8 * i + 2),
    nvar_succ mask (8 * i + 1), nvar_succ mask (8 * i), h0, h1, h2, h3, h4, h5, h6, h7]
  unfold nvar_byte
  omega

theorem varying_bits_eq (mask : List Nat) (hm : wf16 mask) :
    varying_bits mask = nvar mask 128 := by
  have hp := fun i => popcount_compl_byte (mask.getD i 0) (wf16_getD_lt mask hm i)
  have e : varying_bits mask =
      popcount (mask.getD 0 0 ^^^ 0xff) + popcount (mask.getD 1 0 ^^^ 0xff) +
      popcount (mask.getD 2 0 ^^^ 0xff) + popcount (mask.getD 3 0 ^^^ 0xff) +
      popcount (mask.getD 4 0 ^^^ 0xff) + popcount (mask.getD 5 0 ^^^ 0xff) +
      popcount (mask.getD 6 0 ^^^ 0xff) + popcount (mask.getD 7 0 ^^^ 0xff) +
      popcount (mask.getD 8 0 ^^^ 0xff) + popcount (mask.getD 9 0 ^^^ 0xff) +
      popcount (mask.getD 10 0 ^^^ 0xff) + popcount (mask.getD 11 0 ^^^ 0xff) +
      popcount (mask.getD 12 0 ^^^ 0xff) + popcount (mask.getD 13 0 ^^^ 0xff) +
      popcount (mask.getD 14 0 ^^^ 0xff) + popcount (mask.getD 15 0 ^^^ 0xff) := by
    simp only [varying_bits, List.range_succ, List.range_zero, List.nil_append, List.map_append,
      List.map_cons, List.map_nil, List.sum_append, List.sum_cons, List.sum_nil]
    omega
  rw [e]
  simp only [hp]
  have s0 : nvar mask 8 = nvar mask 0 + nvar_byte (mask.getD 15 0) :=
    nvar_step8 mask 0
  have s1 : nvar mask 16 = nvar mask 8 + nvar_byte (mask.getD 14 0) :=
    nvar_step8 mask 1
  have s2 : nvar mask 24 = nvar mask 16 + nvar_byte (mask.getD 13 0) :=
    nvar_step8 mask 2
  have s3 : nvar mask 32 = nvar mask 24 + nvar_byte (mask.getD 12 0) :=
    nvar_step8 mask 3
  have s4 : nvar mask 40 = nvar mask 32 + nvar_byte (mask.getD 11 0) :=
    nvar_step8 mask 4
  have s5 : nvar mask 48 = nvar mask 40 + nvar_byte (mask.getD 10 0) :=
    nvar_step8 mask 5
  have s6 : nvar mask 56 = nvar mask 48 + nvar_byte (mask.getD 9 0) :=
    nvar_step8 mask 6
  have s7 : nvar mask 64 = nvar mask 56 + nvar_byte (mask.getD 8 0) :=
    nvar_step8 mask 7
  have s8 : nvar mask 72 = nvar mask 64 + nvar_byte (mask.getD 7 0) :=
    nvar_step8 mask 8
  have s9 : nvar mask 80 = nvar mask 72 + nvar_byte (mask.getD 6 0) :=
    nvar_step8 mask 9
  have s10 : nvar mask 88 = nvar mask 80 + nvar_byte (mask.getD 5 0) :=
    nvar_step8 mask 10
  have s11 : nvar mask 96 = nvar mask 88 + nvar_byte (mask.getD 4 0) :=
    nvar_step8 mask 11
  have s12 : nvar mask 104 = nvar mask 96 + nvar_byte (mask.getD 3 0) :=
    nvar_step8 mask 12
  have s13 : nvar mask 112 = nvar mask 104 + nvar_byte (mask.getD 2 0) :=
    nvar_step8 mask 13
  have s14 : nvar mask 120 = nvar mask 112 + nvar_byte (mask.getD 1 0) :=
    nvar_step8 mask 14
  have s15 : nvar mask 128 = nvar mask 120 + nvar_byte (mask.getD 0 0) :=
    nvar_step8 mask 15
  have z : nvar mask 0 = 0 := rfl
  omega

/-! ## A full run of one target -/

theorem new_target_spec (s : targetspec) : (new_target s).spec = s := rfl

theorem iter_count (s : targetspec) (n : Nat) (hn : n < 2 ^ nvar s.mask 128) :
    squeeze s.mask (next_addr_iter n (new_target s)).1.cur 128 = n ∧
    (next_addr_iter n (new_target s)).1.done = false := by
  induction n with
  | zero => exact ⟨squeeze_zero16 _ _, rfl⟩
  | succ n ih =>
    obtain ⟨h1, h2⟩ := ih (by omega)
    have inv := target_inv_iter n (new_target s) (target_inv_new s)
    have sp := (next_addr_spec _ inv.1).2.2.2.2.2
    rw [next_addr_iter_spec, new_target_spec] at sp
    simp only [next_addr_iter]
    rcases sp with ⟨_, b, c⟩ | ⟨a, _, _⟩
    · exact ⟨by rw [b]; show squeeze s.mask _ 128 + 1 = _; rw [h1], by rw [c]; exact h2⟩
    · exfalso
      have : squeeze s.mask (next_addr_iter n (new_target s)).1.cur 128 + 1
          = 2 ^ nvar s.mask 128 := a
      omega

theorem iter_done (s : targetspec) :
    (next_addr_iter (2 ^ nvar s.mask 128) (new_target s)).1.done = true := by
  have hpos : 0 < 2 ^ nvar s.mask 128 := Nat.two_pow_pos _
  obtain ⟨n, hn⟩ : ∃ n, 2 ^ nvar s.mask 128 = n + 1 := ⟨2 ^ nvar s.mask 128 - 1, by omega⟩
  rw [hn]
  obtain ⟨h1, _⟩ := iter_count s n (by omega)
  have inv := target_inv_iter n (new_target s) (target_inv_new s)
  have sp := (next_addr_spec _ inv.1).2.2.2.2.2
  rw [next_addr_iter_spec, new_target_spec] at sp
  simp only [next_addr_iter]
  rcases sp with ⟨a, _, _⟩ | ⟨_, _, c⟩
  · exfalso
    have : squeeze s.mask (next_addr_iter n (new_target s)).1.cur 128 + 1
        < 2 ^ nvar s.mask 128 := a
    omega
  · exact c

theorem or16_cur_inj (addr mask c c2 : List Nat) (hz : andnot16 addr mask = zero16)
    (hc : wf16 c) (hc2 : wf16 c2) (hm : masked0 mask c) (hm2 : masked0 mask c2)
    (h : or16 addr c = or16 addr c2) : c = c2 := by
  apply ext16 _ _ hc hc2
  intro p hp
  cases hmp : bitAt mask p
  · have ha : bitAt addr p = false := by
      have := bitAt_andnot16 addr mask p hp
      rw [hz, bitAt_zero16, hmp] at this
      simpa using this.symm
    have e1 := bitAt_or16 addr c p hp
    have e2 := bitAt_or16 addr c2 p hp
    rw [ha, Bool.false_or] at e1 e2
    rw [← e1, ← e2, h]
  · rw [hm p hp hmp, hm2 p hp hmp]

/-! ## Claims on one target -/

/-- C1: for a spec `(addr, mask)` with `addr & ~mask == 0`, starting from the state stored
by `target_gen_add`, `done` is clear after fewer than `2^k` calls of `next_addr` and set
after exactly `2^k` calls (`k = popcount(~mask)`); the `2^k` addresses emitted are
pairwise distinct, and they are exactly the values `addr | v` with `v & mask == 0`.
The number `k` of varying bits is not restricted: the statement holds for `k < 64` and
for larger `k` alike. -/
theorem C1_full_enumeration (addr mask : List Nat) (hm : wf16 mask)
    (hz : andnot16 addr mask = zero16) :
    (∀ n < 2 ^ varying_bits mask,
      (next_addr_iter n (new_target { addr := addr, mask := mask })).1.done = false) ∧
    (next_addr_iter (2 ^ varying_bits mask)
      (new_target { addr := addr, mask := mask })).1.done = true ∧
    (next_addr_iter (2 ^ varying_bits mask)
      (new_target { addr := addr, mask := mask })).2.length = 2 ^ varying_bits mask ∧
    (next_addr_iter (2 ^ varying_bits mask)
      (new_target { addr := addr, mask := mask })).2.Nodup ∧
    ∀ x, x ∈ (next_addr_iter (2 ^ varying_bits mask)
        (new_target { addr := addr, mask := mask })).2 ↔
      ∃ v, wf16 v ∧ and16 v mask = zero16 ∧ x = or16 addr v := by
  rw [varying_bits_eq mask hm]
  have hcnt := iter_count { addr := addr, mask := mask }
  have hinv := fun n => target_inv_iter n (new_target { addr := addr, mask := mask })
    (target_inv_new _)
  refine ⟨fun n hn => (hcnt n hn).2, iter_done { addr := addr, mask := mask }, ?_, ?_, ?_⟩
  · rw [next_addr_iter_emitted]; simp
  · rw [next_addr_iter_emitted]
    apply List.Nodup.map_on _ (List.nodup_range _)
    intro i hi j hj h
    have hi2 := List.mem_range.1 hi
    have hj2 := List.mem_range.1 hj
    have := or16_cur_inj addr mask _ _ hz (hinv i).1 (hinv j).1
      (by have := (hinv i).2; rwa [next_addr_iter_spec, new_target_spec] at this)
      (by have := (hinv j).2; rwa [next_addr_iter_spec, new_target_spec] at this) h
    have e1 := (hcnt i hi2).1
    have e2 := (hcnt j hj2).1
    rw [this] at e1
    exact e1.symm.trans e2
  · intro x
    rw [next_addr_iter_emitted, List.mem_map]
    constructor
    · rintro ⟨i, _, rfl⟩
      refine ⟨_, (hinv i).1, ?_, rfl⟩
      rw [← masked0_iff _ _ (hinv i).1]
      have := (hinv i).2
      rwa [next_addr_iter_spec, new_target_spec] at this
    · rintro ⟨v, hv, hvm, rfl⟩
      have hv0 : masked0 mask v := (masked0_iff mask v hv).2 hvm
      have hlt := squeeze_lt mask v 128
      refine ⟨squeeze mask v 128, List.mem_range.2 hlt, ?_⟩
      congr 1
      apply ext16 _ _ (hinv _).1 hv
      apply squeeze_inj mask _ _ 128 le_rfl _ hv0 (hcnt _ hlt).1
      have := (hinv (squeeze mask v 128)).2
      rwa [next_addr_iter_spec, new_target_spec] at this

/-- Witness for C1: the spec `2001:db8::/126` meets the hypotheses. -/
theorem C1_full_enumeration_witness :
    wf16 ex_mask_126 ∧ andnot16 ex_addr_db8 ex_mask_126 = zero16 ∧
    (next_addr_iter (2 ^ varying_bits ex_mask_126)
      (new_target { addr := ex_addr_db8, mask := ex_mask_126 })).2.Nodup :=
  ⟨by decide, by decide,
    (C1_full_enumeration ex_addr_db8 ex_mask_126 (by decide) (by decide)).2.2.2.1⟩

/-- C2: in every target state reached from `target_gen_add` by any number of `next_addr`
calls `cur & mask == 0`, and every address `x` emitted on the way satisfies
`(x & mask) == (addr & mask)`, for every `addr` and `mask`. -/
theorem C2_fixed_bits_kept (addr mask : List Nat) (n : Nat) :
    and16 (next_addr_iter n (new_target { addr := addr, mask := mask })).1.cur mask = zero16 ∧
    ∀ x ∈ (next_addr_iter n (new_target { addr := addr, mask := mask })).2,
      and16 x mask = and16 addr mask := by
  have hinv := fun n => target_inv_iter n (new_target { addr := addr, mask := mask })
    (target_inv_new _)
  have hm : ∀ i, masked0 mask (next_addr_iter i (new_target { addr := addr, mask := mask })).1.cur := by
    intro i
    have := (hinv i).2
    rwa [next_addr_iter_spec, new_target_spec] at this
  refine ⟨(masked0_iff _ _ (hinv n).1).1 (hm n), ?_⟩
  intro x hx
  rw [next_addr_iter_emitted, List.mem_map] at hx
  obtain ⟨i, _, rfl⟩ := hx
  exact and16_emitted addr mask _ (hinv i).1 (hm i)

theorem progress_single_total (t : targetstate) :
    (progress_single t 0 0).1 =
      if nvar t.spec.mask 128 < 64 then 2 ^ nvar t.spec.mask 128 else 0 := by
  have h := (progress_loop_spec t).1
  show (0 + ((progress_loop t).1 + 1) % 2 ^ 64) % 2 ^ 64 = _
  rw [h]
  by_cases hk : nvar t.spec.mask 128 < 64
  · rw [if_pos hk, min_eq_left (by omega)]
    have : 2 ^ nvar t.spec.mask 128 < 2 ^ 64 := Nat.pow_lt_pow_right (by norm_num) hk
    rw [Nat.zero_add, Nat.mod_mod, Nat.mod_eq_of_lt this]
  · rw [if_neg hk, min_eq_right (by omega)]
    norm_num

/-- C5: `count_total`, called with `*total = 0` and `*overflowed = false`, sets
`*overflowed` if and only if `popcount(~mask) >= 64`; when `popcount(~mask) < 64` it
leaves `*overflowed` false and sets `*total` to `2^popcount(~mask)`. -/
theorem C5_count_total (t : targetstate) (hm : wf16 t.spec.mask) :
    ((count_total t 0 false).2 = true ↔ 64 ≤ varying_bits t.spec.mask) ∧
    (varying_bits t.spec.mask < 64 →
      count_total t 0 false = (2 ^ varying_bits t.spec.mask, false)) := by
  rw [varying_bits_eq _ hm]
  unfold count_total
  simp only [progress_single_total]
  by_cases hk : nvar t.spec.mask 128 < 64
  · have hlt : 2 ^ nvar t.spec.mask 128 < 2 ^ 64 := Nat.pow_lt_pow_right (by norm_num) hk
    have hpos : 0 < 2 ^ nvar t.spec.mask 128 := Nat.two_pow_pos _
    simp only [if_pos hk, Nat.zero_add, Nat.mod_eq_of_lt hlt, Nat.not_lt_zero, if_false,
      if_neg (Nat.ne_of_gt hpos)]
    exact ⟨⟨fun h => absurd h (by simp), fun h => by omega⟩, fun _ => trivial⟩
  · simp only [if_neg hk, if_true]
    exact ⟨⟨fun _ => by omega, fun _ => trivial⟩, fun h => absurd h hk⟩

/-- Witness for C5: a target for `2001:db8::/126` has a well-formed mask. -/
theorem C5_count_total_witness :
    wf16 ex_mask_126 ∧
    count_total (new_target { addr := ex_addr_db8, mask := ex_mask_126 }) 0 false =
      (2 ^ varying_bits ex_mask_126, false) :=
  ⟨by decide,
    (C5_count_total (new_target { addr := ex_addr_db8, mask := ex_mask_126 }) (by decide)).2
      (by decide)⟩

/-! ## The sanity check -/

theorem count_total_inv (t : targetstate) (hm : wf16 t.spec.mask) (S : Nat) (s : Nat × Bool)
    (h : count_inv S s) :
    count_inv (S + 2 ^ varying_bits t.spec.mask) (count_total t s.1 s.2) := by
  obtain ⟨h1, h2, h3⟩ := h
  rw [varying_bits_eq _ hm]
  unfold count_total
  simp only [progress_single_total]
  by_cases hk : nvar t.spec.mask 128 < 64
  · have hlt : 2 ^ nvar t.spec.mask 128 < 2 ^ 64 := Nat.pow_lt_pow_right (by norm_num) hk
    have hpos : 0 < 2 ^ nvar t.spec.mask 128 := Nat.two_pow_pos _
    simp only [if_pos hk, if_neg (Nat.ne_of_gt hpos)]
    have hmod : (s.1 + 2 ^ nvar t.spec.mask 128) % 2 ^ 64 < 2 ^ 64 :=
      Nat.mod_lt _ (Nat.two_pow_pos _)
    by_cases hw : (s.1 + 2 ^ nvar t.spec.mask 128) % 2 ^ 64 < s.1
    · rw [if_pos hw]
      refine ⟨hmod, fun h => absurd h (by simp), fun _ => ?_⟩
      cases hov : s.2
      · have := h2 hov
        by_contra hc
        rw [Nat.mod_eq_of_lt (by omega)] at hw
        omega
      · have := h3 hov
        omega
    · rw [if_neg hw]
      refine ⟨hmod, fun hov => ?_, fun hov => ?_⟩
      · have := h2 hov
        by_cases hc : s.1 + 2 ^ nvar t.spec.mask 128 < 2 ^ 64
        · rw [Nat.mod_eq_of_lt hc]; omega
        · exfalso
          have e : (s.1 + 2 ^ nvar t.spec.mask 128) % 2 ^ 64 =
              s.1 + 2 ^ nvar t.spec.mask 128 - 2 ^ 64 := by
            rw [Nat.mod_eq_sub_mod (by omega), Nat.mod_eq_of_lt (by omega)]
          omega
      · have := h3 hov
        omega
  · simp only [if_neg hk, if_true]
    have hge : 2 ^ 64 ≤ 2 ^ nvar t.spec.mask 128 :=
      Nat.pow_le_pow_right (by norm_num) (by omega)
    exact ⟨h1, fun h => absurd h (by simp), fun _ => by omega⟩

theorem count_total_foldl (ts : List targetstate) (hm : ∀ t ∈ ts, wf16 t.spec.mask)
    (S : Nat) (s : Nat × Bool) (h : count_inv S s) :
    count_inv (S + exact_total ts) (ts.foldl (fun s t => count_total t s.1 s.2) s) := by
  induction ts generalizing S s with
  | nil => simpa [exact_total] using h
  | cons t ts ih =>
    have h1 := count_total_inv t (hm t (List.mem_cons_self _ _)) S s h
    have h2 := ih (fun u hu => hm u (List.mem_cons_of_mem _ hu)) _ _ h1
    simp only [List.foldl_cons]
    have e : S + exact_total (t :: ts) =
        S + 2 ^ varying_bits t.spec.mask + exact_total ts := by
      simp only [exact_total, List.map_cons, List.sum_cons]
      omega
    rw [e]
    exact h2

/-- C6: with `TARGET_SANITY_MAX_BITS < 64`, `target_gen_sanity_check` returns -1 if and only
if the exact (unbounded-integer) sum of `2^k_i` over the targets is at least
`2^TARGET_SANITY_MAX_BITS`, and returns 0 otherwise: wrap-around of the 64-bit accumulator
never lets an oversized list pass. In particular the single spec `::/0` is refused. -/
theorem C6_sanity_check (E : consts) (g : gen) (hb : E.TARGET_SANITY_MAX_BITS < 64)
    (hm : ∀ t ∈ g.targets, wf16 t.spec.mask) :
    (target_gen_sanity_check E g = -1 ↔
      2 ^ E.TARGET_SANITY_MAX_BITS ≤ exact_total g.targets) ∧
    (target_gen_sanity_check E g = -1 ∨ target_gen_sanity_check E g = 0) ∧
    (∀ (r : Nat → Nat) (v : Int),
      target_gen_sanity_check E (gen_load E r v [{ addr := zero16, mask := zero16 }]) = -1) := by
  have key : ∀ ts : List targetstate, (∀ t ∈ ts, wf16 t.spec.mask) →
      ((if (ts.foldl (fun s t => count_total t s.1 s.2) (0, false)).2 = true ∨
          (1 <<< E.TARGET_SANITY_MAX_BITS) % 2 ^ 64 ≤
            (ts.foldl (fun s t => count_total t s.1 s.2) (0, false)).1
        then (-1 : Int) else 0) = -1 ↔ 2 ^ E.TARGET_SANITY_MAX_BITS ≤ exact_total ts) := by
    intro ts hts
    have inv := count_total_foldl ts hts 0 (0, false)
      ⟨Nat.two_pow_pos _, fun _ => rfl, fun h => absurd h (by simp)⟩
    rw [Nat.zero_add] at inv
    obtain ⟨h1, h2, h3⟩ := inv
    have hlim : (1 <<< E.TARGET_SANITY_MAX_BITS) % 2 ^ 64 = 2 ^ E.TARGET_SANITY_MAX_BITS := by
      rw [Nat.shiftLeft_eq, Nat.one_mul]
      exact Nat.mod_eq_of_lt (Nat.pow_lt_pow_right (by norm_num) hb)
    have hlt : 2 ^ E.TARGET_SANITY_MAX_BITS < 2 ^ 64 := Nat.pow_lt_pow_right (by norm_num) hb
    rw [hlim]
    cases hov : (ts.foldl (fun s t => count_total t s.1 s.2) (0, false)).2
    · have := h2 hov
      rw [this]
      simp
    · have := h3 hov
      simp
      omega
  have hsc : ∀ g : gen, target_gen_sanity_check E g =
      (if (g.targets.foldl (fun s t => count_total t s.1 s.2) (0, false)).2 = true ∨
          (1 <<< E.TARGET_SANITY_MAX_BITS) % 2 ^ 64 ≤
            (g.targets.foldl (fun s t => count_total t s.1 s.2) (0, false)).1
        then (-1 : Int) else 0) := by
    intro g
    simp [target_gen_sanity_check]
  refine ⟨?_, ?_, ?_⟩
  · rw [hsc]; exact key g.targets hm
  · rw [hsc]; split <;> simp
  · intro r v
    rw [hsc]
    have e : (gen_load E r v [{ addr := zero16, mask := zero16 }]).targets =
        [new_target { addr := zero16, mask := zero16 }] := rfl
    rw [e]
    apply (key _ (by intro t ht; rw [List.mem_singleton] at ht; rw [ht]; decide)).2
    have : exact_total [new_target { addr := zero16, mask := zero16 }] = 2 ^ 128 := by decide
    rw [this]
    exact Nat.pow_le_pow_right (by norm_num) (by omega)

/-- Witness for C6: the generator loaded with `2001:db8::/126` and a limit of `2^40`. -/
theorem C6_sanity_check_witness :
    ex_consts.TARGET_SANITY_MAX_BITS < 64 ∧
    target_gen_sanity_check ex_consts
      (gen_load ex_consts (fun _ => 0) 0 [{ addr := ex_addr_db8, mask := ex_mask_126 }]) = 0 := by
  refine ⟨by decide, ?_⟩
  have h := C6_sanity_check ex_consts
    (gen_load ex_consts (fun _ => 0) 0 [{ addr := ex_addr_db8, mask := ex_mask_126 }])
    (by decide) (by decide)
  rcases h.2.1 with h1 | h1
  · exfalso
    have := h.1.1 h1
    revert this
    decide
  · exact h1

/-! ## `target_gen_progress`: the sums over the targets -/

theorem progress_single_eq (t : targetstate) (h : tgood t) (a b : Nat) :
    progress_single t a b = ((a + 2 ^ nvar t.spec.mask 128) % 2 ^ 64, (b + tprog t) % 2 ^ 64) := by
  obtain ⟨h1, h2⟩ := progress_loop_spec t
  have hk := h.2.2
  rw [min_eq_left (by omega)] at h1
  have hlt : 2 ^ nvar t.spec.mask 128 < 2 ^ 64 := Nat.pow_lt_pow_right (by norm_num) hk
  unfold progress_single tprog
  simp only [h1, h2 (by omega), Nat.mod_eq_of_lt hlt]
  cases t.done <;> simp

theorem progress_foldl_eq (ts : List targetstate) (h : ∀ t ∈ ts, tgood t) (a b : Nat) :
    ts.foldl (fun s t => progress_single t s.1 s.2) (a % 2 ^ 64, b % 2 ^ 64) =
      ((a + sumT ts) % 2 ^ 64, (b + sumP ts) % 2 ^ 64) := by
  induction ts generalizing a b with
  | nil => simp [sumT, sumP]
  | cons t ts ih =>
    simp only [List.foldl_cons]
    rw [progress_single_eq t (h t (List.mem_cons_self _ _)), Nat.mod_add_mod, Nat.mod_add_mod,
      ih (fun u hu => h u (List.mem_cons_of_mem _ hu))]
    simp only [sumT, sumP, List.map_cons, List.sum_cons, Nat.add_assoc]

theorem progress_sums_eq (ts : List targetstate) (h : ∀ t ∈ ts, tgood t) :
    progress_sums ts = (sumT ts % 2 ^ 64, sumP ts % 2 ^ 64) := by
  have := progress_foldl_eq ts h 0 0
  simpa [progress_sums] using this

theorem tprog_le (t : targetstate) : tprog t ≤ 2 ^ nvar t.spec.mask 128 := by
  unfold tprog
  split
  · exact le_rfl
  · exact Nat.le_of_lt (squeeze_lt _ _ _)

theorem sumP_le_sumT (ts : List targetstate) : sumP ts ≤ sumT ts := by
  induction ts with
  | nil => simp [sumP, sumT]
  | cons t ts ih =>
    have := tprog_le t
    simp only [sumP, sumT, List.map_cons, List.sum_cons] at ih ⊢
    omega

theorem tgood_next (t : targetstate) (h : tgood t) (hd : t.done = false) :
    tgood (next_addr t).1 ∧ tprog (next_addr t).1 = tprog t + 1 ∧
    (next_addr t).1.spec = t.spec := by
  obtain ⟨hwf, hm0, hk⟩ := h
  obtain ⟨a, b, _, _, _, f⟩ := next_addr_spec t hwf
  refine ⟨⟨a, ?_, ?_⟩, ?_, b⟩
  · rw [b]; exact masked0_next_addr t hwf hm0
  · rw [b]; exact hk
  · unfold tprog
    rw [b, hd]
    rcases f with ⟨_, f2, f3⟩ | ⟨f1, _, f3⟩
    · rw [f3, hd]; simpa using f2
    · rw [f3]; simpa using f1.symm

/-! ## `fill_cache` without a stream -/

theorem sumT_cons (t : targetstate) (ts : List targetstate) :
    sumT (t :: ts) = 2 ^ nvar t.spec.mask 128 + sumT ts := by
  simp only [sumT, List.map_cons, List.sum_cons]

theorem sumP_cons (t : targetstate) (ts : List targetstate) :
    sumP (t :: ts) = tprog t + sumP ts := by
  simp only [sumP, List.map_cons, List.sum_cons]

theorem fill_round_inv (E : consts) (ts : List targetstate) (s : fillst)
    (h : ∀ t ∈ ts, tgood t) (hs : s.cache_size < E.TARGET_RANDOMIZE_SIZE) :
    (∀ t ∈ (fill_round E ts s).1, tgood t) ∧
    sumT (fill_round E ts s).1 = sumT ts ∧
    sumP (fill_round E ts s).1 + s.cache_size = sumP ts + (fill_round E ts s).2.cache_size ∧
    s.cache_size ≤ (fill_round E ts s).2.cache_size ∧
    (fill_round E ts s).2.cache_size ≤ E.TARGET_RANDOMIZE_SIZE ∧
    ((fill_round E ts s).2.out = false →
      (fill_round E ts s).2.cache_size < E.TARGET_RANDOMIZE_SIZE) ∧
    ((fill_round E ts s).2.any = true →
      s.any = true ∨ s.cache_size < (fill_round E ts s).2.cache_size) := by
  induction ts generalizing s with
  | nil =>
    rw [fill_round]
    exact ⟨h, rfl, rfl, le_rfl, Nat.le_of_lt hs, fun _ => hs, fun h => Or.inl h⟩
  | cons t ts ih =>
    have ht := h t (List.mem_cons_self _ _)
    have hts : ∀ u ∈ ts, tgood u := fun u hu => h u (List.mem_cons_of_mem _ hu)
    rw [fill_round]
    by_cases hd : t.done = true
    · rw [if_pos hd]
      dsimp only
      obtain ⟨a, b, c, d, e, f, g⟩ := ih s hts hs
      refine ⟨?_, ?_, ?_, d, e, f, g⟩
      · intro u hu
        rcases List.mem_cons.1 hu with hu | hu
        · rw [hu]; exact ht
        · exact a u hu
      · rw [sumT_cons, sumT_cons, b]
      · rw [sumP_cons, sumP_cons]; omega
    · rw [if_neg hd]
      by_cases hdel : t.delayed_start > 0
      · rw [if_pos hdel]
        dsimp only
        obtain ⟨a, b, c, d, e, f, g⟩ := ih s hts hs
        refine ⟨?_, ?_, ?_, d, e, f, g⟩
        · intro u hu
          rcases List.mem_cons.1 hu with hu | hu
          · rw [hu]; exact ht
          · exact a u hu
        · rw [sumT_cons, sumT_cons, b]
        · rw [sumP_cons, sumP_cons]
          show tprog t + _ + _ = _
          omega
      · rw [if_neg hdel]
        have hd2 : t.done = false := by simpa using hd
        obtain ⟨n1, n2, n3⟩ := tgood_next t ht hd2
        dsimp only
        by_cases hfull : s.cache_size + 1 = E.TARGET_RANDOMIZE_SIZE
        · rw [if_pos hfull]
          dsimp only
          refine ⟨?_, ?_, ?_, Nat.le_succ _, Nat.le_of_eq hfull, fun h => absurd h (by simp),
            fun _ => Or.inr (Nat.lt_succ_self _)⟩
          · intro u hu
            rcases List.mem_cons.1 hu with hu | hu
            · rw [hu]; exact n1
            · exact hts u hu
          · rw [sumT_cons, sumT_cons, n3]
          · rw [sumP_cons, sumP_cons, n2]
            show _ = _ + (s.cache_size + 1)
            omega
        · rw [if_neg hfull]
          dsimp only
          obtain ⟨a, b, c, d, e, f, g⟩ := ih
            { cache := s.cache.set s.cache_size (next_addr t).2, cache_size := s.cache_size + 1,
              any := true, out := false } hts (by show s.cache_size + 1 < _; omega)
          refine ⟨?_, ?_, ?_, ?_, e, f, ?_⟩
          · intro u hu
            rcases List.mem_cons.1 hu with hu | hu
            · rw [hu]; exact n1
            · exact a u hu
          · rw [sumT_cons, sumT_cons, n3, b]
          · rw [sumP_cons, sumP_cons, n2]
            have c2 : sumP _ + (s.cache_size + 1) = _ := c
            omega
          · have d2 : s.cache_size + 1 ≤ _ := d
            omega
          · intro _
            have d2 : s.cache_size + 1 ≤ _ := d
            exact Or.inr (by omega)

theorem fill_while_inv (E : consts) (fuel : Nat) (ts : List targetstate) (s : fillst)
    (h : ∀ t ∈ ts, tgood t) (hs : s.cache_size < E.TARGET_RANDOMIZE_SIZE)
    (hf : E.TARGET_RANDOMIZE_SIZE + 1 ≤ fuel + s.cache_size) :
    ∃ r, fill_while E fuel ts s = some r ∧
      (∀ t ∈ r.1, tgood t) ∧ sumT r.1 = sumT ts ∧
      sumP r.1 + s.cache_size = sumP ts + r.2.cache_size ∧
      r.2.cache_size ≤ E.TARGET_RANDOMIZE_SIZE := by
  induction fuel generalizing ts s with
  | zero => omega
  | succ fuel ih =>
    obtain ⟨a, b, c, d, e, f, g⟩ := fill_round_inv E ts
      { cache := s.cache, cache_size := s.cache_size, any := false, out := s.out } h hs
    rw [fill_while]
    by_cases ho : (fill_round E ts
        { cache := s.cache, cache_size := s.cache_size, any := false, out := s.out }).2.out = true
    · rw [if_pos ho]
      exact ⟨_, rfl, a, b, c, e⟩
    · rw [if_neg ho]
      by_cases ha : (!(fill_round E ts
          { cache := s.cache, cache_size := s.cache_size, any := false, out := s.out }).2.any) = true
      · rw [if_pos ha]
        exact ⟨_, rfl, a, b, c, e⟩
      · rw [if_neg ha]
        have ha2 : (fill_round E ts
          { cache := s.cache, cache_size := s.cache_size, any := false, out := s.out }).2.any
            = true := by simpa using ha
        have hgrow : s.cache_size < (fill_round E ts
            { cache := s.cache, cache_size := s.cache_size, any := false,
              out := s.out }).2.cache_size := by
          rcases g ha2 with g1 | g1
          · exact absurd g1 (by simp)
          · exact g1
        obtain ⟨r, r1, r2, r3, r4, r5⟩ := ih _ _ a (f (by simpa using ho)) (by omega)
        refine ⟨r, r1, r2, by rw [r3, b], ?_, r5⟩
        have c2 : sumP _ + s.cache_size = sumP ts + _ := c
        omega

/-! ## `shuffle` permutes -/

theorem swap_head_perm {α : Type} (l : List α) (n : Nat) (a x : α) (h : l[n]? = some x) :
    (x :: l.set n a).Perm (a :: l) := by
  induction l generalizing n with
  | nil => simp at h
  | cons b l ih =>
    cases n with
    | zero =>
      simp only [List.getElem?_cons_zero, Option.some.injEq] at h
      rw [h, List.set_cons_zero]
      exact List.Perm.swap _ _ _
    | succ n =>
      simp only [List.getElem?_cons_succ] at h
      rw [List.set_cons_succ]
      exact (List.Perm.swap _ _ _).trans (((ih n h).cons b).trans (List.Perm.swap _ _ _))

theorem swap_perm {α : Type} (l : List α) (i j : Nat) (x y : α) (hj : l[j]? = some x)
    (hi : l[i]? = some y) : ((l.set j y).set i x).Perm l := by
  induction l generalizing i j with
  | nil => simp
  | cons a l ih =>
    cases j with
    | zero =>
      simp only [List.getElem?_cons_zero, Option.some.injEq] at hj
      cases i with
      | zero =>
        simp only [List.getElem?_cons_zero, Option.some.injEq] at hi
        rw [List.set_cons_zero, List.set_cons_zero, ← hj]
      | succ i =>
        simp only [List.getElem?_cons_succ] at hi
        rw [List.set_cons_zero, List.set_cons_succ, ← hj]
        exact swap_head_perm l i a y hi
    | succ j =>
      simp only [List.getElem?_cons_succ] at hj
      cases i with
      | zero =>
        simp only [List.getElem?_cons_zero, Option.some.injEq] at hi
        rw [List.set_cons_succ, List.set_cons_zero, ← hi]
        exact swap_head_perm l j a x hj
      | succ i =>
        simp only [List.getElem?_cons_succ] at hi
        rw [List.set_cons_succ, List.set_cons_succ]
        exact (ih i j hj hi).cons a

theorem shuffle_loop_perm {α : Type} (i : Nat) (buf : List α) (r : Nat → Nat) :
    (shuffle_loop i buf r).1.Perm buf := by
  induction i generalizing buf r with
  | zero => exact List.Perm.refl _
  | succ i ih =>
    rw [shuffle_loop]
    refine (ih _ _).trans ?_
    cases hj : buf[(rand r).1 % (i + 1 + 1)]? with
    | none => exact List.Perm.refl _
    | some x =>
      cases hi : buf[i + 1]? with
      | none => exact List.Perm.refl _
      | some y => exact swap_perm buf (i + 1) _ x y hj hi

theorem shuffle_perm {α : Type} (r : Nat → Nat) (buf : List α) (n : Nat) :
    (shuffle r buf n).1.Perm buf :=
  shuffle_loop_perm _ _ _

/-! ## `target_gen_next` keeps the count -/

theorem fill_cache_inv (E : consts) (g : gen) (T n : Nat)
    (hN : 1 ≤ E.TARGET_RANDOMIZE_SIZE) (h : gen_inv T n g) (he : g.cache_i = g.cache_size) :
    ∃ g1, fill_cache E g = some g1 ∧ g1.mode_streaming = false ∧
      (∀ t ∈ g1.targets, tgood t) ∧ sumT g1.targets = T ∧ g1.cache_i = 0 ∧
      sumP g1.targets = n + g1.cache_size ∧ g1.randomize = g.randomize ∧
      g1.cache_size ≤ E.TARGET_RANDOMIZE_SIZE := by
  obtain ⟨h1, h2, h3, h4, h5⟩ := h
  obtain ⟨r, r1, r2, r3, r4, r5⟩ := fill_while_inv E (E.TARGET_RANDOMIZE_SIZE + 1) g.targets
    { cache := g.cache, cache_size := 0, any := false, out := false } h2
    (by show 0 < _; omega) (by show _ ≤ _ + 1 + 0; omega)
  unfold fill_cache
  rw [h1, r1]
  refine ⟨_, rfl, rfl, r2, by rw [r3, h3], rfl, ?_, rfl, r5⟩
  show sumP r.1 = n + r.2.cache_size
  have r4b : sumP r.1 + 0 = sumP g.targets + r.2.cache_size := r4
  omega

theorem target_gen_next_inv (E : consts) (g : gen) (T n : Nat)
    (hN : 1 ≤ E.TARGET_RANDOMIZE_SIZE) (h : gen_inv T n g) :
    ∃ res g2, target_gen_next E g = some (res, g2) ∧
      gen_inv T (n + (if res.isSome then 1 else 0)) g2 := by
  unfold target_gen_next
  by_cases he : g.cache_i = g.cache_size
  · obtain ⟨g1, f1, f2, f3, f4, f5, f6, _, _⟩ := fill_cache_inv E g T n hN h he
    rw [if_pos he, f1]
    dsimp only
    by_cases hz : g1.cache_size = 0
    · rw [if_pos hz]
      refine ⟨none, g1, rfl, f2, f3, f4, by omega, ?_⟩
      simp only [Option.isSome_none, Bool.false_eq_true, if_false]
      omega
    · rw [if_neg hz]
      refine ⟨_, _, rfl, ?_⟩
      simp only [Option.isSome_some, if_true]
      cases hr : g1.randomize
      · simp only [Bool.false_eq_true, if_false]
        exact ⟨f2, f3, f4, by show g1.cache_i + 1 ≤ g1.cache_size; omega,
          by show sumP g1.targets = _ + (g1.cache_size - (g1.cache_i + 1)); omega⟩
      · simp only [if_true]
        exact ⟨f2, f3, f4, by show g1.cache_i + 1 ≤ g1.cache_size; omega,
          by show sumP g1.targets = _ + (g1.cache_size - (g1.cache_i + 1)); omega⟩
  · rw [if_neg he]
    obtain ⟨h1, h2, h3, h4, h5⟩ := h
    refine ⟨_, _, rfl, ?_⟩
    simp only [Option.isSome_some, if_true]
    exact ⟨h1, h2, h3, by show g.cache_i + 1 ≤ g.cache_size; omega,
      by show sumP g.targets = _ + (g.cache_size - (g.cache_i + 1)); omega⟩

theorem gen_calls_inv (E : consts) (g0 : gen) (T : Nat) (hN : 1 ≤ E.TARGET_RANDOMIZE_SIZE)
    (h : gen_inv T 0 g0) (m : Nat) :
    ∃ k out g, gen_calls E m g0 = some (k, out, g) ∧ gen_inv T k g ∧ out.length = k := by
  induction m with
  | zero => exact ⟨0, [], g0, rfl, h, rfl⟩
  | succ m ih =>
    obtain ⟨k, out, g, e, inv, hl⟩ := ih
    obtain ⟨res, g2, e2, inv2⟩ := target_gen_next_inv E g T k hN inv
    rw [gen_calls, e]
    dsimp only
    rw [e2]
    cases res with
    | none => exact ⟨k, out, g2, rfl, by simpa using inv2, hl⟩
    | some a => exact ⟨k + 1, out ++ [a], g2, rfl, by simpa using inv2, by simp [hl]⟩

theorem gen_calls_succ (E : consts) (g0 : gen) (m k : Nat) (out : List (List Nat)) (g : gen)
    (h : gen_calls E m g0 = some (k, out, g)) :
    gen_calls E (m + 1) g0 =
      match target_gen_next E g with
      | none => none
      | some (none, g2) => some (k, out, g2)
      | some (some a, g2) => some (k + 1, out ++ [a], g2) := by
  rw [gen_calls, h]

theorem progress_of_inv (g : gen) (T n : Nat) (h : gen_inv T n g) (h0 : 0 < T)
    (hT : T < 2 ^ 40) :
    progress_done g = n ∧ n ≤ T ∧
    target_gen_progress g = ((1000 * n / T : Nat) : ℚ) / 1000 := by
  obtain ⟨h1, h2, h3, h4, h5⟩ := h
  have hle := sumP_le_sumT g.targets
  have hs := progress_sums_eq g.targets h2
  have hT64 : T < 2 ^ 64 := lt_trans hT (by norm_num)
  rw [h3, Nat.mod_eq_of_lt hT64, Nat.mod_eq_of_lt (by omega)] at hs
  have hd : progress_done g = n := by
    unfold progress_done
    rw [hs]
    show (((sumP g.targets : Int) - ((g.cache_size : Int) - (g.cache_i : Int))) % 2 ^ 64).toNat
      = n
    have e : ((sumP g.targets : Int) - ((g.cache_size : Int) - (g.cache_i : Int))) = (n : Int) := by
      omega
    rw [e, Int.emod_eq_of_lt (by omega) (by omega), Int.toNat_ofNat]
  refine ⟨hd, by omega, ?_⟩
  unfold target_gen_progress
  rw [h1, hd, hs]
  have hne : T ≠ 0 := by omega
  simp only [Bool.false_eq_true, if_false, hne]
  have : n * 1000 % 2 ^ 64 = 1000 * n := by
    rw [Nat.mod_eq_of_lt (by omega)]
    omega
  rw [this]

/-! ## The generator once loaded -/

theorem gen_add_foldl (specs : List targetspec) (g : gen) (h : g.mode_streaming = false) :
    specs.foldl (fun g s => (target_gen_add g s).2) g =
      { g with targets := g.targets ++ specs.map new_target } := by
  induction specs generalizing g with
  | nil => simp
  | cons s specs ih =>
    simp only [List.foldl_cons]
    have e : (target_gen_add g s).2 = { g with targets := g.targets ++ [new_target s] } := by
      simp [target_gen_add, h]
    rw [e, ih { g with targets := g.targets ++ [new_target s] } h]
    simp

theorem gen_load_eq (E : consts) (r : Nat → Nat) (v : Int) (specs : List targetspec) :
    gen_load E r v specs =
      { randomize := decide (v ≠ 0), mode_streaming := false,
        cache := List.replicate E.TARGET_RANDOMIZE_SIZE (List.replicate 16 0),
        cache_i := 0, cache_size := 0, targets_from := [],
        targets := specs.map new_target, rand_next := r } := by
  unfold gen_load
  rw [gen_add_foldl _ _ rfl]
  simp [target_gen_set_randomized, target_gen_init, gen_static]

theorem finish_add_delays_core (max : Nat) (ts ts2 : List targetstate) (r r2 : Nat → Nat)
    (h : finish_add_delays max ts r = some (ts2, r2)) : ts2.map tcore = ts.map tcore := by
  induction ts generalizing ts2 r r2 with
  | nil =>
    simp only [finish_add_delays, Option.some.injEq, Prod.mk.injEq] at h
    rw [← h.1]
  | cons t ts ih =>
    rw [finish_add_delays] at h
    split at h
    · cases hrec : finish_add_delays max ts r with
      | none => rw [hrec] at h; simp at h
      | some p =>
        rw [hrec] at h
        simp only [Option.some.injEq, Prod.mk.injEq] at h
        rw [← h.1, List.map_cons, List.map_cons, ih p.1 r p.2 hrec]
    · split at h
      · cases hrec : finish_add_delays max ts (rand64 r).2 with
        | none => rw [hrec] at h; simp at h
        | some p =>
          rw [hrec] at h
          simp only [Option.some.injEq, Prod.mk.injEq] at h
          rw [← h.1, List.map_cons, List.map_cons, ih p.1 _ p.2 hrec]
          rfl
      · simp at h

theorem mem_le_sum (l : List Nat) (x : Nat) (h : x ∈ l) : x ≤ l.sum := by
  induction l with
  | nil => simp at h
  | cons a l ih =>
    rw [List.sum_cons]
    rcases List.mem_cons.1 h with h | h
    · omega
    · have := ih h; omega

theorem gen_inv_of_core (ts : List targetstate) (specs : List targetspec) (g : gen)
    (hwf : ∀ s ∈ specs, wf16 s.mask) (hT : total_addresses specs < 2 ^ 40)
    (hp : g.targets.Perm ts)
    (hc : ts.map tcore = specs.map (fun s => (s, zero16, false)))
    (hs : g.mode_streaming = false) (hi : g.cache_i = 0) (hz : g.cache_size = 0) :
    gen_inv (total_addresses specs) 0 g := by
  have hmem : ∀ t ∈ g.targets, ∃ s ∈ specs, t.spec = s ∧ t.cur = zero16 ∧ t.done = false := by
    intro t ht
    have h1 : tcore t ∈ ts.map tcore := List.mem_map_of_mem _ (hp.mem_iff.1 ht)
    rw [hc, List.mem_map] at h1
    obtain ⟨s, hs1, hs2⟩ := h1
    simp only [tcore, Prod.mk.injEq] at hs2
    exact ⟨s, hs1, hs2.1.symm, hs2.2.1.symm, hs2.2.2.symm⟩
  have hsumT : sumT g.targets = total_addresses specs := by
    have e1 : sumT g.targets = sumT ts := (hp.map _).sum_eq
    have e2 : sumT ts = ((ts.map tcore).map (fun c => 2 ^ nvar c.1.mask 128)).sum := by
      simp only [sumT, List.map_map, Function.comp_def, tcore]
    rw [e1, e2, hc, List.map_map]
    unfold total_addresses
    exact congrArg List.sum (List.map_congr_left (fun s hs1 => by
      simp only [Function.comp_apply]
      rw [varying_bits_eq _ (hwf s hs1)]))
  have hsumP : sumP g.targets = 0 := by
    have e1 : sumP g.targets = sumP ts := (hp.map _).sum_eq
    have e2 : sumP ts = ((ts.map tcore).map (fun c =>
        if c.2.2 then 2 ^ nvar c.1.mask 128 else squeeze c.1.mask c.2.1 128)).sum := by
      simp only [sumP, List.map_map, Function.comp_def]
      exact congrArg List.sum (List.map_congr_left (fun t _ => by simp only [tprog, tcore]))
    rw [e1, e2, hc, List.map_map]
    apply List.sum_eq_zero
    intro x hx
    rw [List.mem_map] at hx
    obtain ⟨s, _, rfl⟩ := hx
    simp only [Function.comp_apply, Bool.false_eq_true, if_false, squeeze_zero16]
  refine ⟨hs, ?_, hsumT, by omega, by omega⟩
  intro t ht
  obtain ⟨s, hs1, e1, e2, _⟩ := hmem t ht
  refine ⟨by rw [e2]; exact wf16_zero16, by rw [e2]; exact masked0_zero16 _, ?_⟩
  rw [e1]
  have h1 : 2 ^ varying_bits s.mask ≤ total_addresses specs :=
    mem_le_sum _ _ (List.mem_map_of_mem _ hs1)
  rw [varying_bits_eq _ (hwf s hs1)] at h1
  by_contra hk
  have : 2 ^ 40 ≤ 2 ^ nvar s.mask 128 := Nat.pow_le_pow_right (by norm_num) (by omega)
  omega

theorem finish_add_inv (E : consts) (r : Nat → Nat) (v : Int) (specs : List targetspec)
    (g0 : gen) (hwf : ∀ s ∈ specs, wf16 s.mask) (hT : total_addresses specs < 2 ^ 40)
    (hload : target_gen_finish_add E (gen_load E r v specs) = some (0, g0)) :
    gen_inv (total_addresses specs) 0 g0 := by
  rw [gen_load_eq] at hload
  unfold target_gen_finish_add at hload
  dsimp only at hload
  rw [if_neg (by simp)] at hload
  split at hload
  · simp at hload
  · have hcore0 : (specs.map new_target).map tcore = specs.map (fun s => (s, zero16, false)) := by
      rw [List.map_map]; rfl
    split at hload
    · simp at hload
    · rename_i ts r2 hsp
      have hcore : ts.map tcore = specs.map (fun s => (s, zero16, false)) := by
        rw [← hcore0]
        split at hsp
        · exact finish_add_delays_core _ _ _ _ _ hsp
        · simp only [Option.some.injEq, Prod.mk.injEq] at hsp
          rw [← hsp.1]
      split at hload
      · simp only [Option.some.injEq, Prod.mk.injEq, true_and] at hload
        rw [← hload]
        exact gen_inv_of_core ts specs _ hwf hT (shuffle_perm _ _ _) hcore rfl rfl rfl
      · simp only [Option.some.injEq, Prod.mk.injEq, true_and] at hload
        rw [← hload]
        exact gen_inv_of_core ts specs _ hwf hT (List.Perm.refl _) hcore rfl rfl rfl

/-! ## Claim C4 -/

/-- C4: for a non-streaming generator loaded with specs whose combined address total `T`
satisfies `0 < T < 2^40`, every call of `target_gen_next` returns, and after the calls of
which `n` returned 0 the `done` count of `target_gen_progress` (the sum of the per-target
progress minus the `cache_size - cache_i` buffered addresses) is exactly `n`; the value
returned is `floor(1000*n/T)/1000`, and it does not decrease with one more call of
`target_gen_next`. -/
theorem C4_progress_counts (E : consts) (r : Nat → Nat) (v : Int) (specs : List targetspec)
    (g0 : gen) (hN : 1 ≤ E.TARGET_RANDOMIZE_SIZE) (hwf : ∀ s ∈ specs, wf16 s.mask)
    (h0 : 0 < total_addresses specs) (hT : total_addresses specs < 2 ^ 40)
    (hload : target_gen_finish_add E (gen_load E r v specs) = some (0, g0)) (m : Nat) :
    ∃ n out g n2 out2 g2,
      gen_calls E m g0 = some (n, out, g) ∧ out.length = n ∧
      progress_done g = n ∧
      target_gen_progress g = ((1000 * n / total_addresses specs : Nat) : ℚ) / 1000 ∧
      gen_calls E (m + 1) g0 = some (n2, out2, g2) ∧ n ≤ n2 ∧
      target_gen_progress g ≤ target_gen_progress g2 := by
  have inv0 := finish_add_inv E r v specs g0 hwf hT hload
  obtain ⟨n, out, g, e, inv, hl⟩ := gen_calls_inv E g0 _ hN inv0 m
  obtain ⟨res, g2, e2, inv2⟩ := target_gen_next_inv E g _ n hN inv
  obtain ⟨p1, _, p3⟩ := progress_of_inv g _ n inv h0 hT
  obtain ⟨_, _, q3⟩ := progress_of_inv g2 _ _ inv2 h0 hT
  have hstep := gen_calls_succ E g0 m n out g e
  rw [e2] at hstep
  have hmono : ∀ k : Nat, n ≤ k →
      (((1000 * n / total_addresses specs : Nat) : ℚ) / 1000) ≤
        ((1000 * k / total_addresses specs : Nat) : ℚ) / 1000 := by
    intro k hk
    have h1 : 1000 * n / total_addresses specs ≤ 1000 * k / total_addresses specs :=
      Nat.div_le_div_right (Nat.mul_le_mul_left _ hk)
    have h2 : ((1000 * n / total_addresses specs : Nat) : ℚ) ≤
        ((1000 * k / total_addresses specs : Nat) : ℚ) := by exact_mod_cast h1
    exact div_le_div_of_nonneg_right h2 (by norm_num)
  cases res with
  | none =>
    refine ⟨n, out, g, n, out, g2, e, hl, p1, p3, hstep, le_rfl, ?_⟩
    rw [p3, q3]
    exact hmono _ (by simp)
  | some a =>
    refine ⟨n, out, g, n + 1, out ++ [a], g2, e, hl, p1, p3, hstep, Nat.le_succ _, ?_⟩
    rw [p3, q3]
    exact hmono _ (by simp)

/-! ## A large target followed by a small, delayed one -/

theorem next_addr_iter_succ (n : Nat) (t : targetstate) :
    (next_addr_iter (n + 1) t).1 = (next_addr (next_addr_iter n t).1).1 := by
  simp only [next_addr_iter]

theorem next_addr_iter_delayed (n : Nat) (t : targetstate) :
    (next_addr_iter n t).1.delayed_start = t.delayed_start := by
  induction n with
  | zero => rfl
  | succ n ih => rw [next_addr_iter_succ, next_addr_delayed_start, ih]

theorem iter_final (s : targetspec) :
    (next_addr_iter (2 ^ nvar s.mask 128) (new_target s)).1 =
      { spec := s, cur := zero16, delayed_start := 0, done := true } := by
  have hpos : 0 < 2 ^ nvar s.mask 128 := Nat.two_pow_pos _
  obtain ⟨n, hn⟩ : ∃ n, 2 ^ nvar s.mask 128 = n + 1 := ⟨2 ^ nvar s.mask 128 - 1, by omega⟩
  have hd := iter_done s
  have hsp := next_addr_iter_spec (2 ^ nvar s.mask 128) (new_target s)
  have hdel := next_addr_iter_delayed (2 ^ nvar s.mask 128) (new_target s)
  have hinv := target_inv_iter (2 ^ nvar s.mask 128) (new_target s) (target_inv_new s)
  have hcur : (next_addr_iter (2 ^ nvar s.mask 128) (new_target s)).1.cur = zero16 := by
    apply squeeze_eq_zero s.mask _ hinv.1 (by have := hinv.2; rwa [hsp] at this)
    rw [hn, next_addr_iter_succ]
    obtain ⟨h1, _⟩ := iter_count s n (by omega)
    have inv := target_inv_iter n (new_target s) (target_inv_new s)
    have sp := (next_addr_spec _ inv.1).2.2.2.2.2
    rw [next_addr_iter_spec, new_target_spec] at sp
    rcases sp with ⟨a, _, _⟩ | ⟨_, b, _⟩
    · omega
    · exact b
  generalize next_addr_iter (2 ^ nvar s.mask 128) (new_target s) = r at hd hsp hdel hcur
  obtain ⟨⟨sp, cur, del, done⟩, out⟩ := r
  simp only at hd hsp hdel hcur
  rw [hd, hsp, hdel, hcur]
  rfl

theorem fill_while_two (E : consts) (sA sB : targetspec) (e : Nat)
    (hA : e + E.TARGET_RANDOMIZE_SIZE ≤ 2 ^ nvar sA.mask 128) (fuel : Nat) :
    ∀ (j d : Nat) (cache : List (List Nat)) (any : Bool),
      j < E.TARGET_RANDOMIZE_SIZE → E.TARGET_RANDOMIZE_SIZE ≤ fuel + j →
      E.TARGET_RANDOMIZE_SIZE ≤ d + j + 1 →
      ∃ cache2,
        fill_while E fuel [(next_addr_iter (e + j) (new_target sA)).1, waiting_target sB d]
            { cache := cache, cache_size := j, any := any, out := false } =
          some ([(next_addr_iter (e + E.TARGET_RANDOMIZE_SIZE) (new_target sA)).1,
                  waiting_target sB (d + j + 1 - E.TARGET_RANDOMIZE_SIZE)],
                { cache := cache2, cache_size := E.TARGET_RANDOMIZE_SIZE, any := true,
                  out := true }) := by
  induction fuel with
  | zero => intro j d cache any hj hf _; omega
  | succ fuel ih =>
    intro j d cache any hj hf hd
    have hdone : (next_addr_iter (e + j) (new_target sA)).1.done = false :=
      (iter_count sA (e + j) (by omega)).2
    have hdel : (next_addr_iter (e + j) (new_target sA)).1.delayed_start = 0 :=
      next_addr_iter_delayed _ _
    rw [fill_while]
    by_cases hfull : j + 1 = E.TARGET_RANDOMIZE_SIZE
    · refine ⟨cache.set j (next_addr (next_addr_iter (e + j) (new_target sA)).1).2, ?_⟩
      have e1 : fill_round E [(next_addr_iter (e + j) (new_target sA)).1, waiting_target sB d]
          { cache := cache, cache_size := j, any := false, out := false } =
          ([(next_addr_iter (e + j + 1) (new_target sA)).1, waiting_target sB d],
            { cache := cache.set j (next_addr (next_addr_iter (e + j) (new_target sA)).1).2,
              cache_size := j + 1, any := true, out := true }) := by
        rw [fill_round, hdone, hdel]
        simp only [Bool.false_eq_true, if_false, gt_iff_lt, Nat.lt_irrefl, hfull, if_true]
        rw [next_addr_iter_succ]
      rw [e1]
      simp only [if_true]
      have e2 : e + j + 1 = e + E.TARGET_RANDOMIZE_SIZE := by omega
      have e3 : d + j + 1 - E.TARGET_RANDOMIZE_SIZE = d := by omega
      rw [e2, e3, hfull]
    · have hdpos : 0 < d := by omega
      have e1 : fill_round E [(next_addr_iter (e + j) (new_target sA)).1, waiting_target sB d]
          { cache := cache, cache_size := j, any := false, out := false } =
          ([(next_addr_iter (e + j + 1) (new_target sA)).1, waiting_target sB (d - 1)],
            { cache := cache.set j (next_addr (next_addr_iter (e + j) (new_target sA)).1).2,
              cache_size := j + 1, any := true, out := false }) := by
        rw [fill_round, hdone, hdel]
        simp only [Bool.false_eq_true, if_false, gt_iff_lt, Nat.lt_irrefl, hfull]
        rw [fill_round]
        have hb1 : (waiting_target sB d).done = false := rfl
        have hb2 : (waiting_target sB d).delayed_start = d := rfl
        rw [hb1, hb2]
        simp only [Bool.false_eq_true, if_false, gt_iff_lt, hdpos, if_true, fill_round]
        rw [next_addr_iter_succ]
        rfl
      rw [e1]
      simp only [Bool.false_eq_true, if_false, Bool.not_true]
      obtain ⟨c2, hc2⟩ := ih (j + 1) (d - 1) _ true (by omega) (by omega) (by omega)
      refine ⟨c2, ?_⟩
      have e2 : e + (j + 1) = e + j + 1 := by omega
      have e3 : d - 1 + (j + 1) + 1 - E.TARGET_RANDOMIZE_SIZE =
          d + j + 1 - E.TARGET_RANDOMIZE_SIZE := by omega
      rw [e2, e3] at hc2
      exact hc2

theorem fill_while_stall (E : consts) (tA : targetstate) (sB : targetspec) (d fuel : Nat)
    (cache : List (List Nat)) (hA : tA.done = true) :
    fill_while E (fuel + 1) [tA, waiting_target sB (d + 1)]
        { cache := cache, cache_size := 0, any := false, out := false } =
      some ([tA, waiting_target sB d],
        { cache := cache, cache_size := 0, any := false, out := false }) := by
  have e1 : fill_round E [tA, waiting_target sB (d + 1)]
      { cache := cache, cache_size := 0, any := false, out := false } =
      ([tA, waiting_target sB d],
        { cache := cache, cache_size := 0, any := false, out := false }) := by
    rw [fill_round, hA]
    simp only [if_true]
    rw [fill_round]
    have hb1 : (waiting_target sB (d + 1)).done = false := rfl
    have hb2 : (waiting_target sB (d + 1)).delayed_start = d + 1 := rfl
    rw [hb1, hb2]
    simp only [Bool.false_eq_true, if_false, gt_iff_lt, Nat.succ_pos, if_true, fill_round]
    rfl
  rw [fill_while, e1]
  simp

theorem target_gen_next_refill (E : consts) (g : gen) (ts : List targetstate) (s : fillst)
    (hs : g.mode_streaming = false) (hr : g.randomize = false)
    (he : g.cache_i = g.cache_size)
    (hf : fill_while E (E.TARGET_RANDOMIZE_SIZE + 1) g.targets
      { cache := g.cache, cache_size := 0, any := false, out := false } = some (ts, s)) :
    ∃ res g2, target_gen_next E g = some (res, g2) ∧ g2.randomize = false ∧
      g2.mode_streaming = false ∧ g2.targets = ts ∧ g2.cache_size = s.cache_size ∧
      (s.cache_size = 0 → res = none ∧ g2.cache_i = 0) ∧
      (s.cache_size ≠ 0 → res.isSome = true ∧ g2.cache_i = 1) := by
  unfold target_gen_next fill_cache
  rw [if_pos he, hs, hf]
  simp only [Bool.false_eq_true, if_false]
  by_cases hz : s.cache_size = 0
  · rw [if_pos hz]
    exact ⟨_, _, rfl, hr, rfl, rfl, rfl, fun _ => ⟨rfl, rfl⟩, fun h => absurd hz h⟩
  · rw [if_neg hz, hr]
    simp only [Bool.false_eq_true, if_false]
    exact ⟨_, _, rfl, rfl, rfl, rfl, rfl, fun h => absurd h hz, fun _ => ⟨rfl, rfl⟩⟩

theorem target_gen_next_cached (E : consts) (g : gen) (hne : g.cache_i ≠ g.cache_size) :
    target_gen_next E g =
      some (some (g.cache.getD g.cache_i []), { g with cache_i := g.cache_i + 1 }) := by
  unfold target_gen_next
  rw [if_neg hne]

theorem stall_step (E : consts) (sA sB : targetspec) (hN : 1 ≤ E.TARGET_RANDOMIZE_SIZE)
    (hK : 2 ^ nvar sA.mask 128 = 2 * E.TARGET_RANDOMIZE_SIZE) (i : Nat)
    (hi : i < 2 * E.TARGET_RANDOMIZE_SIZE) (g : gen) (h : stall_state E sA sB i g) :
    ∃ a g2, target_gen_next E g = some (some a, g2) ∧ stall_state E sA sB (i + 1) g2 := by
  obtain ⟨h1, h2, h3, h4, h5⟩ := h
  by_cases hfill : i = 0 ∨ i = E.TARGET_RANDOMIZE_SIZE
  · -- the cache is used up: `fill_cache` runs TARGET_RANDOMIZE_SIZE rounds
    have key : ∃ (e d : Nat) (c2 : List (List Nat)),
        fill_while E (E.TARGET_RANDOMIZE_SIZE + 1) g.targets
          { cache := g.cache, cache_size := 0, any := false, out := false } =
        some (stall_targets E sA sB (i + 1),
          { cache := c2, cache_size := E.TARGET_RANDOMIZE_SIZE, any := true, out := true }) := by
      rcases hfill with h0 | hn
      · have := fill_while_two E sA sB 0 (by omega) (E.TARGET_RANDOMIZE_SIZE + 1) 0
          (2 * E.TARGET_RANDOMIZE_SIZE - 1) g.cache false (by omega) (by omega) (by omega)
        obtain ⟨c2, hc2⟩ := this
        refine ⟨0, 0, c2, ?_⟩
        rw [h3, h0]
        simp only [stall_targets, if_true]
        have e1 : (0 : Nat) + 1 ≠ 0 := by omega
        have e2 : (0 : Nat) + 1 ≤ E.TARGET_RANDOMIZE_SIZE := by omega
        have e3 : 2 * E.TARGET_RANDOMIZE_SIZE - 1 + 0 + 1 - E.TARGET_RANDOMIZE_SIZE =
            E.TARGET_RANDOMIZE_SIZE := by omega
        have e5 : (next_addr_iter 0 (new_target sA)).1 = new_target sA := rfl
        rw [if_neg e1, if_pos e2]
        rw [e3] at hc2
        simp only [Nat.zero_add, e5] at hc2
        exact hc2
      · have := fill_while_two E sA sB E.TARGET_RANDOMIZE_SIZE (by omega)
          (E.TARGET_RANDOMIZE_SIZE + 1) 0 E.TARGET_RANDOMIZE_SIZE g.cache false
          (by omega) (by omega) (by omega)
        obtain ⟨c2, hc2⟩ := this
        refine ⟨0, 0, c2, ?_⟩
        rw [h3, hn]
        have e0 : E.TARGET_RANDOMIZE_SIZE ≠ 0 := by omega
        have e1 : E.TARGET_RANDOMIZE_SIZE + 1 ≠ 0 := by omega
        have e2 : ¬ (E.TARGET_RANDOMIZE_SIZE + 1 ≤ E.TARGET_RANDOMIZE_SIZE) := by omega
        have e3 : E.TARGET_RANDOMIZE_SIZE + 0 + 1 - E.TARGET_RANDOMIZE_SIZE = 1 := by omega
        have e4 : E.TARGET_RANDOMIZE_SIZE + E.TARGET_RANDOMIZE_SIZE =
            2 * E.TARGET_RANDOMIZE_SIZE := by omega
        simp only [stall_targets, if_neg e0, if_neg e1, if_neg e2, le_refl, if_true]
        rw [e3, e4, Nat.add_zero] at hc2
        exact hc2
    obtain ⟨_, _, c2, hc2⟩ := key
    have he : g.cache_i = g.cache_size := by
      rw [h4, h5]
      rcases hfill with h0 | hn
      · simp [h0]
      · have e0 : i ≠ 0 := by omega
        simp [e0, hn]
    obtain ⟨res, g2, r1, r2, r3, r4, r5, _, r7⟩ := target_gen_next_refill E g _ _ h2 h1 he hc2
    obtain ⟨r8, r9⟩ := r7 (by show E.TARGET_RANDOMIZE_SIZE ≠ 0; omega)
    obtain ⟨a, ha⟩ := Option.isSome_iff_exists.1 r8
    rw [ha] at r1
    refine ⟨a, g2, r1, r2, r3, r4, ?_, ?_⟩
    · rw [r5]; simp
    · rw [r9]
      rcases hfill with h0 | hn
      · rw [h0]; simp [hN]
      · rw [hn]
        have e2 : ¬ (E.TARGET_RANDOMIZE_SIZE + 1 ≤ E.TARGET_RANDOMIZE_SIZE) := by omega
        simp [e2]
  · -- the next address comes from the cache
    have h0 : i ≠ 0 := fun h => hfill (Or.inl h)
    have hn : i ≠ E.TARGET_RANDOMIZE_SIZE := fun h => hfill (Or.inr h)
    rw [if_neg h0] at h4 h5
    have hne : g.cache_i ≠ g.cache_size := by
      rw [h4, h5]
      split <;> omega
    refine ⟨_, _, target_gen_next_cached E g hne, h1, h2, ?_, ?_, ?_⟩
    · show g.targets = _
      rw [h3]
      unfold stall_targets
      have e1 : i + 1 ≠ 0 := by omega
      rw [if_neg h0, if_neg e1]
      by_cases hle : i ≤ E.TARGET_RANDOMIZE_SIZE
      · rw [if_pos hle, if_pos (by omega)]
      · rw [if_neg hle, if_neg (by omega)]
    · show g.cache_size = _
      rw [h4]; simp
    · show g.cache_i + 1 = _
      rw [h5]
      have e1 : i + 1 ≠ 0 := by omega
      rw [if_neg e1]
      by_cases hle : i ≤ E.TARGET_RANDOMIZE_SIZE
      · rw [if_pos hle, if_pos (by omega)]
      · rw [if_neg hle, if_neg (by omega)]; omega

theorem stall_calls (E : consts) (sA sB : targetspec) (hN : 1 ≤ E.TARGET_RANDOMIZE_SIZE)
    (hK : 2 ^ nvar sA.mask 128 = 2 * E.TARGET_RANDOMIZE_SIZE) (g0 : gen)
    (h0 : stall_state E sA sB 0 g0) (i : Nat) (hi : i ≤ 2 * E.TARGET_RANDOMIZE_SIZE) :
    ∃ out g, gen_calls E i g0 = some (i, out, g) ∧ stall_state E sA sB i g := by
  induction i with
  | zero => exact ⟨[], g0, rfl, h0⟩
  | succ i ih =>
    obtain ⟨out, g, e, st⟩ := ih (by omega)
    obtain ⟨a, g2, e2, st2⟩ := stall_step E sA sB hN hK i (by omega) g st
    refine ⟨out ++ [a], g2, ?_, st2⟩
    rw [gen_calls_succ E g0 i i out g e, e2]

theorem stall_end (E : consts) (sA sB : targetspec) (hN : 1 ≤ E.TARGET_RANDOMIZE_SIZE)
    (hK : 2 ^ nvar sA.mask 128 = 2 * E.TARGET_RANDOMIZE_SIZE) (g0 : gen)
    (h0 : stall_state E sA sB 0 g0) :
    ∃ out g, gen_calls E (2 * E.TARGET_RANDOMIZE_SIZE + 1) g0 =
        some (2 * E.TARGET_RANDOMIZE_SIZE, out, g) ∧
      g.targets = [{ spec := sA, cur := zero16, delayed_start := 0, done := true },
        waiting_target sB 0] ∧
      g.mode_streaming = false ∧ g.cache_size = 0 ∧ g.cache_i = 0 := by
  obtain ⟨out, g, e, h1, h2, h3, h4, h5⟩ :=
    stall_calls E sA sB hN hK g0 h0 (2 * E.TARGET_RANDOMIZE_SIZE) le_rfl
  have e0 : 2 * E.TARGET_RANDOMIZE_SIZE ≠ 0 := by omega
  have e1 : ¬ (2 * E.TARGET_RANDOMIZE_SIZE ≤ E.TARGET_RANDOMIZE_SIZE) := by omega
  rw [if_neg e0] at h4 h5
  rw [if_neg e1] at h5
  simp only [stall_targets, if_neg e0, if_neg e1] at h3
  rw [← hK, iter_final] at h3
  have hf := fill_while_stall E { spec := sA, cur := zero16, delayed_start := 0, done := true }
    sB 0 E.TARGET_RANDOMIZE_SIZE g.cache rfl
  rw [← h3] at hf
  obtain ⟨res, g2, r1, _, r3, r4, r5, r6, _⟩ :=
    target_gen_next_refill E g _ _ h2 h1 (by rw [h4, h5]; omega) hf
  obtain ⟨r7, r8⟩ := r6 rfl
  rw [r7] at r1
  refine ⟨out, g2, ?_, r4, r3, r5, r8⟩
  rw [gen_calls_succ E g0 _ _ out g e, r1]

/-! ## Claim C3 -/

set_option maxRecDepth 1000000 in
theorem ex_stall_gen_load :
    target_gen_finish_add ex_consts
      (gen_load ex_consts (fun _ => 2047) 0 [ex_spec_large, ex_spec_small]) =
      some (0, ex_stall_gen) := by
  rw [gen_load_eq]
  rfl

set_option maxRecDepth 1000000 in
theorem ex_stall_gen_sanity : target_gen_sanity_check ex_consts ex_stall_gen = 0 := by
  decide

/-- C3, which the code does not meet: with `TARGET_RANDOMIZE_SIZE = 1024`, even spread on
and randomization off, load `2001:db8::/117` (2048 addresses) and then `2001:db9::/128`
(one address), and let `rand64()` give 2047, so that the small target is delayed by 2047.
The list passes the sanity check. The first 2048 calls of `target_gen_next` return an
address; call 2049 is the first to report "no more", and at that moment the small target
is not done, only 2048 of the 2049 addresses have been handed out, and
`target_gen_progress` returns 0.999, not 1.0. -/
theorem C3_generator_ends_early :
    ∃ out1 g1 out g,
      target_gen_finish_add ex_consts
        (gen_load ex_consts (fun _ => 2047) 0 [ex_spec_large, ex_spec_small]) =
        some (0, ex_stall_gen) ∧
      target_gen_sanity_check ex_consts ex_stall_gen = 0 ∧
      total_addresses [ex_spec_large, ex_spec_small] = 2049 ∧
      gen_calls ex_consts 2048 ex_stall_gen = some (2048, out1, g1) ∧
      gen_calls ex_consts 2049 ex_stall_gen = some (2048, out, g) ∧
      out.length = 2048 ∧
      g.targets = [{ spec := ex_spec_large, cur := zero16, delayed_start := 0, done := true },
        { spec := ex_spec_small, cur := zero16, delayed_start := 0, done := false }] ∧
      target_gen_progress g = 999 / 1000 := by
  have hN : 1 ≤ ex_consts.TARGET_RANDOMIZE_SIZE := by decide
  have hK : 2 ^ nvar ex_spec_large.mask 128 = 2 * ex_consts.TARGET_RANDOMIZE_SIZE := by
    rw [← varying_bits_eq _ (by decide)]
    decide
  have hst : stall_state ex_consts ex_spec_large ex_spec_small 0 ex_stall_gen :=
    ⟨rfl, rfl, rfl, rfl, rfl⟩
  have htot : total_addresses [ex_spec_large, ex_spec_small] = 2049 := by decide
  have hwf : ∀ s ∈ [ex_spec_large, ex_spec_small], wf16 s.mask := by decide
  have inv0 := finish_add_inv ex_consts (fun _ => 2047) 0 [ex_spec_large, ex_spec_small]
    ex_stall_gen hwf (by rw [htot]; norm_num) ex_stall_gen_load
  obtain ⟨out1, g1, e1, _⟩ := stall_calls ex_consts ex_spec_large ex_spec_small hN hK
    ex_stall_gen hst 2048 (by decide)
  obtain ⟨out, g, e2, t2, _, _, _⟩ := stall_end ex_consts ex_spec_large ex_spec_small hN hK
    ex_stall_gen hst
  have e3 : gen_calls ex_consts 2049 ex_stall_gen = some (2048, out, g) := e2
  obtain ⟨k, out', g', e4, inv, hl⟩ := gen_calls_inv ex_consts ex_stall_gen _ hN inv0 2049
  rw [e3] at e4
  simp only [Option.some.injEq, Prod.mk.injEq] at e4
  obtain ⟨rfl, rfl, rfl⟩ := e4
  obtain ⟨_, _, p3⟩ := progress_of_inv g _ _ inv (by rw [htot]; norm_num)
    (by rw [htot]; norm_num)
  refine ⟨out1, g1, out, g, ex_stall_gen_load, ex_stall_gen_sanity, htot, e1, e3, hl, t2, ?_⟩
  rw [p3, htot]
  norm_num

/-- Witness for C4: the generator loaded with `2001:db8::/117` and `2001:db9::/128`. -/
theorem C4_progress_counts_witness :
    1 ≤ ex_consts.TARGET_RANDOMIZE_SIZE ∧
    (∀ s ∈ [ex_spec_large, ex_spec_small], wf16 s.mask) ∧
    0 < total_addresses [ex_spec_large, ex_spec_small] ∧
    total_addresses [ex_spec_large, ex_spec_small] < 2 ^ 40 ∧
    target_gen_finish_add ex_consts
      (gen_load ex_consts (fun _ => 2047) 0 [ex_spec_large, ex_spec_small]) =
      some (0, ex_stall_gen) ∧
    ∃ n out g n2 out2 g2,
      gen_calls ex_consts 3 ex_stall_gen = some (n, out, g) ∧ out.length = n ∧
      progress_done g = n ∧
      target_gen_progress g =
        ((1000 * n / total_addresses [ex_spec_large, ex_spec_small] : Nat) : ℚ) / 1000 ∧
      gen_calls ex_consts (3 + 1) ex_stall_gen = some (n2, out2, g2) ∧ n ≤ n2 ∧
      target_gen_progress g ≤ target_gen_progress g2 :=
  ⟨by decide, by decide, by decide, by decide, ex_stall_gen_load,
    C4_progress_counts ex_consts (fun _ => 2047) 0 [ex_spec_large, ex_spec_small] ex_stall_gen
      (by decide) (by decide) (by decide) (by decide) ex_stall_gen_load 3⟩

/-! ## Rate control -/

theorem rate_inv_step (R : Nat) (hR : 1 ≤ R) (hR2 : R < 2 ^ 31) (s : ratest) (a : agent)
    (h : rate_inv R s) : rate_inv R (rate_step (R - 1) s a) := by
  obtain ⟨pc, n, f⟩ := s
  cases a with
  | stats =>
    cases pc <;> simp [rate_inv, rate_step] <;> omega
  | sender =>
    cases pc with
    | send =>
      simp only [rate_inv, rate_step] at h ⊢
      omega
    | add =>
      simp only [rate_inv, rate_step] at h ⊢
      have e : (n + 1) % 2 ^ 32 = n + 1 := Nat.mod_eq_of_lt (by omega)
      by_cases hge : n ≥ R - 1
      · simp only [hge, if_true, e]
        omega
      · simp only [hge, if_false, e]
        omega
    | wait =>
      simp only [rate_inv, rate_step] at h ⊢
      by_cases hz : n = 0
      · simp only [hz, ne_eq, not_true_eq_false, if_false]
        have := h.2 hz
        omega
      · simp only [ne_eq, hz, not_false_eq_true, if_true]
        exact ⟨h.1, fun h0 => h0.elim⟩

theorem rate_inv_foldl (R : Nat) (hR : 1 ≤ R) (hR2 : R < 2 ^ 31) (sched : List agent)
    (s : ratest) (h : rate_inv R s) : rate_inv R (sched.foldl (rate_step (R - 1)) s) := by
  induction sched generalizing s with
  | nil => exact h
  | cons a sched ih => exact ih _ (rate_inv_step R hR hR2 s a h)

/-- C8: with a configured rate `R >= 1` passed to `scan_set_general` the stored threshold is
`R - 1`, and in every interleaving of sender steps (send a frame; atomic fetch-add on
`pkts_sent`, then wait while the counter is non-zero if the value before the increment was
at least the threshold) and stats-loop steps (atomic exchange of `pkts_sent` with 0) the
sender has sent at most `R` frames since the last reset. Whenever the sender is about to
increment, comparing the value before the increment with the threshold is the same as
comparing the counter after the increment with `R`. A negative rate is stored as
`UINT_MAX`. -/
theorem C8_rate_limit (c : scan) (ports : List Nat) (R sc b : Int) (hR : 1 ≤ R)
    (hR2 : R < 2 ^ 31) (sched : List agent) :
    (scan_set_general c ports R sc b).max_rate + 1 = R.toNat ∧
    (rate_run (scan_set_general c ports R sc b).max_rate sched).since_reset ≤ R.toNat ∧
    ((rate_run (scan_set_general c ports R sc b).max_rate sched).pc = rate_pc.add →
      ((rate_run (scan_set_general c ports R sc b).max_rate sched).pkts_sent ≥
          (scan_set_general c ports R sc b).max_rate ↔
        (rate_step (scan_set_general c ports R sc b).max_rate
          (rate_run (scan_set_general c ports R sc b).max_rate sched) agent.sender).pkts_sent
          ≥ R.toNat)) ∧
    (∀ R2 : Int, R2 < 0 → (scan_set_general c ports R2 sc b).max_rate = UINT_MAX) := by
  have hmr : (scan_set_general c ports R sc b).max_rate = R.toNat - 1 := by
    simp only [scan_set_general]
    rw [if_neg (by omega), Int.emod_eq_of_lt (by omega) (by omega)]
    omega
  have h1 : 1 ≤ R.toNat := by omega
  have h2 : R.toNat < 2 ^ 31 := by omega
  rw [hmr]
  have inv := rate_inv_foldl R.toNat h1 h2 sched
    { pc := rate_pc.send, pkts_sent := 0, since_reset := 0 }
    (by simp only [rate_inv]; omega)
  refine ⟨by omega, inv.1, ?_, ?_⟩
  · intro hpc
    have inv2 := inv.2
    unfold rate_run at hpc ⊢
    generalize List.foldl (rate_step (R.toNat - 1)) _ sched = s at hpc inv2 ⊢
    obtain ⟨pc, n, f⟩ := s
    simp only at hpc
    subst hpc
    simp only [rate_step] at inv2 ⊢
    have e : (n + 1) % 2 ^ 32 = n + 1 := Nat.mod_eq_of_lt (by omega)
    rw [e]
    omega
  · intro R2 hneg
    simp only [scan_set_general]
    rw [if_pos hneg]

/-- Witness for C8: the rate 3 and an interleaving of five steps. -/
theorem C8_rate_limit_witness :
    (1 : Int) ≤ 3 ∧ (3 : Int) < 2 ^ 31 ∧
    (rate_run (scan_set_general ex_scan [80] 3 0 0).max_rate
      [agent.sender, agent.sender, agent.stats, agent.sender, agent.sender]).since_reset
      ≤ (3 : Int).toNat :=
  ⟨by decide, by decide,
    (C8_rate_limit ex_scan [80] 3 0 0 (by decide) (by decide)
      [agent.sender, agent.sender, agent.stats, agent.sender, agent.sender]).2.1⟩

/-! ## The receive handlers -/

/-- C9, as amended: for a captured TCP frame of at least Ethernet+IPv6+TCP header length,
`recv_handler_tcp` emits at most one status event, and only if the segment has ACK set
together with SYN or RST: exactly one OPEN event if SYN and ACK are set (whether or not RST
is set too); if RST and ACK are set and SYN is clear, exactly one CLOSED event when
`show_closed` is set or the output format is raw, and none otherwise; and no status event
for any other flag combination. -/
theorem C9_tcp_status (C : scanconsts) (c : scan) (ts : Nat) (len : Int) (packet : rx_packet)
    (src : List Nat) (hlen : C.FRAME_ETH_SIZE + C.FRAME_IP_SIZE + C.TCP_HEADER_SIZE ≤ len) :
    (packet.f_ack = true → packet.f_syn = true →
      (recv_handler_tcp C c ts len packet src).filter event.is_status =
        [event.status ts src out_proto.TCP packet.v packet.v2 out_status.OPEN]) ∧
    (packet.f_ack = true → packet.f_rst = true → packet.f_syn = false →
      (recv_handler_tcp C c ts len packet src).filter event.is_status =
        if c.show_closed ≠ 0 ∨ c.raw = true then
          [event.status ts src out_proto.TCP packet.v packet.v2 out_status.CLOSED]
        else []) ∧
    (¬ (packet.f_ack = true ∧ (packet.f_syn = true ∨ packet.f_rst = true)) →
      (recv_handler_tcp C c ts len packet src).filter event.is_status = []) := by
  obtain ⟨syn, ack, rst, v, v2, d, it, ib⟩ := packet
  have hl : ¬ (len < C.FRAME_ETH_SIZE + C.FRAME_IP_SIZE + C.TCP_HEADER_SIZE) := by omega
  simp only [recv_handler_tcp, if_neg hl]
  refine ⟨?_, ?_, ?_⟩
  · intro ha hs
    subst ha hs
    by_cases hb : c.banners = 0 <;> simp [hb, event.is_status]
  · intro ha hr hs
    subst ha hr hs
    by_cases hb : c.banners = 0 <;> by_cases hsc : c.show_closed = 0 <;>
      cases hraw : c.raw <;> simp [hb, hsc, event.is_status]
  · intro h
    by_cases hb : c.banners = 0 <;> cases ack <;> cases syn <;> cases rst <;>
      simp [hb, event.is_status] at h ⊢

/-- Witness for C9: a SYN+ACK frame of 74 bytes with the usual header sizes. -/
theorem C9_tcp_status_witness :
    ((ex_scanconsts.FRAME_ETH_SIZE + ex_scanconsts.FRAME_IP_SIZE +
        ex_scanconsts.TCP_HEADER_SIZE : Nat) : Int) ≤ 74 ∧
    (recv_handler_tcp ex_scanconsts ex_scan 0 74 (ex_rx true true false [])
        ex_addr_db8).filter event.is_status =
      [event.status 0 ex_addr_db8 out_proto.TCP 80 64 out_status.OPEN] :=
  ⟨by decide,
    (C9_tcp_status ex_scanconsts ex_scan 0 74 (ex_rx true true false []) ex_addr_db8
      (by decide)).1 rfl rfl⟩

/-- Counterexample to C9 as stated: a frame with SYN, RST and ACK all set is a segment with
RST and ACK set, and `show_closed` is set, yet the only status event is OPEN: no CLOSED
event is emitted. -/
theorem C9_counterexample :
    (ex_rx true true true []).f_rst = true ∧ (ex_rx true true true []).f_ack = true ∧
    (scan_set_general ex_scan [80] (-1) 1 0).show_closed ≠ 0 ∧
    recv_handler_tcp ex_scanconsts (scan_set_general ex_scan [80] (-1) 1 0) 0 74
        (ex_rx true true true []) ex_addr_db8 =
      [event.status 0 ex_addr_db8 out_proto.TCP 80 64 out_status.OPEN] := by
  decide

/-- C10, as amended: for a captured UDP frame of at least Ethernet+IPv6+UDP header length,
`recv_handler_udp` emits exactly one event, an OPEN status event for the replying
endpoint, when banners are disabled; when banners are enabled it emits no status event
(its only event, if any, is a banner event). -/
theorem C10_udp_status (C : scanconsts) (c : scan) (ts : Nat) (len : Int)
    (packet : rx_packet) (src : List Nat)
    (hlen : C.FRAME_ETH_SIZE + C.FRAME_IP_SIZE + C.UDP_HEADER_SIZE ≤ len) :
    (c.banners = 0 →
      recv_handler_udp C c ts len packet src =
        [event.status ts src out_proto.UDP packet.v packet.v2 out_status.OPEN]) ∧
    (c.banners ≠ 0 →
      (recv_handler_udp C c ts len packet src).filter event.is_status = []) := by
  have hl : ¬ (len < C.FRAME_ETH_SIZE + C.FRAME_IP_SIZE + C.UDP_HEADER_SIZE) := by omega
  refine ⟨?_, ?_⟩
  · intro hb
    simp only [recv_handler_udp, if_neg hl, hb, if_true]
  · intro hb
    simp only [recv_handler_udp, if_neg hl, if_neg hb]
    split
    · rfl
    · rfl

/-- Witness for C10: a UDP reply of 62 bytes with the usual header sizes. -/
theorem C10_udp_status_witness :
    ((ex_scanconsts.FRAME_ETH_SIZE + ex_scanconsts.FRAME_IP_SIZE +
        ex_scanconsts.UDP_HEADER_SIZE : Nat) : Int) ≤ 62 ∧
    recv_handler_udp ex_scanconsts ex_scan 0 62 (ex_rx false false false []) ex_addr_db8 =
      [event.status 0 ex_addr_db8 out_proto.UDP 80 64 out_status.OPEN] :=
  ⟨by decide,
    (C10_udp_status ex_scanconsts ex_scan 0 62 (ex_rx false false false []) ex_addr_db8
      (by decide)).1 rfl⟩

/-- Counterexample to C10 as stated: with banners enabled, a UDP reply of 65 bytes (three
bytes of payload) gives one banner event and no OPEN status event. -/
theorem C10_counterexample :
    (scan_set_general ex_scan [80] (-1) 0 1).banners ≠ 0 ∧
    recv_handler_udp ex_scanconsts (scan_set_general ex_scan [80] (-1) 0 1) 0 65
        (ex_rx false false false [1, 2, 3]) ex_addr_db8 =
      [event.banner 0 ex_addr_db8 out_proto.UDP 80 [1, 2, 3]] := by
  decide

/-! ## The TCP sender -/

theorem shift_rand_zero (g : gen) : shift_rand g 0 = g := rfl

theorem shift_rand_add (g : gen) (a b : Nat) :
    shift_rand (shift_rand g a) b = shift_rand g (a + b) := by
  simp only [shift_rand]
  congr 1
  funext i
  congr 1
  omega

theorem syn_targets_length (as : List (List Nat)) (ps : List Nat) :
    (syn_targets as ps).length = as.length * ps.length := by
  induction as with
  | nil => simp [syn_targets]
  | cons a as ih =>
    simp only [syn_targets, List.flatMap_cons, List.length_append, List.length_map,
      List.length_cons] at ih ⊢
    rw [ih]
    ring

theorem syn_targets_cons (a : List Nat) (as : List (List Nat)) (ps : List Nat) :
    syn_targets (a :: as) ps = ps.map (fun p => (a, p)) ++ syn_targets as ps := by
  simp only [syn_targets, List.flatMap_cons]

theorem send_ports (E : consts) (c : scan) (hports : ∀ p ∈ c.ports, p < 65536) (k : Nat) :
    ∀ s : tcp_loop, s.it.set = c.ports → s.it.pos + k = c.ports.length →
      ∃ s2 : tcp_loop, (∀ fuel, send_loop_tcp E c (k + fuel) s = send_loop_tcp E c fuel s2) ∧
        s2.it.set = c.ports ∧ s2.it.pos = c.ports.length ∧
        s2.gen = shift_rand s.gen (k * draws_per_frame c) ∧ same_header s.packet s2.packet ∧
        ∃ W, s2.wire = s.wire ++ W ∧
          W.map (fun f => (f.dstaddr, f.dstport)) =
            (c.ports.drop s.it.pos).map (fun p => (s.packet.dstaddr, p)) ∧
          ∀ f ∈ W, f.f_syn = s.packet.f_syn ∧ f.seqnum = s.packet.seqnum := by
  induction k with
  | zero =>
    intro s hset hpos
    refine ⟨s, fun fuel => by rw [Nat.zero_add], hset, by omega, by rw [Nat.zero_mul]; rfl,
      ⟨rfl, rfl, rfl⟩, [], by simp, ?_, by simp⟩
    rw [List.drop_eq_nil_of_le (by omega)]
    rfl
  | succ k ih =>
    intro s hset hpos
    have hlt : s.it.pos < c.ports.length := by omega
    have hget : s.it.set[s.it.pos]? = some (c.ports[s.it.pos]) := by
      rw [hset]; exact List.getElem?_eq_getElem hlt
    have hnext : ports_iter_next s.it =
        (1, { set := s.it.set, pos := s.it.pos + 1, val := c.ports[s.it.pos] }) := by
      simp only [ports_iter_next, hget]
    have hp : c.ports[s.it.pos] < 65536 := hports _ (List.getElem_mem _)
    have hgen : ({ s.gen with rand_next :=
        (if c.source_port = -1 then source_port_rand s.gen.rand_next
          else (c.source_port, s.gen.rand_next)).2 } : gen) =
        shift_rand s.gen (draws_per_frame c) := by
      unfold draws_per_frame
      by_cases hsp : c.source_port = -1
      · rw [if_pos hsp, if_pos hsp]; rfl
      · rw [if_neg hsp, if_neg hsp]; rfl
    obtain ⟨s2, h1, h2, h3, h4, h5, W, h6, h7, h8⟩ := ih
      { gen := shift_rand s.gen (draws_per_frame c),
        packet := tcp_modify s.packet
          (if c.source_port = -1 then source_port_rand s.gen.rand_next
            else (c.source_port, s.gen.rand_next)).1 (c.ports[s.it.pos] : Nat),
        it := { set := s.it.set, pos := s.it.pos + 1, val := c.ports[s.it.pos] },
        wire := s.wire ++ [tcp_modify s.packet
          (if c.source_port = -1 then source_port_rand s.gen.rand_next
            else (c.source_port, s.gen.rand_next)).1 (c.ports[s.it.pos] : Nat)],
        pkts_sent := rate_control c s.pkts_sent } hset (by show s.it.pos + 1 + k = _; omega)
    refine ⟨s2, ?_, h2, h3, ?_, ?_, ?_⟩
    · intro fuel
      have e : k + 1 + fuel = (k + fuel) + 1 := by omega
      rw [e, send_loop_tcp, hnext]
      simp only [one_ne_zero, if_false]
      rw [hgen]
      exact h1 fuel
    · rw [h4, shift_rand_add]
      congr 1
      ring
    · exact ⟨h5.1, h5.2.1, h5.2.2⟩
    · refine ⟨tcp_modify s.packet
          (if c.source_port = -1 then source_port_rand s.gen.rand_next
            else (c.source_port, s.gen.rand_next)).1 (c.ports[s.it.pos] : Nat) :: W,
        by rw [h6]; simp, ?_, ?_⟩
      · rw [List.map_cons, h7]
        have hd : List.drop s.it.pos c.ports =
            c.ports[s.it.pos] :: List.drop (s.it.pos + 1) c.ports :=
          List.drop_eq_getElem_cons hlt
        rw [hd, List.map_cons]
        congr 1
        show (s.packet.dstaddr, (((c.ports[s.it.pos] : Nat) : Int) % 65536).toNat) = _
        congr 1
        omega
      · intro f hf
        rcases List.mem_cons.1 hf with hf | hf
        · rw [hf]; exact ⟨rfl, rfl⟩
        · exact h8 f hf

theorem gen_drain_nil (E : consts) (d fuelD : Nat) (g : gen)
    (h : (gen_drain E d fuelD g).map Prod.fst = some []) :
    ∃ g1, target_gen_next E g = some (none, g1) := by
  cases fuelD with
  | zero => simp [gen_drain] at h
  | succ fuel =>
    rw [gen_drain] at h
    cases hn : target_gen_next E g with
    | none => rw [hn] at h; simp at h
    | some r =>
      obtain ⟨res, g1⟩ := r
      rw [hn] at h
      cases res with
      | none => exact ⟨g1, rfl⟩
      | some a =>
        exfalso
        simp only at h
        cases hd : gen_drain E d fuel (shift_rand g1 d) with
        | none => rw [hd] at h; simp at h
        | some q => rw [hd] at h; simp at h

theorem gen_drain_cons (E : consts) (d fuelD : Nat) (g : gen) (a : List Nat)
    (as : List (List Nat)) (h : (gen_drain E d fuelD g).map Prod.fst = some (a :: as)) :
    ∃ fuel g1, target_gen_next E g = some (some a, g1) ∧
      (gen_drain E d fuel (shift_rand g1 d)).map Prod.fst = some as := by
  cases fuelD with
  | zero => simp [gen_drain] at h
  | succ fuel =>
    rw [gen_drain] at h
    cases hn : target_gen_next E g with
    | none => rw [hn] at h; simp at h
    | some r =>
      obtain ⟨res, g1⟩ := r
      rw [hn] at h
      cases res with
      | none => simp at h
      | some a2 =>
        simp only at h
        cases hd : gen_drain E d fuel (shift_rand g1 d) with
        | none => rw [hd] at h; simp at h
        | some q =>
          rw [hd] at h
          simp only [Option.map_some', Option.some.injEq, List.cons.injEq] at h
          refine ⟨fuel, g1, by rw [h.1], ?_⟩
          rw [hd, Option.map_some', h.2]

theorem send_addrs (E : consts) (c : scan) (hports : ∀ p ∈ c.ports, p < 65536) :
    ∀ (as : List (List Nat)) (s : tcp_loop) (fuelD : Nat),
      s.it.set = c.ports → s.it.pos = 0 →
      (gen_drain E (c.ports.length * draws_per_frame c) fuelD
        (shift_rand s.gen (c.ports.length * draws_per_frame c))).map Prod.fst = some as →
      ∃ s2 : tcp_loop,
        (∀ extra, send_loop_tcp E c ((as.length + 1) * (c.ports.length + 1) + extra) s =
          some s2) ∧
        ∃ W, s2.wire = s.wire ++ W ∧
          W.map (fun f => (f.dstaddr, f.dstport)) =
            syn_targets (s.packet.dstaddr :: as) c.ports ∧
          ∀ f ∈ W, f.f_syn = s.packet.f_syn ∧ f.seqnum = s.packet.seqnum := by
  intro as
  induction as with
  | nil =>
    intro s fuelD hset hpos hd
    obtain ⟨s1, h1, h2, h3, h4, _, W, h6, h7, h8⟩ :=
      send_ports E c hports c.ports.length s hset (by omega)
    rw [← h4] at hd
    obtain ⟨g1, hg1⟩ := gen_drain_nil E _ _ _ hd
    have hnone : s1.it.set[s1.it.pos]? = none := by
      rw [h2, h3]; exact List.getElem?_eq_none (le_refl _)
    have hnext : ports_iter_next s1.it = (0, s1.it) := by
      simp only [ports_iter_next, hnone]
    refine ⟨{ gen := g1, packet := s1.packet, it := s1.it, wire := s1.wire,
              pkts_sent := s1.pkts_sent }, ?_, W, h6, ?_, h8⟩
    · intro extra
      have e : (([] : List (List Nat)).length + 1) * (c.ports.length + 1) + extra =
          c.ports.length + (extra + 1) := by
        simp only [List.length_nil]; omega
      rw [e, h1, send_loop_tcp, hnext]
      simp only [if_true, hg1]
    · rw [h7, hpos, List.drop_zero, syn_targets_cons]
      simp [syn_targets]
  | cons a2 rest ih =>
    intro s fuelD hset hpos hd
    obtain ⟨s1, h1, h2, h3, h4, h5, W, h6, h7, h8⟩ :=
      send_ports E c hports c.ports.length s hset (by omega)
    rw [← h4] at hd
    obtain ⟨fuel2, g1, hg1, hd2⟩ := gen_drain_cons E _ _ _ _ _ hd
    have hnone : s1.it.set[s1.it.pos]? = none := by
      rw [h2, h3]; exact List.getElem?_eq_none (le_refl _)
    have hnext : ports_iter_next s1.it = (0, s1.it) := by
      simp only [ports_iter_next, hnone]
    obtain ⟨s2, i1, W2, i2, i3, i4⟩ := ih
      { gen := g1, packet := rawsock_ip_modify s1.packet a2,
        it := ports_iter_begin none s1.it, wire := s1.wire, pkts_sent := s1.pkts_sent }
      fuel2 (by show (none : Option (List Nat)).getD s1.it.set = _; exact h2) rfl hd2
    refine ⟨s2, ?_, W ++ W2, by rw [i2, h6, List.append_assoc], ?_, ?_⟩
    · intro extra
      have e : ((a2 :: rest).length + 1) * (c.ports.length + 1) + extra =
          c.ports.length + (((rest.length + 1) * (c.ports.length + 1) + extra) + 1) := by
        simp only [List.length_cons]; ring
      rw [e, h1, send_loop_tcp, hnext]
      simp only [if_true, hg1]
      exact i1 extra
    · rw [List.map_append, h7, i3, hpos, List.drop_zero, syn_targets_cons]
      rfl
    · intro f hf
      rcases List.mem_append.1 hf with hf | hf
      · exact h8 f hf
      · obtain ⟨j1, j2⟩ := i4 f hf
        exact ⟨j1.trans h5.2.2, j2.trans h5.2.1⟩

/-- C7: let the generator give the addresses `a_1..a_n`, `n >= 1`, when `target_gen_next`
is called until it reports "no more" (the sender calling `rand()` once per frame when the
source port is not pinned), and let the port iterator produce `p_1..p_m`. Then with enough
fuel `send_thread_tcp` returns, having set `SEND_FINISHED`, and it has sent exactly `n*m`
frames, in address-major order `(a_1,p_1),...,(a_1,p_m),(a_2,p_1),...,(a_n,p_m)`, each a
SYN with sequence number `FIRST_SEQNUM = 0xF0000000`, to address `a_i` and destination port
`p_j`. -/
theorem C7_tcp_frames (E : consts) (c : scan) (g : gen) (fuelD : Nat)
    (as : List (List Nat)) (pkts_sent status_bits : Nat)
    (hports : ∀ p ∈ c.ports, p < 65536)
    (hgen : (gen_drain E (c.ports.length * draws_per_frame c) fuelD g).map Prod.fst = some as)
    (hne : as ≠ []) (extra : Nat) :
    ∃ s, send_thread_tcp E c (as.length * (c.ports.length + 1) + extra) g pkts_sent
          status_bits = some s ∧
      s.wire.length = as.length * c.ports.length ∧
      s.wire.map (fun f => (f.dstaddr, f.dstport)) = syn_targets as c.ports ∧
      (∀ f ∈ s.wire, f.f_syn = true ∧ f.seqnum = 0xF0000000) ∧
      s.status_bits = status_bits ||| SEND_FINISHED := by
  cases as with
  | nil => exact absurd rfl hne
  | cons a rest =>
    obtain ⟨fuel2, g1, hg1, hd2⟩ := gen_drain_cons E _ _ _ _ _ hgen
    obtain ⟨s2, i1, W, i2, i3, i4⟩ := send_addrs E c hports rest
      { gen := g1,
        packet := tcp_make_syn (tcp_prepare (rawsock_ip_modify frame_prepared a)) FIRST_SEQNUM,
        it := ports_iter_begin (some c.ports) { set := [], pos := 0, val := 0 },
        wire := [], pkts_sent := pkts_sent } fuel2 rfl rfl hd2
    have hw : s2.wire = W := by rw [i2]; rfl
    refine ⟨{ gen := s2.gen, wire := s2.wire, pkts_sent := s2.pkts_sent,
              status_bits := status_bits ||| SEND_FINISHED }, ?_, ?_, ?_, ?_, rfl⟩
    · unfold send_thread_tcp
      rw [hg1]
      have e : (a :: rest).length * (c.ports.length + 1) + extra =
          (rest.length + 1) * (c.ports.length + 1) + extra := by
        simp only [List.length_cons]
      simp only [e, i1 extra]
    · have := congrArg List.length i3
      rw [List.length_map, syn_targets_length] at this
      show s2.wire.length = _
      rw [hw, this]
      rfl
    · show s2.wire.map _ = _
      rw [hw, i3]
      rfl
    · intro f hf
      have hf2 : f ∈ W := by rw [← hw]; exact hf
      obtain ⟨j1, j2⟩ := i4 f hf2
      exact ⟨j1, j2⟩

set_option maxRecDepth 1000000 in
theorem ex_gen_126_load :
    target_gen_finish_add ex_consts
      (gen_load ex_consts (fun _ => 0) 0 [{ addr := ex_addr_db8, mask := ex_mask_126 }]) =
      some (0, ex_gen_126) := by
  rw [gen_load_eq]
  rfl

set_option maxRecDepth 1000000 in
theorem ex_gen_126_drain :
    (gen_drain ex_consts (ex_scan.ports.length * draws_per_frame ex_scan) 5 ex_gen_126).map
        Prod.fst =
      some [(ex_syn 0).dstaddr, (ex_syn 1).dstaddr, (ex_syn 2).dstaddr, (ex_syn 3).dstaddr] := by
  decide

/-- Witness for C7, the scenario of the specification: for the spec `2001:db8::/126` with
randomization off, the source port pinned and the ports `{80}`, the generator gives
`2001:db8::0`, `::1`, `::2`, `::3`, and `send_thread_tcp` sends exactly 4 frames, to these
addresses in this order. -/
theorem C7_tcp_frames_witness :
    (∀ p ∈ ex_scan.ports, p < 65536) ∧
    (gen_drain ex_consts (ex_scan.ports.length * draws_per_frame ex_scan) 5 ex_gen_126).map
        Prod.fst =
      some [(ex_syn 0).dstaddr, (ex_syn 1).dstaddr, (ex_syn 2).dstaddr, (ex_syn 3).dstaddr] ∧
    ∃ s, send_thread_tcp ex_consts ex_scan (4 * (1 + 1) + 0) ex_gen_126 0 0 = some s ∧
      s.wire.length = 4 * 1 ∧
      s.wire.map (fun f => (f.dstaddr, f.dstport)) =
        [((ex_syn 0).dstaddr, 80), ((ex_syn 1).dstaddr, 80), ((ex_syn 2).dstaddr, 80),
          ((ex_syn 3).dstaddr, 80)] ∧
      (∀ f ∈ s.wire, f.f_syn = true ∧ f.seqnum = 0xF0000000) ∧
      s.status_bits = 0 ||| SEND_FINISHED :=
  ⟨by decide, ex_gen_126_drain,
    C7_tcp_frames ex_consts ex_scan ex_gen_126 5
      [(ex_syn 0).dstaddr, (ex_syn 1).dstaddr, (ex_syn 2).dstaddr, (ex_syn 3).dstaddr] 0 0
      (by decide) ex_gen_126_drain (by decide) 0⟩

set_option maxRecDepth 1000000 in
/-- The scenario of the specification evaluated: the four frames on the wire. -/
theorem ex_gen_126_wire :
    (send_thread_tcp ex_consts ex_scan 8 ex_gen_126 0 0).map (fun s => s.wire) =
      some [ex_syn 0, ex_syn 1, ex_syn 2, ex_syn 3] := by
  decide

/-! ## The receive path -/

/-- C11: `recv_handler_icmp` emits exactly one event, an UP status event, if the frame has
at least Ethernet+IPv6+ICMP header length, `type == 129` and `body32 == ICMP_BODY`, and
emits nothing otherwise. -/
theorem C11_icmp_status (C : scanconsts) (ts : Nat) (len : Int) (packet : rx_packet)
    (src : List Nat) :
    ((C.FRAME_ETH_SIZE + C.FRAME_IP_SIZE + C.ICMP_HEADER_SIZE ≤ len ∧
        packet.icmp_type = 129 ∧ packet.icmp_body32 = C.ICMP_BODY) →
      recv_handler_icmp C ts len packet src =
        [event.status ts src out_proto.ICMP 0 packet.v2 out_status.UP]) ∧
    (¬ (C.FRAME_ETH_SIZE + C.FRAME_IP_SIZE + C.ICMP_HEADER_SIZE ≤ len ∧
        packet.icmp_type = 129 ∧ packet.icmp_body32 = C.ICMP_BODY) →
      recv_handler_icmp C ts len packet src = []) := by
  constructor
  · rintro ⟨h1, h2, h3⟩
    unfold recv_handler_icmp
    rw [if_neg (by omega), if_neg (by simp [h2]), if_neg (by simp [h3])]
  · intro h
    unfold recv_handler_icmp
    by_cases h1 : len < C.FRAME_ETH_SIZE + C.FRAME_IP_SIZE + C.ICMP_HEADER_SIZE
    · rw [if_pos h1]
    · rw [if_neg h1]
      by_cases h2 : packet.icmp_type ≠ 129
      · rw [if_pos h2]
      · rw [if_neg h2]
        by_cases h3 : packet.icmp_body32 ≠ C.ICMP_BODY
        · rw [if_pos h3]
        · exfalso
          exact h ⟨by omega, not_not.1 h2, not_not.1 h3⟩

theorem recv_handler_tcp_cases (C : scanconsts) (c : scan) (ts : Nat) (len : Int)
    (packet : rx_packet) (src : List Nat) :
    recv_handler_tcp C c ts len packet src = [] ∨
    (∃ e, recv_handler_tcp C c ts len packet src = [e] ∧ e.is_status = true ∧ c.banners = 0) ∨
    (recv_handler_tcp C c ts len packet src = [event.responder ts len] ∧ c.banners ≠ 0) ∨
    (∃ e, recv_handler_tcp C c ts len packet src = [e, event.responder ts len] ∧
      e.is_status = true ∧ c.banners ≠ 0) := by
  unfold recv_handler_tcp
  by_cases h1 : len < C.FRAME_ETH_SIZE + C.FRAME_IP_SIZE + C.TCP_HEADER_SIZE
  · left; rw [if_pos h1]
  · rw [if_neg h1]
    have hX : ∀ X : List event, (X = [] ∨ ∃ e, X = [e] ∧ e.is_status = true) →
        (X ++ (if c.banners ≠ 0 then [event.responder ts len] else []) = [] ∨
        (∃ e, X ++ (if c.banners ≠ 0 then [event.responder ts len] else []) = [e] ∧
          e.is_status = true ∧ c.banners = 0) ∨
        (X ++ (if c.banners ≠ 0 then [event.responder ts len] else []) =
          [event.responder ts len] ∧ c.banners ≠ 0) ∨
        (∃ e, X ++ (if c.banners ≠ 0 then [event.responder ts len] else []) =
          [e, event.responder ts len] ∧ e.is_status = true ∧ c.banners ≠ 0)) := by
      intro X hX
      by_cases hb : c.banners ≠ 0
      · rw [if_pos hb]
        rcases hX with hX | ⟨e, hX, he⟩
        · right; right; left; rw [hX]; exact ⟨rfl, hb⟩
        · right; right; right; rw [hX]; exact ⟨e, rfl, he, hb⟩
      · rw [if_neg hb]
        rcases hX with hX | ⟨e, hX, he⟩
        · left; rw [hX]; rfl
        · right; left; rw [hX]; exact ⟨e, rfl, he, not_not.1 hb⟩
    apply hX
    by_cases h2 : (packet.f_ack && (packet.f_syn || packet.f_rst)) = true
    · rw [if_pos h2]
      by_cases h3 : (c.raw || decide (c.show_closed ≠ 0) || packet.f_syn) = true
      · rw [if_pos h3]; right; exact ⟨_, rfl, rfl⟩
      · rw [if_neg h3]; left; rfl
    · rw [if_neg h2]; left; rfl

theorem recv_handler_udp_cases (C : scanconsts) (c : scan) (ts : Nat) (len : Int)
    (packet : rx_packet) (src : List Nat) :
    recv_handler_udp C c ts len packet src = [] ∨
    ∃ e, recv_handler_udp C c ts len packet src = [e] ∧ e.is_responder = false := by
  unfold recv_handler_udp
  by_cases h1 : len < C.FRAME_ETH_SIZE + C.FRAME_IP_SIZE + C.UDP_HEADER_SIZE
  · left; rw [if_pos h1]
  · rw [if_neg h1]
    by_cases h2 : c.banners = 0
    · rw [if_pos h2]; right; exact ⟨_, rfl, rfl⟩
    · rw [if_neg h2]
      dsimp only
      by_cases h3 : ((len - ((C.FRAME_ETH_SIZE + C.FRAME_IP_SIZE + C.UDP_HEADER_SIZE : Nat) : Int))
          % 2 ^ 32).toNat = 0
      · left; rw [if_pos h3]
      · right; rw [if_neg h3]; exact ⟨_, rfl, rfl⟩

theorem recv_handler_icmp_cases (C : scanconsts) (ts : Nat) (len : Int)
    (packet : rx_packet) (src : List Nat) :
    recv_handler_icmp C ts len packet src = [] ∨
    ∃ e, recv_handler_icmp C ts len packet src = [e] ∧ e.is_responder = false := by
  unfold recv_handler_icmp
  split_ifs
  · left; rfl
  · left; rfl
  · left; rfl
  · right; exact ⟨_, rfl, rfl⟩

theorem recv_handler_cases (C : scanconsts) (L : linkconsts) (c : scan) (n ts : Nat)
    (len : Int) (f : rx_frame) :
    (recv_handler C L c n ts len f).2 = [] ∨
    (c.ip_type = C.IP_TYPE_TCP ∧ ∃ len2,
      (recv_handler C L c n ts len f).2 = recv_handler_tcp C c ts len2 f.packet f.csrcaddr) ∨
    (c.ip_type ≠ C.IP_TYPE_TCP ∧
      ∃ e, (recv_handler C L c n ts len f).2 = [e] ∧ e.is_responder = false) := by
  unfold recv_handler
  dsimp only
  by_cases h1 : (L.has_ethernet_headers && decide (len < C.FRAME_ETH_SIZE)) = true
  · rw [if_pos h1]; left; rfl
  · rw [if_neg h1]
    generalize (if L.has_ethernet_headers = true then len else len + (C.FRAME_ETH_SIZE : Int))
      = len2
    generalize (if L.has_ethernet_headers = true then f.eth_type else L.ETH_TYPE_IPV6) = v
    by_cases h2 : v ≠ L.ETH_TYPE_IPV6 ∨ len2 < C.FRAME_ETH_SIZE + C.FRAME_IP_SIZE
    · rw [if_pos h2]; left; rfl
    · rw [if_neg h2]
      by_cases h3 : f.ip_type ≠ c.ip_type
      · rw [if_pos h3]; left; rfl
      · rw [if_neg h3]
        by_cases h4 : c.ip_type = C.IP_TYPE_TCP
        · rw [if_pos h4]; right; left; exact ⟨h4, len2, rfl⟩
        · rw [if_neg h4]
          by_cases h5 : c.ip_type = C.IP_TYPE_UDP
          · rw [if_pos h5]
            rcases recv_handler_udp_cases C c ts len2 f.packet f.csrcaddr with h | h
            · left; exact h
            · right; right; exact ⟨h4, h⟩
          · rw [if_neg h5]
            rcases recv_handler_icmp_cases C ts len2 f.packet f.csrcaddr with h | h
            · left; exact h
            · right; right; exact ⟨h4, h⟩

theorem recv_handler_outcomes (C : scanconsts) (L : linkconsts) (c : scan) (n ts : Nat)
    (len : Int) (f : rx_frame) :
    ((recv_handler C L c n ts len f).2 = [] ∨
      (∃ e, (recv_handler C L c n ts len f).2 = [e] ∧
        (e.is_responder = true → c.ip_type = C.IP_TYPE_TCP ∧ c.banners ≠ 0)) ∨
      (∃ e r, (recv_handler C L c n ts len f).2 = [e, r] ∧ e.is_status = true ∧
        r.is_responder = true ∧ c.ip_type = C.IP_TYPE_TCP ∧ c.banners ≠ 0)) ∧
    (c.ip_type = C.IP_TYPE_TCP → c.banners ≠ 0 → (recv_handler C L c n ts len f).2 ≠ [] →
      ∃ r, (recv_handler C L c n ts len f).2.getLast? = some r ∧ r.is_responder = true) := by
  rcases recv_handler_cases C L c n ts len f with h | ⟨ht, len2, h⟩ | ⟨ht, e, h, he⟩
  · exact ⟨Or.inl h, fun _ _ hne => absurd h hne⟩
  · rw [h]
    rcases recv_handler_tcp_cases C c ts len2 f.packet f.csrcaddr with
      k | ⟨e, k, ke, kb⟩ | ⟨k, kb⟩ | ⟨e, k, ke, kb⟩
    · exact ⟨Or.inl k, fun _ _ hne => absurd k hne⟩
    · refine ⟨Or.inr (Or.inl ⟨e, k, fun _ => ?_⟩), fun _ hb _ => absurd kb hb⟩
      cases e <;> simp [event.is_status, event.is_responder] at *
    · refine ⟨Or.inr (Or.inl ⟨_, k, fun _ => ⟨ht, kb⟩⟩),
        fun _ _ _ => ⟨event.responder ts len2, ?_, rfl⟩⟩
      rw [k]; rfl
    · refine ⟨Or.inr (Or.inr ⟨e, _, k, ke, rfl, ht, kb⟩),
        fun _ _ _ => ⟨event.responder ts len2, ?_, rfl⟩⟩
      rw [k]; rfl
  · rw [h]
    refine ⟨Or.inr (Or.inl ⟨e, rfl, fun hr => ?_⟩), fun h1 _ _ => absurd h1 ht⟩
    rw [he] at hr
    exact absurd hr (by decide)

/-- C12, as amended: for every captured frame and every scan configuration `recv_handler`
produces nothing (a silent drop), or exactly one event (a status event, a banner event or
a responder hand-off), or one status event followed by a responder hand-off. A responder
hand-off occurs only in a TCP scan with banners enabled, and there every frame that is not
dropped is handed to the responder, after its status event if it has one. -/
theorem C12_recv_outcomes (C : scanconsts) (L : linkconsts) (c : scan) (n ts : Nat)
    (len : Int) (f : rx_frame) :
    ((recv_handler C L c n ts len f).2 = [] ∨
      (∃ e, (recv_handler C L c n ts len f).2 = [e] ∧
        (e.is_status = true ∨ e.is_banner = true ∨
          (e.is_responder = true ∧ c.ip_type = C.IP_TYPE_TCP ∧ c.banners ≠ 0))) ∨
      (∃ e r, (recv_handler C L c n ts len f).2 = [e, r] ∧ e.is_status = true ∧
        r.is_responder = true ∧ c.ip_type = C.IP_TYPE_TCP ∧ c.banners ≠ 0)) ∧
    (c.ip_type = C.IP_TYPE_TCP → c.banners ≠ 0 → (recv_handler C L c n ts len f).2 ≠ [] →
      ∃ r, (recv_handler C L c n ts len f).2.getLast? = some r ∧ r.is_responder = true) := by
  obtain ⟨h1, h2⟩ := recv_handler_outcomes C L c n ts len f
  refine ⟨?_, h2⟩
  rcases h1 with h | ⟨e, h, he⟩ | h
  · exact Or.inl h
  · refine Or.inr (Or.inl ⟨e, h, ?_⟩)
    cases e with
    | status _ _ _ _ _ _ => exact Or.inl rfl
    | banner _ _ _ _ _ => exact Or.inr (Or.inl rfl)
    | responder _ _ => exact Or.inr (Or.inr ⟨rfl, he rfl⟩)
  · exact Or.inr (Or.inr h)

/-- Counterexample to C12 as stated: in a TCP scan with banners enabled, a SYN+ACK frame of
full header length gets a status event and is handed to the responder as well: two of the
four outcomes for one frame. -/
theorem C12_counterexample :
    (recv_handler ex_scanconsts ex_link { ex_scan with banners := 1 } 0 7 74
        (ex_frame 6 (ex_rx true true false []))).2 =
      [event.status 7 ex_addr_db8 out_proto.TCP 80 64 out_status.OPEN,
        event.responder 7 74] := by
  decide

/-- C19: for every outcome of `rand()`, `source_port_rand` returns a value `v` with
`16384 <= v <= 65535` and bit 14 (`0x4000`) set; so `v` is never 0 and fits 16 bits. -/
theorem C19_source_port_range (r : Nat → Nat) :
    ∃ v : Nat, (source_port_rand r).1 = (v : Int) ∧ 16384 ≤ v ∧ v ≤ 65535 ∧
      v.testBit 14 = true ∧ v &&& 0x4000 = 0x4000 ∧ v ≠ 0 ∧ v < 2 ^ 16 := by
  refine ⟨((rand r).1 &&& 0xffff) ||| 16384, rfl, ?_⟩
  have hbit : (((rand r).1 &&& 0xffff) ||| 16384).testBit 14 = true := by
    rw [Nat.testBit_or]
    have : (16384 : Nat).testBit 14 = true := by decide
    rw [this, Bool.or_true]
  have hge : 16384 ≤ ((rand r).1 &&& 0xffff) ||| 16384 := Nat.testBit_implies_ge hbit
  have hlt : ((rand r).1 &&& 0xffff) ||| 16384 < 2 ^ 16 :=
    Nat.or_lt_two_pow (Nat.and_lt_two_pow _ (by norm_num)) (by norm_num)
  refine ⟨hge, by omega, hbit, ?_, by omega, hlt⟩
  apply Nat.eq_of_testBit_eq
  intro i
  rw [Nat.testBit_and, Nat.testBit_or]
  by_cases hi : i = 14
  · subst hi
    have : (16384 : Nat).testBit 14 = true := by decide
    simp [this]
  · have : (16384 : Nat).testBit i = false := by
      have e : (16384 : Nat) = 2 ^ 14 := by norm_num
      rw [e, Nat.testBit_two_pow]
      simp; omega
    have e2 : (0x4000 : Nat) = 16384 := by norm_num
    simp [e2, this]


/-! ## The sender threads and `status_bits` -/

theorem send_ports_udp (E : consts) (C : scanconsts) (Q : Nat → Nat → Option (List Nat) × Nat)
    (c : scan) (k : Nat) :
    ∀ s : udp_loop, s.it.set = c.ports → s.it.pos + k = c.ports.length →
      ∃ s2 : udp_loop,
        (∀ fuel, send_loop_udp E C Q c (k + fuel) s = send_loop_udp E C Q c fuel s2) ∧
        s2.it.set = c.ports ∧ s2.it.pos = c.ports.length ∧
        s2.gen = shift_rand s.gen (k * draws_per_frame c) ∧
        s2.wire.length = s.wire.length + k := by
  induction k with
  | zero =>
    intro s hset hpos
    exact ⟨s, fun fuel => by rw [Nat.zero_add], hset, by omega, by rw [Nat.zero_mul]; rfl, rfl⟩
  | succ k ih =>
    intro s hset hpos
    have hlt : s.it.pos < c.ports.length := by omega
    have hget : s.it.set[s.it.pos]? = some (c.ports[s.it.pos]) := by
      rw [hset]; exact List.getElem?_eq_getElem hlt
    have hnext : ports_iter_next s.it =
        (1, { set := s.it.set, pos := s.it.pos + 1, val := c.ports[s.it.pos] }) := by
      simp only [ports_iter_next, hget]
    have hgen : (udp_send_frame C Q c s).gen = shift_rand s.gen (draws_per_frame c) := by
      unfold draws_per_frame
      by_cases hsp : c.source_port = -1
      · simp only [udp_send_frame, if_pos hsp]; rfl
      · simp only [udp_send_frame, if_neg hsp]; rfl
    have hit : (udp_send_frame C Q c s).it =
        { set := s.it.set, pos := s.it.pos + 1, val := c.ports[s.it.pos] } := by
      show (ports_iter_next s.it).2 = _
      rw [hnext]
    have hwire : (udp_send_frame C Q c s).wire.length = s.wire.length + 1 := by
      simp only [udp_send_frame, List.length_append, List.length_singleton]
    obtain ⟨s2, h1, h2, h3, h4, h5⟩ := ih (udp_send_frame C Q c s)
      (by rw [hit]; exact hset) (by rw [hit]; show s.it.pos + 1 + k = _; omega)
    refine ⟨s2, ?_, h2, h3, ?_, by rw [h5, hwire]; omega⟩
    · intro fuel
      have e : k + 1 + fuel = (k + fuel) + 1 := by omega
      rw [e, send_loop_udp, hnext]
      simp only [one_ne_zero, if_false]
      exact h1 fuel
    · rw [h4, hgen, shift_rand_add]
      congr 1
      ring

theorem send_addrs_udp (E : consts) (C : scanconsts)
    (Q : Nat → Nat → Option (List Nat) × Nat) (c : scan) :
    ∀ (as : List (List Nat)) (s : udp_loop) (fuelD : Nat),
      s.it.set = c.ports → s.it.pos = 0 →
      (gen_drain E (c.ports.length * draws_per_frame c) fuelD
        (shift_rand s.gen (c.ports.length * draws_per_frame c))).map Prod.fst = some as →
      ∃ s2 : udp_loop,
        (∀ extra, send_loop_udp E C Q c ((as.length + 1) * (c.ports.length + 1) + extra) s =
          some s2) ∧
        s2.wire.length = s.wire.length + (as.length + 1) * c.ports.length := by
  intro as
  induction as with
  | nil =>
    intro s fuelD hset hpos hd
    obtain ⟨s1, h1, h2, h3, h4, h5⟩ :=
      send_ports_udp E C Q c c.ports.length s hset (by omega)
    rw [← h4] at hd
    obtain ⟨g1, hg1⟩ := gen_drain_nil E _ _ _ hd
    have hnone : s1.it.set[s1.it.pos]? = none := by
      rw [h2, h3]; exact List.getElem?_eq_none (le_refl _)
    have hnext : ports_iter_next s1.it = (0, s1.it) := by
      simp only [ports_iter_next, hnone]
    refine ⟨{ gen := g1, packet := s1.packet, dstaddr := s1.dstaddr, it := s1.it,
              wire := s1.wire, pkts_sent := s1.pkts_sent }, ?_, ?_⟩
    · intro extra
      have e : (([] : List (List Nat)).length + 1) * (c.ports.length + 1) + extra =
          c.ports.length + (extra + 1) := by
        simp only [List.length_nil]; omega
      rw [e, h1, send_loop_udp, hnext]
      simp only [if_true, hg1]
    · show s1.wire.length = _
      rw [h5]
      simp
  | cons a2 rest ih =>
    intro s fuelD hset hpos hd
    obtain ⟨s1, h1, h2, h3, h4, h5⟩ :=
      send_ports_udp E C Q c c.ports.length s hset (by omega)
    rw [← h4] at hd
    obtain ⟨fuel2, g1, hg1, hd2⟩ := gen_drain_cons E _ _ _ _ _ hd
    have hnone : s1.it.set[s1.it.pos]? = none := by
      rw [h2, h3]; exact List.getElem?_eq_none (le_refl _)
    have hnext : ports_iter_next s1.it = (0, s1.it) := by
      simp only [ports_iter_next, hnone]
    obtain ⟨s2, i1, i2⟩ := ih (udp_next_target C c s1 a2 g1) fuel2
      (by show (none : Option (List Nat)).getD (ports_iter_next s1.it).2.set = _
          rw [hnext]; exact h2) rfl hd2
    refine ⟨s2, ?_, ?_⟩
    · intro extra
      have e : ((a2 :: rest).length + 1) * (c.ports.length + 1) + extra =
          c.ports.length + (((rest.length + 1) * (c.ports.length + 1) + extra) + 1) := by
        simp only [List.length_cons]; ring
      rw [e, h1, send_loop_udp, hnext]
      simp only [if_true, hg1]
      exact i1 extra
    · rw [i2]
      show s1.wire.length + _ = _
      rw [h5]
      simp only [List.length_cons]
      ring

theorem send_addrs_icmp (E : consts) (C : scanconsts) (c : scan) :
    ∀ (as : List (List Nat)) (s : icmp_loop) (fuelD : Nat),
      (gen_drain E 0 fuelD s.gen).map Prod.fst = some as →
      ∃ s2 : icmp_loop,
        (∀ extra, send_loop_icmp E C c (as.length + 1 + extra) s = some s2) ∧
        s2.wire.length = s.wire.length + as.length + 1 := by
  intro as
  induction as with
  | nil =>
    intro s fuelD hd
    obtain ⟨g1, hg1⟩ := gen_drain_nil E _ _ _ hd
    refine ⟨{ gen := g1, packet := s.packet, wire := s.wire ++ [s.packet],
              pkts_sent := rate_control c s.pkts_sent }, ?_, by simp⟩
    intro extra
    have e : ([] : List (List Nat)).length + 1 + extra = extra + 1 := by
      simp only [List.length_nil]; omega
    rw [e, send_loop_icmp]
    simp only [hg1]
  | cons a2 rest ih =>
    intro s fuelD hd
    obtain ⟨fuel2, g1, hg1, hd2⟩ := gen_drain_cons E _ _ _ _ _ hd
    obtain ⟨s2, i1, i2⟩ := ih
      { gen := g1,
        packet := { s.packet with ip_len := C.ICMP_HEADER_SIZE, dstaddr := a2 },
        wire := s.wire ++ [s.packet], pkts_sent := rate_control c s.pkts_sent } fuel2 hd2
    refine ⟨s2, ?_, ?_⟩
    · intro extra
      have e : (a2 :: rest).length + 1 + extra = (rest.length + 1 + extra) + 1 := by
        simp only [List.length_cons]; omega
      rw [e, send_loop_icmp]
      simp only [hg1]
      exact i1 extra
    · have i3 : s2.wire.length = (s.wire ++ [s.packet]).length + rest.length + 1 := i2
      rw [i3, List.length_append, List.length_singleton, List.length_cons]
      omega

/-- C13, as amended: when the generator's output sequence `a_1..a_n` is not empty, each
sender thread (TCP, UDP, ICMPv6) returns, given enough fuel, and the one bit it has set in
`status_bits` is `SEND_FINISHED`. When the very first `target_gen_next` call already
reports "no more", each sender thread sends nothing and sets `ERROR_SEND_THREAD` instead.
(The TCP and UDP senders call `rand()` once per frame when the source port is not pinned,
the ICMPv6 sender never does.) -/
theorem C13_sender_status (E : consts) (C : scanconsts)
    (Q : Nat → Nat → Option (List Nat) × Nat) (c : scan) (g : gen) (fuelD : Nat)
    (as : List (List Nat)) (pkts_sent status_bits : Nat)
    (hports : ∀ p ∈ c.ports, p < 65536) :
    (as ≠ [] →
      (gen_drain E (c.ports.length * draws_per_frame c) fuelD g).map Prod.fst = some as →
      ∀ extra,
        (∃ s, send_thread_tcp E c (as.length * (c.ports.length + 1) + extra) g pkts_sent
            status_bits = some s ∧ s.status_bits = status_bits ||| SEND_FINISHED) ∧
        (∃ s, send_thread_udp E C Q c (as.length * (c.ports.length + 1) + extra) g pkts_sent
            status_bits = some s ∧ s.status_bits = status_bits ||| SEND_FINISHED)) ∧
    (as ≠ [] → (gen_drain E 0 fuelD g).map Prod.fst = some as →
      ∀ extra, ∃ s, send_thread_icmp E C c (as.length + extra) g pkts_sent status_bits =
        some s ∧ s.status_bits = status_bits ||| SEND_FINISHED) ∧
    (∀ g1, target_gen_next E g = some (none, g1) → ∀ fuel,
      (send_thread_tcp E c fuel g pkts_sent status_bits).map
          (fun s => (s.wire.length, s.status_bits)) =
        some (0, status_bits ||| ERROR_SEND_THREAD) ∧
      (send_thread_udp E C Q c fuel g pkts_sent status_bits).map
          (fun s => (s.wire.length, s.status_bits)) =
        some (0, status_bits ||| ERROR_SEND_THREAD) ∧
      (send_thread_icmp E C c fuel g pkts_sent status_bits).map
          (fun s => (s.wire.length, s.status_bits)) =
        some (0, status_bits ||| ERROR_SEND_THREAD)) := by
  refine ⟨?_, ?_, ?_⟩
  · intro hne hgen extra
    cases as with
    | nil => exact absurd rfl hne
    | cons a rest =>
      obtain ⟨fuel2, g1, hg1, hd2⟩ := gen_drain_cons E _ _ _ _ _ hgen
      have e : (a :: rest).length * (c.ports.length + 1) + extra =
          (rest.length + 1) * (c.ports.length + 1) + extra := by
        simp only [List.length_cons]
      constructor
      · obtain ⟨s2, i1, _⟩ := send_addrs E c hports rest
          { gen := g1,
            packet := tcp_make_syn (tcp_prepare (rawsock_ip_modify frame_prepared a))
              FIRST_SEQNUM,
            it := ports_iter_begin (some c.ports) { set := [], pos := 0, val := 0 },
            wire := [], pkts_sent := pkts_sent } fuel2 rfl rfl hd2
        refine ⟨{ gen := s2.gen, wire := s2.wire, pkts_sent := s2.pkts_sent,
                  status_bits := status_bits ||| SEND_FINISHED }, ?_, rfl⟩
        unfold send_thread_tcp
        rw [hg1]
        simp only [e, i1 extra]
      · obtain ⟨s2, i1, _⟩ := send_addrs_udp E C Q c rest
          { gen := g1,
            packet := if c.banners = 0 then
                udp_modify2 C
                  { udp_prepared with ip_len := C.UDP_HEADER_SIZE, dstaddr := a } 0
              else udp_prepared,
            dstaddr := a,
            it := ports_iter_begin (some c.ports) { set := [], pos := 0, val := 0 },
            wire := [], pkts_sent := pkts_sent } fuel2 rfl rfl hd2
        refine ⟨{ gen := s2.gen, wire := s2.wire, pkts_sent := s2.pkts_sent,
                  status_bits := status_bits ||| SEND_FINISHED }, ?_, rfl⟩
        unfold send_thread_udp
        rw [hg1]
        simp only [e, i1 extra]
  · intro hne hgen extra
    cases as with
    | nil => exact absurd rfl hne
    | cons a rest =>
      obtain ⟨fuel2, g1, hg1, hd2⟩ := gen_drain_cons E _ _ _ _ _ hgen
      obtain ⟨s2, i1, _⟩ := send_addrs_icmp E C c rest
        { gen := g1,
          packet := { ip_len := C.ICMP_HEADER_SIZE, dstaddr := a, icmp_type := 128,
                      code := 0, body32 := C.ICMP_BODY },
          wire := [], pkts_sent := pkts_sent } fuel2 hd2
      refine ⟨{ gen := s2.gen, wire := s2.wire, pkts_sent := s2.pkts_sent,
                status_bits := status_bits ||| SEND_FINISHED }, ?_, rfl⟩
      unfold send_thread_icmp
      rw [hg1]
      have e : (a :: rest).length + extra = rest.length + 1 + extra := by
        simp only [List.length_cons]
      simp only [e, i1 extra]
  · intro g1 hg1 fuel
    unfold send_thread_tcp send_thread_udp send_thread_icmp
    rw [hg1]
    exact ⟨rfl, rfl, rfl⟩

/-- Witness for C13: the generator of `2001:db8::/126` gives four addresses, and with the
source port pinned and the ports `{80}` each of the three senders ends with `status_bits`
equal to `SEND_FINISHED`. -/
theorem C13_sender_status_witness :
    (∀ p ∈ ex_scan.ports, p < 65536) ∧
    (∃ s, send_thread_tcp ex_consts ex_scan (4 * (1 + 1) + 0) ex_gen_126 0 0 = some s ∧
      s.status_bits = 0 ||| SEND_FINISHED) ∧
    (∃ s, send_thread_udp ex_consts ex_scanconsts ex_query ex_scan (4 * (1 + 1) + 0)
        ex_gen_126 0 0 = some s ∧ s.status_bits = 0 ||| SEND_FINISHED) ∧
    (∃ s, send_thread_icmp ex_consts ex_scanconsts ex_scan (4 + 0) ex_gen_126 0 0 = some s ∧
      s.status_bits = 0 ||| SEND_FINISHED) :=
  ⟨by decide,
    ((C13_sender_status ex_consts ex_scanconsts ex_query ex_scan ex_gen_126 5
      [(ex_syn 0).dstaddr, (ex_syn 1).dstaddr, (ex_syn 2).dstaddr, (ex_syn 3).dstaddr] 0 0
      (by decide)).1 (by decide) ex_gen_126_drain 0).1,
    ((C13_sender_status ex_consts ex_scanconsts ex_query ex_scan ex_gen_126 5
      [(ex_syn 0).dstaddr, (ex_syn 1).dstaddr, (ex_syn 2).dstaddr, (ex_syn 3).dstaddr] 0 0
      (by decide)).1 (by decide) ex_gen_126_drain 0).2,
    (C13_sender_status ex_consts ex_scanconsts ex_query ex_scan ex_gen_126 5
      [(ex_syn 0).dstaddr, (ex_syn 1).dstaddr, (ex_syn 2).dstaddr, (ex_syn 3).dstaddr] 0 0
      (by decide)).2.1 (by decide) ex_gen_126_drain 0⟩

/-- Counterexample to C13 as stated: a streamed scan whose target file is empty, which
`target_gen_finish_add` and `target_gen_sanity_check` accept. The generator's output
sequence is empty, and each of the three sender threads ends with `ERROR_SEND_THREAD` set
and `SEND_FINISHED` clear. -/
theorem C13_counterexample :
    target_gen_finish_add ex_consts ex_gen_empty = some (0, ex_gen_empty) ∧
    target_gen_sanity_check ex_consts ex_gen_empty = 0 ∧
    (gen_drain ex_consts 0 1 ex_gen_empty).map Prod.fst = some [] ∧
    (send_thread_tcp ex_consts ex_scan 8 ex_gen_empty 0 0).map (fun s => s.status_bits) =
      some ERROR_SEND_THREAD ∧
    (send_thread_udp ex_consts ex_scanconsts ex_query ex_scan 8 ex_gen_empty 0 0).map
      (fun s => s.status_bits) = some ERROR_SEND_THREAD ∧
    (send_thread_icmp ex_consts ex_scanconsts ex_scan 8 ex_gen_empty 0 0).map
      (fun s => s.status_bits) = some ERROR_SEND_THREAD ∧
    ERROR_SEND_THREAD &&& SEND_FINISHED = 0 :=
  ⟨rfl, by decide, by decide⟩


/-! ## What `main` makes of the result of `scan_main` -/

theorem stats_loop_first (env : scan_env) (k : Nat) :
    ∀ fuel start, start ≤ k → k < start + fuel →
      (∀ j, start ≤ j → j < k → env.status_bits_at j % 256 = 0) →
      env.status_bits_at k % 256 ≠ 0 →
      stats_loop env fuel start = some (env.status_bits_at k % 256) := by
  intro fuel
  induction fuel with
  | zero => intro start h1 h2; omega
  | succ fuel ih =>
    intro start h1 h2 hz hk
    rw [stats_loop]
    by_cases hs : start = k
    · rw [hs, if_pos hk]
    · rw [if_neg (by rw [not_not]; exact hz start (le_refl _) (by omega))]
      exact ih (start + 1) (by omega) (by omega) (fun j hj hj2 => hz j (by omega) hj2) hk

theorem main_scan_of_scan_main (E : consts) (C : scanconsts) (o : main_opts) (g : gen)
    (env : scan_env) (fuel : Nat) (res : scan_result)
    (hs : 0 ≤ target_gen_sanity_check E g) (hm : main_missing C o = none)
    (h : scan_main C (main_config o) env fuel = some res) :
    main_scan E C o g env fuel = some (if res.r < 0 then 1 else 0) := by
  unfold main_scan
  simp only [if_neg (not_lt.2 hs), hm, Option.isSome_none, if_true, h]
  rfl

theorem scan_main_startup_error (C : scanconsts) (c : scan) (env : scan_env) (fuel : Nat)
    (hopen : 0 ≤ env.rawsock_open)
    (hfail : (c.banners ≠ 0 ∧ c.ip_type = C.IP_TYPE_TCP ∧ env.scan_responder_init < 0) ∨
      env.rawsock_setfilter < 0 ∨ env.pthread_create_recv < 0 ∨
      env.pthread_create_send < 0) :
    ∃ res, scan_main C c env fuel = some res ∧ res.r = 1 ∧
      res.log.getLast? = some scan_step.rawsock_close := by
  have hlast : ∀ l : List scan_step,
      (l ++ [scan_step.rawsock_close]).getLast? = some scan_step.rawsock_close := by
    intro l; simp
  unfold scan_main
  rw [if_neg (not_lt.2 hopen)]
  dsimp only
  by_cases h1 : (decide (c.banners ≠ 0) && decide (c.ip_type = C.IP_TYPE_TCP) &&
      decide (env.scan_responder_init < 0)) = true
  · rw [if_pos h1]; exact ⟨_, rfl, rfl, hlast _⟩
  · rw [if_neg h1]
    by_cases h2 : env.rawsock_setfilter < 0
    · rw [if_pos h2]; exact ⟨_, rfl, rfl, hlast _⟩
    · rw [if_neg h2]
      by_cases h3 : env.pthread_create_recv < 0
      · rw [if_pos h3]; exact ⟨_, rfl, rfl, hlast _⟩
      · rw [if_neg h3]
        by_cases h4 : env.pthread_create_send < 0
        · rw [if_pos h4]; exact ⟨_, rfl, rfl, hlast _⟩
        · exfalso
          rcases hfail with ⟨a, b, d⟩ | a | a | a
          · apply h1
            simp [a, b, d]
          · exact h2 a
          · exact h3 a
          · exact h4 a

theorem scan_main_runtime_error (C : scanconsts) (c : scan) (env : scan_env) (fuel k : Nat)
    (hopen : 0 ≤ env.rawsock_open) (hinit : 0 ≤ env.scan_responder_init)
    (hfilter : 0 ≤ env.rawsock_setfilter) (hrecv : 0 ≤ env.pthread_create_recv)
    (hsend : 0 ≤ env.pthread_create_send) (hk : k < fuel)
    (hzero : ∀ j < k, env.status_bits_at j % 256 = 0)
    (herr : env.status_bits_at k % 256 &&& (ERROR_SEND_THREAD ||| ERROR_RECV_THREAD) ≠ 0) :
    ∃ res, scan_main C c env fuel = some res ∧ res.r = 0 ∧
      scan_step.errors_encountered ∈ res.log ∧ scan_step.waiting ∉ res.log := by
  have hne : env.status_bits_at k % 256 ≠ 0 := by
    intro h0
    rw [h0] at herr
    exact herr (Nat.zero_and _)
  have hcur : env.status_bits_at k % 256 &&& 0xfe ≠ 0 := by
    intro h0
    apply herr
    have e : (ERROR_SEND_THREAD ||| ERROR_RECV_THREAD) =
        0xfe &&& (ERROR_SEND_THREAD ||| ERROR_RECV_THREAD) := by decide
    rw [e, ← Nat.and_assoc, h0, Nat.zero_and]
  have hloop := stats_loop_first env k fuel 0 (Nat.zero_le _) (by omega)
    (fun j _ hj => hzero j hj) hne
  unfold scan_main
  rw [if_neg (not_lt.2 hopen)]
  dsimp only
  rw [if_neg (by simp [not_lt.2 hinit]), if_neg (not_lt.2 hfilter), if_neg (not_lt.2 hrecv),
    if_neg (not_lt.2 hsend), hloop]
  refine ⟨_, rfl, rfl, ?_, ?_⟩
  · simp only [if_neg hcur, List.mem_append, List.mem_singleton]
    left; left; left; right; trivial
  · simp only [if_neg hcur, List.mem_append, List.mem_singleton, List.mem_cons]
    split_ifs <;> simp

/-- C14, which the code does not meet: when `scan_main` fails during start-up after the
transport was opened (`scan_responder_init`, `rawsock_setfilter` or a `pthread_create`
gives a negative value, the paths that take `goto err`), it returns 1, and `main`, which
tests `scan_main(interface, quiet) < 0`, ends with exit status 0, not 1. The sibling path
on which `rawsock_open` fails returns -1, and `main` ends with exit status 1 there. -/
theorem C14_startup_failure_exits_zero (E : consts) (C : scanconsts) (o : main_opts)
    (g : gen) (env : scan_env) (fuel : Nat)
    (hs : 0 ≤ target_gen_sanity_check E g) (hm : main_missing C o = none)
    (hopen : 0 ≤ env.rawsock_open)
    (hfail : (o.banners ≠ 0 ∧ o.ip_type = C.IP_TYPE_TCP ∧ env.scan_responder_init < 0) ∨
      env.rawsock_setfilter < 0 ∨ env.pthread_create_recv < 0 ∨
      env.pthread_create_send < 0) :
    (∃ res, scan_main C (main_config o) env fuel = some res ∧ res.r = 1) ∧
    main_scan E C o g env fuel = some 0 ∧
    (∀ env2 : scan_env, env2.rawsock_open < 0 → main_scan E C o g env2 fuel = some 1) := by
  obtain ⟨res, h1, h2, _⟩ := scan_main_startup_error C (main_config o) env fuel hopen hfail
  refine ⟨⟨res, h1, h2⟩, ?_, ?_⟩
  · rw [main_scan_of_scan_main E C o g env fuel res hs hm h1, h2]
    rfl
  · intro env2 h
    have h3 : scan_main C (main_config o) env2 fuel = some { r := -1, log := [] } := by
      unfold scan_main
      rw [if_pos h]
    rw [main_scan_of_scan_main E C o g env2 fuel _ hs hm h3]
    rfl

set_option maxRecDepth 1000000 in
/-- C14 at a concrete input: a TCP scan of `2001:db8::/126`, port 80, with every required
option given, in which `rawsock_setfilter` fails: `scan_main` returns 1 and the exit status
is 0. -/
theorem C14_startup_failure_exits_zero_witness :
    (∃ res, scan_main ex_scanconsts (main_config ex_opts) ex_env_filter_fails 1 = some res ∧
      res.r = 1) ∧
    main_scan ex_consts ex_scanconsts ex_opts ex_gen_126 ex_env_filter_fails 1 = some 0 ∧
    (∀ env2 : scan_env, env2.rawsock_open < 0 →
      main_scan ex_consts ex_scanconsts ex_opts ex_gen_126 env2 1 = some 1) :=
  C14_startup_failure_exits_zero ex_consts ex_scanconsts ex_opts ex_gen_126
    ex_env_filter_fails 1 (by decide) (by decide) (by decide) (by decide)

/-- C15, which the code does not meet: when start-up succeeds and the stats loop of
`scan_main` finds `ERROR_SEND_THREAD` or `ERROR_RECV_THREAD` in `status_bits`, `scan_main`
prints "Errors were encountered." and skips the wait, but it goes on to `int r = 0` and
returns 0, and `main` ends with exit status 0, not 1. -/
theorem C15_runtime_error_exits_zero (E : consts) (C : scanconsts) (o : main_opts)
    (g : gen) (env : scan_env) (fuel k : Nat)
    (hs : 0 ≤ target_gen_sanity_check E g) (hm : main_missing C o = none)
    (hopen : 0 ≤ env.rawsock_open) (hinit : 0 ≤ env.scan_responder_init)
    (hfilter : 0 ≤ env.rawsock_setfilter) (hrecv : 0 ≤ env.pthread_create_recv)
    (hsend : 0 ≤ env.pthread_create_send) (hk : k < fuel)
    (hzero : ∀ j < k, env.status_bits_at j % 256 = 0)
    (herr : env.status_bits_at k % 256 &&& (ERROR_SEND_THREAD ||| ERROR_RECV_THREAD) ≠ 0) :
    (∃ res, scan_main C (main_config o) env fuel = some res ∧ res.r = 0 ∧
      scan_step.errors_encountered ∈ res.log ∧ scan_step.waiting ∉ res.log) ∧
    main_scan E C o g env fuel = some 0 := by
  obtain ⟨res, h1, h2, h3, h4⟩ := scan_main_runtime_error C (main_config o) env fuel k hopen
    hinit hfilter hrecv hsend hk hzero herr
  refine ⟨⟨res, h1, h2, h3, h4⟩, ?_⟩
  rw [main_scan_of_scan_main E C o g env fuel res hs hm h1, h2]
  rfl

set_option maxRecDepth 1000000 in
/-- C15 at a concrete input: a TCP scan of `2001:db8::/126`, port 80, in which the receive
thread has set `ERROR_RECV_THREAD` by the second round of the stats loop: `scan_main`
returns 0 and the exit status is 0. -/
theorem C15_runtime_error_exits_zero_witness :
    (∃ res, scan_main ex_scanconsts (main_config ex_opts) ex_env_recv_error 2 = some res ∧
      res.r = 0 ∧ scan_step.errors_encountered ∈ res.log ∧ scan_step.waiting ∉ res.log) ∧
    main_scan ex_consts ex_scanconsts ex_opts ex_gen_126 ex_env_recv_error 2 = some 0 :=
  C15_runtime_error_exits_zero ex_consts ex_scanconsts ex_opts ex_gen_126 ex_env_recv_error
    2 1 (by decide) (by decide) (by decide) (by decide) (by decide) (by decide) (by decide)
    (by decide) (by decide) (by decide)


/-! ## The summary -/

set_option maxRecDepth 1000000 in
/-- C17, which the code does not meet: for the single spec `2001:db8::/66` (`2^62`
addresses), 5 ports and a rate of 2147483647 the exact product `5 * 2^62` does not fit 64
bits and the exact quotient exceeds `2^32 - 1`, yet `target_gen_print_summary` reports the
numeric duration "3550 weeks 5 days": the wrapped product `2^62` is not smaller than
`total`, so the test `dur64 < total` does not see the overflow. -/
theorem C17_overflow_not_detected :
    target_gen_print_summary ex_gen_66 2147483647 5 =
      some (summary_out.report
        { targets := 1, total := some (2 ^ 62), largest := 66, smallest := 66,
          duration := some (duration_line.two 3550 dur_unit.weeks 5 dur_unit.days) }) ∧
    summary_duration (2 ^ 62) false 2147483647 5 = some (some 2147483649) ∧
    2 ^ 64 ≤ 2 ^ 62 * 5 ∧ 2 ^ 32 - 1 < 2 ^ 62 * 5 / 2147483647 := by
  decide

/-- C18, as amended: the unit pair that `target_gen_print_summary` uses for a duration of
`d` seconds is one of weeks+days, days+hours, hours+minutes, minutes+seconds, namely the
coarsest whose leading unit `U1` satisfies `U1 < d`, and minutes+seconds exactly when
`d <= 3600`; the numbers are `n1 = d div U1` and `n2 = (d mod U1) div U2`, and a number
that is zero is left out of the printed line. -/
theorem C18_duration_units (d : Nat) :
    ((duration_split d).2.1, (duration_split d).2.2.2) ∈
      [(dur_unit.weeks, dur_unit.days), (dur_unit.days, dur_unit.hours),
        (dur_unit.hours, dur_unit.minutes), (dur_unit.minutes, dur_unit.seconds)] ∧
    (duration_split d).1 = d / unit_seconds (duration_split d).2.1 ∧
    (duration_split d).2.2.1 =
      d % unit_seconds (duration_split d).2.1 / unit_seconds (duration_split d).2.2.2 ∧
    ((duration_split d).2.1 = dur_unit.minutes ↔ d ≤ 3600) ∧
    ((duration_split d).2.1 ≠ dur_unit.minutes → unit_seconds (duration_split d).2.1 < d) ∧
    (∀ u ∈ [dur_unit.weeks, dur_unit.days, dur_unit.hours],
      unit_seconds u < d → unit_seconds u ≤ unit_seconds (duration_split d).2.1) ∧
    duration_print (duration_split d) =
      (if (duration_split d).1 = 0 then
        duration_line.one (duration_split d).2.2.1 (duration_split d).2.2.2
      else if (duration_split d).2.2.1 = 0 then
        duration_line.one (duration_split d).1 (duration_split d).2.1
      else duration_line.two (duration_split d).1 (duration_split d).2.1
        (duration_split d).2.2.1 (duration_split d).2.2.2) := by
  refine ⟨?_, ?_, ?_, ?_, ?_, ?_, rfl⟩ <;> unfold duration_split <;>
    by_cases h1 : d > 7 * 24 * 60 * 60 <;>
    by_cases h2 : d > 24 * 60 * 60 <;>
    by_cases h3 : d > 60 * 60 <;>
    simp only [h1, h2, h3, if_true, if_false] <;>
    simp [unit_seconds] <;> omega

set_option maxRecDepth 1000000 in
/-- Counterexample to C18 as stated: a duration of 604800 seconds is decomposed as 7 days
and 0 hours and printed as "7 days", not in weeks, and a duration of 3600 seconds as 60
minutes and 0 seconds, printed as "60 minutes", not in hours; the latter is what the
summary of `2001:db8::/126` with 900 ports at 1 packet per second shows. -/
theorem C18_counterexample :
    duration_split 604800 = (7, dur_unit.days, 0, dur_unit.hours) ∧
    duration_print (duration_split 604800) = duration_line.one 7 dur_unit.days ∧
    unit_seconds dur_unit.weeks ≤ 604800 ∧
    duration_split 3600 = (60, dur_unit.minutes, 0, dur_unit.seconds) ∧
    duration_print (duration_split 3600) = duration_line.one 60 dur_unit.minutes ∧
    unit_seconds dur_unit.hours ≤ 3600 ∧
    target_gen_print_summary ex_gen_126 1 900 =
      some (summary_out.report
        { targets := 1, total := some 4, largest := 126, smallest := 126,
          duration := some (duration_line.one 60 dur_unit.minutes) }) := by
  decide


/-! ## `next_addr` and the squeezed counter -/

theorem byte_value_eq : ∀ m < 256, byte_value m = m := by
  decide!

theorem bitval_succ (l : List Nat) (n : Nat) :
    bitval l (n + 1) = bitval l n + (if bitAt l n then 2 ^ n else 0) := rfl

theorem ite_two_pow (b : Bool) (i c : Nat) :
    (if b = true then 2 ^ (8 * i + c) else 0) = 2 ^ (8 * i) * (if b = true then 2 ^ c else 0) := by
  cases b
  · simp
  · simp [pow_add]

theorem bitval_step8 (l : List Nat) (i : Nat) :
    bitval l (8 * i + 8) = bitval l (8 * i) + 2 ^ (8 * i) * byte_value (l.getD (15 - i) 0) := by
  have h0 := bitAt_byte l i 0 (by norm_num)
  have h1 := bitAt_byte l i 1 (by norm_num)
  have h2 := bitAt_byte l i 2 (by norm_num)
  have h3 := bitAt_byte l i 3 (by norm_num)
  have h4 := bitAt_byte l i 4 (by norm_num)
  have h5 := bitAt_byte l i 5 (by norm_num)
  have h6 := bitAt_byte l i 6 (by norm_num)
  have h7 := bitAt_byte l i 7 (by norm_num)
  have e0 := ite_two_pow ((l.getD (15 - i) 0).testBit 0) i 0
  rw [Nat.add_zero] at h0 e0
  rw [bitval_succ l (8 * i + 7), bitval_succ l (8 * i + 6), bitval_succ l (8 * i + 5),
    bitval_succ l (8 * i + 4), bitval_succ l (8 * i + 3), bitval_succ l (8 * i + 2),
    bitval_succ l (8 * i + 1), bitval_succ l (8 * i), h0, h1, h2, h3, h4, h5, h6, h7, e0,
    ite_two_pow _ i 1, ite_two_pow _ i 2, ite_two_pow _ i 3, ite_two_pow _ i 4,
    ite_two_pow _ i 5, ite_two_pow _ i 6, ite_two_pow _ i 7]
  unfold byte_value
  simp only [Nat.mul_add, Nat.reducePow, Nat.add_assoc]

theorem bitval_lt (l : List Nat) (n : Nat) : bitval l n < 2 ^ n := by
  induction n with
  | zero => simp [bitval]
  | succ n ih =>
    rw [bitval_succ, pow_succ]
    split_ifs <;> omega

theorem val128_eq_bitval (l : List Nat) (h : wf16 l) : val128 l = bitval l 128 := by
  have hb := fun i => byte_value_eq (l.getD i 0) (wf16_getD_lt l h i)
  have e : val128 l =
      (((((((((((((((((0 * 256 + l.getD 0 0) * 256 + l.getD 1 0) * 256 + l.getD 2 0) * 256 +
        l.getD 3 0) * 256 + l.getD 4 0) * 256 + l.getD 5 0) * 256 + l.getD 6 0) * 256 +
        l.getD 7 0) * 256 + l.getD 8 0) * 256 + l.getD 9 0) * 256 + l.getD 10 0) * 256 +
        l.getD 11 0) * 256 + l.getD 12 0) * 256 + l.getD 13 0) * 256 + l.getD 14 0) * 256 +
        l.getD 15 0)) := by
    simp only [val128, List.range_succ, List.range_zero, List.nil_append, List.foldl_append,
      List.foldl_cons, List.foldl_nil]
  have s0 : bitval l 8 = bitval l 0 + 1 * byte_value (l.getD 15 0) := bitval_step8 l 0
  have s1 : bitval l 16 = bitval l 8 + 256 * byte_value (l.getD 14 0) := bitval_step8 l 1
  have s2 : bitval l 24 = bitval l 16 + 65536 * byte_value (l.getD 13 0) := bitval_step8 l 2
  have s3 : bitval l 32 = bitval l 24 + 16777216 * byte_value (l.getD 12 0) :=
    bitval_step8 l 3
  have s4 : bitval l 40 = bitval l 32 + 4294967296 * byte_value (l.getD 11 0) :=
    bitval_step8 l 4
  have s5 : bitval l 48 = bitval l 40 + 1099511627776 * byte_value (l.getD 10 0) :=
    bitval_step8 l 5
  have s6 : bitval l 56 = bitval l 48 + 281474976710656 * byte_value (l.getD 9 0) :=
    bitval_step8 l 6
  have s7 : bitval l 64 = bitval l 56 + 72057594037927936 * byte_value (l.getD 8 0) :=
    bitval_step8 l 7
  have s8 : bitval l 72 = bitval l 64 + 18446744073709551616 * byte_value (l.getD 7 0) :=
    bitval_step8 l 8
  have s9 : bitval l 80 =
      bitval l 72 + 4722366482869645213696 * byte_value (l.getD 6 0) := bitval_step8 l 9
  have s10 : bitval l 88 =
      bitval l 80 + 1208925819614629174706176 * byte_value (l.getD 5 0) := bitval_step8 l 10
  have s11 : bitval l 96 =
      bitval l 88 + 309485009821345068724781056 * byte_value (l.getD 4 0) :=
    bitval_step8 l 11
  have s12 : bitval l 104 =
      bitval l 96 + 79228162514264337593543950336 * byte_value (l.getD 3 0) :=
    bitval_step8 l 12
  have s13 : bitval l 112 =
      bitval l 104 + 20282409603651670423947251286016 * byte_value (l.getD 2 0) :=
    bitval_step8 l 13
  have s14 : bitval l 120 =
      bitval l 112 + 5192296858534827628530496329220096 * byte_value (l.getD 1 0) :=
    bitval_step8 l 14
  have s15 : bitval l 128 =
      bitval l 120 + 1329227995784915872903807060280344576 * byte_value (l.getD 0 0) :=
    bitval_step8 l 15
  have z : bitval l 0 = 0 := rfl
  rw [hb] at s0 s1 s2 s3 s4 s5 s6 s7 s8 s9 s10 s11 s12 s13 s14 s15
  omega

theorem bitval_or_mono (addr mask c1 c2 : List Nat)
    (hz : ∀ p < 128, bitAt addr p = true → bitAt mask p = true)
    (h1 : masked0 mask c1) (h2 : masked0 mask c2) (n : Nat) (hn : n ≤ 128) :
    (squeeze mask c1 n < squeeze mask c2 n →
      bitval (or16 addr c1) n < bitval (or16 addr c2) n) ∧
    (squeeze mask c1 n = squeeze mask c2 n →
      bitval (or16 addr c1) n = bitval (or16 addr c2) n) := by
  induction n with
  | zero => exact ⟨fun h => absurd h (lt_irrefl _), fun _ => rfl⟩
  | succ n ih =>
    have hn2 : n < 128 := by omega
    obtain ⟨ih1, ih2⟩ := ih (by omega)
    have b1 := squeeze_lt mask c1 n
    have b2 := squeeze_lt mask c2 n
    have v1 := bitval_lt (or16 addr c1) n
    have v2 := bitval_lt (or16 addr c2) n
    have fz := hz n hn2
    have f1 := h1 n hn2
    have f2 := h2 n hn2
    rw [squeeze_succ, squeeze_succ, bitval_succ, bitval_succ, bitAt_or16 _ _ n hn2,
      bitAt_or16 _ _ n hn2]
    revert fz f1 f2
    generalize bitAt addr n = a
    generalize bitAt mask n = m
    generalize bitAt c1 n = x1
    generalize bitAt c2 n = x2
    intro fz f1 f2
    have hP : 0 < 2 ^ nvar mask n := Nat.two_pow_pos _
    have hQ : 0 < 2 ^ n := Nat.two_pow_pos _
    cases a <;> cases m <;> cases x1 <;> cases x2 <;>
      simp only [Bool.not_true, Bool.not_false, Bool.and_true, Bool.and_false, Bool.true_and,
        Bool.false_and, Bool.or_true, Bool.or_false, Bool.true_or, Bool.false_or, if_true,
        if_false, Bool.false_eq_true, Nat.add_zero, forall_const, imp_false, not_true,
        Bool.true_eq_false, false_implies, forall_true_left] at fz f1 f2 ⊢ <;>
      first
        | exact ⟨ih1, ih2⟩
        | (constructor <;> intro h <;> omega)

theorem emitted_ascending (s : targetspec) (ha : wf16 s.addr)
    (hz : andnot16 s.addr s.mask = zero16) :
    List.Pairwise (fun a b => val128 a < val128 b)
      (next_addr_iter (2 ^ nvar s.mask 128) (new_target s)).2 := by
  have hz2 : ∀ p < 128, bitAt s.addr p = true → bitAt s.mask p = true := by
    intro p hp h
    have e := bitAt_andnot16 s.addr s.mask p hp
    rw [hz, bitAt_zero16, h] at e
    cases hm : bitAt s.mask p
    · rw [hm] at e; simp at e
    · rfl
  rw [next_addr_iter_emitted, List.pairwise_map, new_target_spec]
  refine List.Pairwise.imp_of_mem ?_ (List.pairwise_lt_range _)
  intro i j hi hj hij
  have hi2 := List.mem_range.1 hi
  have hj2 := List.mem_range.1 hj
  have ti := target_inv_iter i (new_target s) (target_inv_new s)
  have tj := target_inv_iter j (new_target s) (target_inv_new s)
  have ci := (iter_count s i hi2).1
  have cj := (iter_count s j hj2).1
  rw [val128_eq_bitval _ (wf16_or16 _ _ ha ti.1), val128_eq_bitval _ (wf16_or16 _ _ ha tj.1)]
  have hs : (next_addr_iter i (new_target s)).1.spec.mask = s.mask := by
    rw [next_addr_iter_spec, new_target_spec]
  have hs2 : (next_addr_iter j (new_target s)).1.spec.mask = s.mask := by
    rw [next_addr_iter_spec, new_target_spec]
  refine (bitval_or_mono s.addr s.mask _ _ hz2 (hs ▸ ti.2) (hs2 ▸ tj.2) 128 (le_refl _)).1 ?_
  rw [ci, cj]
  exact hij

/-- C20: `next_addr` refines the increment of the squeezed counter. For a target that is
not done, with `cur & mask == 0`, `k` varying bits and squeezed value `s` of `cur`:
`next_addr` emits `addr | cur`; the new squeezed value and `done` are those of the counter
of the specification (`s + 1` and clear if `s < 2^k - 1`; 0 and set if `s = 2^k - 1`, which
includes `k = 0`); `cur & mask == 0` still holds, and `cur` is 0 again when `done` is set.
With `addr & ~mask == 0` the `2^k` addresses of the target are emitted in strictly
ascending order of their 128-bit values. -/
theorem C20_next_addr_refines_increment (t : targetstate) (hc : wf16 t.cur)
    (hm : wf16 t.spec.mask) (h0 : and16 t.cur t.spec.mask = zero16) (hd : t.done = false) :
    (next_addr t).2 = or16 t.spec.addr t.cur ∧
    squeeze t.spec.mask t.cur 128 < 2 ^ varying_bits t.spec.mask ∧
    (squeeze t.spec.mask (next_addr t).1.cur 128, (next_addr t).1.done) =
      squeezed_increment (varying_bits t.spec.mask) (squeeze t.spec.mask t.cur 128) ∧
    and16 (next_addr t).1.cur t.spec.mask = zero16 ∧
    ((next_addr t).1.done = true → (next_addr t).1.cur = zero16) ∧
    (wf16 t.spec.addr → andnot16 t.spec.addr t.spec.mask = zero16 →
      List.Pairwise (fun a b => val128 a < val128 b)
        (next_addr_iter (2 ^ varying_bits t.spec.mask) (new_target t.spec)).2) := by
  have hk := varying_bits_eq t.spec.mask hm
  have hmsk : masked0 t.spec.mask t.cur := (masked0_iff _ _ hc).2 h0
  obtain ⟨w1, w2, _, w4, _, w6⟩ := next_addr_spec t hc
  have hmsk2 := masked0_next_addr t hc hmsk
  have hlt := squeeze_lt t.spec.mask t.cur 128
  rw [hk]
  refine ⟨w4, hlt, ?_, (masked0_iff _ _ w1).1 hmsk2, ?_, fun ha hz => emitted_ascending _ ha hz⟩
  · unfold squeezed_increment
    rcases w6 with ⟨a, b, c⟩ | ⟨a, b, c⟩
    · rw [if_pos a, b, c, hd]
    · rw [if_neg (by omega), b, c]
  · intro hdone
    rcases w6 with ⟨_, _, c⟩ | ⟨_, b, _⟩
    · rw [c, hd] at hdone
      exact absurd hdone (by decide)
    · exact squeeze_eq_zero _ _ w1 hmsk2 b

set_option maxRecDepth 100000 in
/-- Witness for C20: the target stored for `2001:db8::/126`. -/
theorem C20_next_addr_refines_increment_witness :
    wf16 (new_target { addr := ex_addr_db8, mask := ex_mask_126 }).cur ∧
    (next_addr (new_target { addr := ex_addr_db8, mask := ex_mask_126 })).2 = ex_addr_db8 ∧
    (squeeze ex_mask_126
        (next_addr (new_target { addr := ex_addr_db8, mask := ex_mask_126 })).1.cur 128,
      (next_addr (new_target { addr := ex_addr_db8, mask := ex_mask_126 })).1.done) =
      squeezed_increment (varying_bits ex_mask_126) 0 :=
  ⟨by decide,
    (C20_next_addr_refines_increment (new_target { addr := ex_addr_db8, mask := ex_mask_126 })
      (by decide) (by decide) (by decide) rfl).1.trans (by decide),
    (C20_next_addr_refines_increment (new_target { addr := ex_addr_db8, mask := ex_mask_126 })
      (by decide) (by decide) (by decide) rfl).2.2.1.trans (by decide)⟩


/-! ## Streamed targets -/

theorem fgets_loop_line (l rest : List Char) (hl : Char.ofNat 10 ∉ l) :
    ∀ n, l.length < n → fgets_loop n (l ++ Char.ofNat 10 :: rest) = (l ++ [Char.ofNat 10], rest) := by
  induction l with
  | nil =>
    intro n hn
    cases n with
    | zero => exact absurd hn (by simp)
    | succ n => simp [fgets_loop]
  | cons c l ih =>
    intro n hn
    cases n with
    | zero => exact absurd hn (by simp)
    | succ n =>
      have hc : c ≠ Char.ofNat 10 := fun h => hl (by rw [h]; exact List.mem_cons_self _ _)
      have hl2 : Char.ofNat 10 ∉ l := fun h => hl (List.mem_cons_of_mem _ h)
      have hn2 : l.length < n := by simp only [List.length_cons] at hn; omega
      have e := ih hl2 n hn2
      show fgets_loop (n + 1) (c :: (l ++ Char.ofNat 10 :: rest)) = _
      rw [fgets_loop, if_neg hc, e]
      rfl

theorem fgets_loop_last (l : List Char) (hl : Char.ofNat 10 ∉ l) :
    ∀ n, l.length ≤ n → fgets_loop n l = (l, []) := by
  induction l with
  | nil =>
    intro n _
    cases n <;> simp [fgets_loop]
  | cons c l ih =>
    intro n hn
    cases n with
    | zero => exact absurd hn (by simp)
    | succ n =>
      have hc : c ≠ Char.ofNat 10 := fun h => hl (by rw [h]; exact List.mem_cons_self _ _)
      have hl2 : Char.ofNat 10 ∉ l := fun h => hl (List.mem_cons_of_mem _ h)
      have hn2 : l.length ≤ n := by simp only [List.length_cons] at hn; omega
      simp only [fgets_loop, if_neg hc, ih hl2 n hn2]

theorem proper_chunks_of (ls : List (List Char)) (last : List Char)
    (hls : ∀ l ∈ ls, Char.ofNat 10 ∉ l ∧ l.length ≤ 126)
    (hlast : Char.ofNat 10 ∉ last ∧ last.length ≤ 127) :
    proper_chunks (chunks_of ls last) := by
  induction ls with
  | nil =>
    unfold chunks_of
    by_cases h : last = []
    · simp [h, proper_chunks]
    · simp only [List.map_nil, List.nil_append, if_neg h, proper_chunks, List.flatten_nil,
        List.append_nil, and_true]
      refine ⟨h, ?_⟩
      unfold fgets
      rw [if_neg h, fgets_loop_last last hlast.1 _ (by omega)]
  | cons l ls ih =>
    have h1 := hls l (List.mem_cons_self _ _)
    have ih2 := ih (fun x hx => hls x (List.mem_cons_of_mem _ hx))
    have e : chunks_of (l :: ls) last = (l ++ [Char.ofNat 10]) :: chunks_of ls last := by
      simp [chunks_of]
    rw [e]
    refine ⟨by simp, ?_, ih2⟩
    unfold fgets
    rw [if_neg (by simp), List.append_assoc, List.singleton_append,
      fgets_loop_line l _ h1.1 _ (by omega)]

theorem take_set_succ {α : Type} (l : List α) (a : α) :
    ∀ i, i < l.length → (l.set i a).take (i + 1) = l.take i ++ [a] := by
  induction l with
  | nil => intro i h; exact absurd h (by simp)
  | cons x xs ih =>
    intro i h
    cases i with
    | zero => simp
    | succ i =>
      simp only [List.length_cons] at h
      simp [ih i (by omega)]

theorem proper_chunks_length (chunks : List (List Char)) (h : proper_chunks chunks) :
    chunks.length ≤ chunks.flatten.length := by
  induction chunks with
  | nil => simp
  | cons c rest ih =>
    obtain ⟨h1, _, h3⟩ := h
    have := ih h3
    have hc : 0 < c.length := List.length_pos.2 h1
    simp only [List.length_cons, List.flatten_cons, List.length_append]
    omega

theorem line_addr_eq (E : consts) (c : List Char) :
    line_addr E c =
      if ((E.trim_string c).head? = some (Char.ofNat 35) || (E.trim_string c).head? = none)
          = true
      then none else some (E.parse_ipv6 (E.trim_string c)) := rfl

theorem fill_stream_cons (E : consts) (c : List Char) (rest : List (List Char))
    (cache : List (List Nat)) (cs f : Nat) (hlt : cs < E.TARGET_RANDOMIZE_SIZE)
    (hfg : fgets 128 (c ++ rest.flatten) = some (c, rest.flatten)) :
    fill_stream E (f + 1) (c :: rest).flatten cache cs =
      match line_addr E c with
      | none => fill_stream E f rest.flatten cache cs
      | some none => some (rest.flatten, cache, cs)
      | some (some a) => fill_stream E f rest.flatten (cache.set cs a) (cs + 1) := by
  rw [List.flatten_cons, fill_stream, if_pos hlt, hfg, line_addr_eq]
  dsimp only
  by_cases hcond : ((E.trim_string c).head? = some (Char.ofNat 35) ||
      (E.trim_string c).head? = none) = true
  · rw [if_pos hcond, if_pos hcond]
  · rw [if_neg hcond, if_neg hcond]
    cases E.parse_ipv6 (E.trim_string c) <;> rfl

theorem stream_addrs_cons (E : consts) (c : List Char) (rest : List (List Char)) :
    stream_addrs E (c :: rest) =
      match line_addr E c with
      | some (some a) => a :: stream_addrs E rest
      | _ => stream_addrs E rest := by
  unfold stream_addrs
  rw [List.filterMap_cons]
  cases h : line_addr E c with
  | none => rfl
  | some o => cases o <;> rfl

theorem fill_stream_chunks (E : consts) :
    ∀ (chunks : List (List Char)) (cache : List (List Nat)) (cs fuel : Nat),
      proper_chunks chunks → (∀ c ∈ chunks, line_addr E c ≠ some none) →
      cs ≤ E.TARGET_RANDOMIZE_SIZE → cache.length = E.TARGET_RANDOMIZE_SIZE →
      chunks.length < fuel →
      ∃ chunks2 cache2 k,
        fill_stream E fuel chunks.flatten cache cs = some (chunks2.flatten, cache2, cs + k) ∧
        k = min (E.TARGET_RANDOMIZE_SIZE - cs) (stream_addrs E chunks).length ∧
        proper_chunks chunks2 ∧ (∀ c ∈ chunks2, line_addr E c ≠ some none) ∧
        stream_addrs E chunks2 = (stream_addrs E chunks).drop k ∧
        cache2.length = E.TARGET_RANDOMIZE_SIZE ∧
        cache2.take (cs + k) = cache.take cs ++ (stream_addrs E chunks).take k := by
  intro chunks
  induction chunks with
  | nil =>
    intro cache cs fuel _ _ _ hlen hf
    cases fuel with
    | zero => exact absurd hf (by simp)
    | succ f =>
      refine ⟨[], cache, 0, ?_, by simp [stream_addrs], trivial, by simp,
        by simp [stream_addrs], hlen, by simp [stream_addrs]⟩
      rw [fill_stream]
      simp [fgets]
  | cons c rest ih =>
    intro cache cs fuel hp hv hcs hlen hf
    cases fuel with
    | zero => exact absurd hf (by simp)
    | succ f =>
      obtain ⟨hc, hfg, hp2⟩ := hp
      have hf2 : rest.length < f := by simp only [List.length_cons] at hf; omega
      have hv2 : ∀ x ∈ rest, line_addr E x ≠ some none :=
        fun x hx => hv x (List.mem_cons_of_mem _ hx)
      by_cases hlt : cs < E.TARGET_RANDOMIZE_SIZE
      · rw [fill_stream_cons E c rest cache cs f hlt hfg, stream_addrs_cons]
        cases hl : line_addr E c with
        | none => exact ih cache cs f hp2 hv2 hcs hlen hf2
        | some o =>
          cases o with
          | none => exact absurd hl (hv c (List.mem_cons_self _ _))
          | some a =>
            obtain ⟨chunks2, cache2, k, i1, i2, i3, i4, i5, i6, i7⟩ :=
              ih (cache.set cs a) (cs + 1) f hp2 hv2 (by omega)
                (by rw [List.length_set]; exact hlen) hf2
            refine ⟨chunks2, cache2, k + 1, ?_, ?_, i3, i4, ?_, i6, ?_⟩
            · show fill_stream E f rest.flatten (cache.set cs a) (cs + 1) = _
              rw [i1]
              have e : cs + 1 + k = cs + (k + 1) := by omega
              rw [e]
            · show k + 1 = min _ (a :: stream_addrs E rest).length
              rw [i2, List.length_cons]
              omega
            · show _ = (a :: stream_addrs E rest).drop (k + 1)
              rw [i5]
              rfl
            · show _ = _ ++ (a :: stream_addrs E rest).take (k + 1)
              have e : cs + (k + 1) = cs + 1 + k := by omega
              rw [e, i7, take_set_succ cache a cs (by omega), List.take_succ_cons,
                List.append_assoc]
              rfl
      · have hN : cs = E.TARGET_RANDOMIZE_SIZE := by omega
        refine ⟨c :: rest, cache, 0, ?_, by rw [hN]; simp, ⟨hc, hfg, hp2⟩, hv, by simp,
          hlen, by simp⟩
        rw [fill_stream, if_neg hlt]
        rfl

theorem drop_succ_of_drop {α : Type} (A : List α) (n : Nat) (a : α) (rest : List α)
    (h : A.drop n = a :: rest) : A.drop (n + 1) = rest ∧ A[n]? = some a ∧ n < A.length := by
  have h1 : A.drop (n + 1) = (A.drop n).drop 1 := by rw [List.drop_drop]
  have h2 : A[n]? = (A.drop n)[0]? := by rw [List.getElem?_drop]; rfl
  refine ⟨by rw [h1, h]; rfl, by rw [h2, h]; simp, ?_⟩
  by_contra hc
  rw [List.drop_eq_nil_of_le (by omega)] at h
  exact absurd h (by simp)

theorem target_gen_next_stream (E : consts) (A : List (List Nat)) (n : Nat) (g : gen)
    (hN : 1 ≤ E.TARGET_RANDOMIZE_SIZE) (h : stream_inv E A n g) :
    ∃ res g2, target_gen_next E g = some (res, g2) ∧
      ((A.drop n = [] ∧ res = none ∧ stream_inv E A n g2) ∨
       (∃ a rest, A.drop n = a :: rest ∧ res = some a ∧ stream_inv E A (n + 1) g2)) := by
  obtain ⟨hs, hr, hlen, hi, hsz, chunks, hf, hp, hv, hA⟩ := h
  by_cases he : g.cache_i = g.cache_size
  · have hbuf : (g.cache.take g.cache_size).drop g.cache_i = [] := by
      rw [he]
      exact List.drop_eq_nil_of_le (by rw [List.length_take]; omega)
    rw [hbuf, List.nil_append] at hA
    obtain ⟨chunks2, cache2, k, i1, i2, i3, i4, i5, i6, i7⟩ :=
      fill_stream_chunks E chunks g.cache 0 (g.targets_from.length + 1) hp hv (Nat.zero_le _)
        hlen (by rw [hf]; have := proper_chunks_length chunks hp; omega)
    rw [Nat.zero_add] at i1 i7
    rw [List.take_zero, List.nil_append] at i7
    have hfc : fill_cache E g = some (gen.mk g.randomize g.mode_streaming cache2 0 k
        chunks2.flatten g.targets g.rand_next) := by
      unfold fill_cache
      rw [← hf] at i1
      rw [if_pos hs, i1]
    unfold target_gen_next
    rw [if_pos he, hfc]
    dsimp only
    by_cases hk : k = 0
    · rw [if_pos hk]
      have hS : stream_addrs E chunks = [] := by
        apply List.eq_nil_of_length_eq_zero
        rw [hk] at i2
        omega
      refine ⟨none, _, rfl, Or.inl ⟨by rw [← hA, hS], rfl, ?_⟩⟩
      refine ⟨hs, hr, i6, Nat.zero_le _, by show k ≤ E.TARGET_RANDOMIZE_SIZE; omega,
        chunks2, rfl, i3, i4, ?_⟩
      show (cache2.take k).drop 0 ++ stream_addrs E chunks2 = _
      rw [i5, hk, ← hA, hS]
      simp
    · rw [if_neg hk, if_neg (by rw [hr]; decide)]
      have hk2 : 1 ≤ k := by omega
      cases hS : stream_addrs E chunks with
      | nil => rw [hS] at i2; simp at i2; omega
      | cons a rest =>
        rw [hS] at hA i5 i7
        obtain ⟨d1, _, _⟩ := drop_succ_of_drop A n a rest hA.symm
        have hc0 : cache2.take k = a :: rest.take (k - 1) := by
          rw [i7]
          cases k with
          | zero => omega
          | succ k => rfl
        have hget : cache2.getD 0 [] = a := by
          have hlt : 0 < cache2.length := by omega
          rw [List.getD_eq_getElem _ _ hlt]
          have e : (cache2.take k)[0]? = some a := by rw [hc0]; simp
          rw [List.getElem?_take_of_lt (by omega)] at e
          rw [List.getElem?_eq_getElem hlt] at e
          exact Option.some.inj e
        refine ⟨some a, _, by rw [hget], Or.inr ⟨a, rest, hA.symm, rfl, ?_⟩⟩
        refine ⟨hs, hr, i6, hk2, by show k ≤ E.TARGET_RANDOMIZE_SIZE; omega,
          chunks2, rfl, i3, i4, ?_⟩
        show (cache2.take k).drop 1 ++ stream_addrs E chunks2 = _
        rw [i5, d1, hc0]
        show rest.take (k - 1) ++ (a :: rest).drop k = rest
        cases k with
        | zero => omega
        | succ k => exact List.take_append_drop k rest
  · rw [target_gen_next_cached E g he]
    have hlt : g.cache_i < g.cache_size := by omega
    have hl1 : g.cache_i < (g.cache.take g.cache_size).length := by
      rw [List.length_take]; omega
    have hl2 : g.cache_i < g.cache.length := by omega
    rw [List.drop_eq_getElem_cons hl1, List.getElem_take, List.cons_append] at hA
    obtain ⟨d1, _, _⟩ := drop_succ_of_drop A n _ _ hA.symm
    refine ⟨_, _, rfl, Or.inr ⟨g.cache[g.cache_i], _, hA.symm,
      by rw [List.getD_eq_getElem _ _ hl2], ?_⟩⟩
    exact ⟨hs, hr, hlen, hlt, hsz, chunks, hf, hp, hv, by rw [d1]⟩

theorem gen_calls_stream (E : consts) (A : List (List Nat)) (g0 : gen)
    (hN : 1 ≤ E.TARGET_RANDOMIZE_SIZE) (h : stream_inv E A 0 g0) :
    ∀ m, ∃ g, gen_calls E m g0 = some (min m A.length, A.take m, g) ∧
      stream_inv E A (min m A.length) g := by
  intro m
  induction m with
  | zero => exact ⟨g0, by simp [gen_calls], by simpa using h⟩
  | succ m ih =>
    obtain ⟨g, hg, hinv⟩ := ih
    rw [gen_calls_succ E g0 m _ _ g hg]
    obtain ⟨res, g2, hn, hcase⟩ := target_gen_next_stream E A _ g hN hinv
    rw [hn]
    rcases hcase with ⟨hd, hres, hinv2⟩ | ⟨a, rest, hd, hres, hinv2⟩
    · have hle : A.length ≤ min m A.length := List.drop_eq_nil_iff.1 hd
      have hle2 : A.length ≤ m := by omega
      have e1 : min (m + 1) A.length = min m A.length := by omega
      rw [hres, e1]
      refine ⟨g2, ?_, hinv2⟩
      rw [List.take_of_length_le hle2, List.take_of_length_le (by omega)]
    · obtain ⟨_, d2, d3⟩ := drop_succ_of_drop A _ a rest hd
      have hm : min m A.length = m := by omega
      have e1 : min (m + 1) A.length = m + 1 := by omega
      rw [hm] at d2 hinv2 ⊢
      rw [hres, e1]
      refine ⟨g2, ?_, hinv2⟩
      rw [List.take_succ, d2]
      rfl

theorem stream_inv_start (E : consts) (r : Nat → Nat) (ls : List (List Char))
    (last : List Char)
    (hls : ∀ l ∈ ls, Char.ofNat 10 ∉ l ∧ l.length ≤ 126)
    (hlast : Char.ofNat 10 ∉ last ∧ last.length ≤ 127)
    (hvalid : ∀ c ∈ chunks_of ls last, line_addr E c ≠ some none) :
    stream_inv E (stream_addrs E (chunks_of ls last)) 0
      (gen_stream E r (stream_of ls last)) := by
  refine ⟨rfl, rfl, ?_, le_refl _, Nat.zero_le _, chunks_of ls last, rfl,
    proper_chunks_of ls last hls hlast, hvalid, ?_⟩
  · show (List.replicate E.TARGET_RANDOMIZE_SIZE (List.replicate 16 0)).length = _
    rw [List.length_replicate]
  · show (List.take 0 _).drop 0 ++ _ = _
    simp

/-- C16, as amended: in streaming mode with randomization off, for every input stream in
which every line, comment lines and blank lines included, fits the 128-byte line buffer
together with its newline (at most 126 characters before the newline, at most 127 after
the last newline) and in which each line that is non-empty and not a `#` comment after
trimming is a valid IPv6 literal: every `target_gen_next` call returns, the successive
calls return exactly the parsed addresses of those lines, each once and in file order,
across the cache refills of at most `TARGET_RANDOMIZE_SIZE` entries, and every call after
that reports "no more". -/
theorem C16_stream_in_order (E : consts) (r : Nat → Nat) (ls : List (List Char))
    (last : List Char) (hN : 1 ≤ E.TARGET_RANDOMIZE_SIZE)
    (hls : ∀ l ∈ ls, Char.ofNat 10 ∉ l ∧ l.length ≤ 126)
    (hlast : Char.ofNat 10 ∉ last ∧ last.length ≤ 127)
    (hvalid : ∀ c ∈ chunks_of ls last, line_addr E c ≠ some none) (m : Nat) :
    ∃ g, gen_calls E m (gen_stream E r (stream_of ls last)) =
        some (min m (stream_addrs E (chunks_of ls last)).length,
          (stream_addrs E (chunks_of ls last)).take m, g) ∧
      ((stream_addrs E (chunks_of ls last)).length ≤ m →
        ∃ g2, target_gen_next E g = some (none, g2)) := by
  obtain ⟨g, h1, h2⟩ := gen_calls_stream E _ _ hN (stream_inv_start E r ls last hls hlast hvalid) m
  refine ⟨g, h1, fun hm => ?_⟩
  obtain ⟨res, g2, h3, h4⟩ := target_gen_next_stream E _ _ g hN h2
  rcases h4 with ⟨_, hres, _⟩ | ⟨a, rest, hd, _, _⟩
  · exact ⟨g2, by rw [h3, hres]⟩
  · exfalso
    rw [List.drop_eq_nil_of_le (by omega)] at hd
    exact absurd hd (by simp)

set_option maxRecDepth 1000000 in
/-- Witness for C16: a stream of the lines `::1`, `# x`, an empty line and ` ::1` followed by
a carriage return, and then `::1` without a newline at the end of the file: the first three
calls return `::1`, the fourth reports "no more". -/
theorem C16_stream_in_order_witness :
    ∃ g, gen_calls ex_stream_consts 4 (gen_stream ex_stream_consts (fun _ => 0)
        (stream_of [ex_line_one, ['#', ' ', 'x'], [], [' ', ':', ':', '1', Char.ofNat 13]]
          ex_line_one)) =
        some (3, [[0, 0, 0, 0, 0, 0, 0, 0, 0, 0, 0, 0, 0, 0, 0, 1],
          [0, 0, 0, 0, 0, 0, 0, 0, 0, 0, 0, 0, 0, 0, 0, 1],
          [0, 0, 0, 0, 0, 0, 0, 0, 0, 0, 0, 0, 0, 0, 0, 1]], g) ∧
      (3 ≤ 4 → ∃ g2, target_gen_next ex_stream_consts g = some (none, g2)) :=
  C16_stream_in_order ex_stream_consts (fun _ => 0)
    [ex_line_one, ['#', ' ', 'x'], [], [' ', ':', ':', '1', Char.ofNat 13]] ex_line_one
    (by decide) (by decide) (by decide) (by decide) 4

set_option maxRecDepth 1000000 in
/-- Counterexample to C16 as stated: a stream of two lines, a `#` comment of 128 characters
and the line `::1`. Every line that is not a comment is a valid literal shorter than the
line buffer, but `fgets` reads the comment in two pieces, the second piece does not parse,
and the first `target_gen_next` call reports "no more" instead of returning `::1`. -/
theorem C16_counterexample :
    line_addr ex_stream_consts (ex_long_comment ++ [Char.ofNat 10]) = none ∧
    line_addr ex_stream_consts (ex_line_one ++ [Char.ofNat 10]) =
      some (some [0, 0, 0, 0, 0, 0, 0, 0, 0, 0, 0, 0, 0, 0, 0, 1]) ∧
    (gen_calls ex_stream_consts 1 (gen_stream ex_stream_consts (fun _ => 0)
        (stream_of [ex_long_comment, ex_line_one] []))).map (fun r => (r.1, r.2.1)) =
      some (0, []) := by
  decide


/-! ## `shuffle` -/

theorem shuffle_loop_swaps {α : Type} (i : Nat) :
    ∀ (buf : List α) (r : Nat → Nat),
      (shuffle_loop i buf r).1 =
        (shuffle_swaps i r).foldl (fun b p => swap_at b p.1 p.2) buf := by
  induction i with
  | zero => intro buf r; rfl
  | succ i ih =>
    intro buf r
    rw [shuffle_loop, shuffle_swaps, List.foldl_cons, ih]
    rfl

theorem shuffle_swaps_range (i : Nat) :
    ∀ (r : Nat → Nat), ∀ p ∈ shuffle_swaps i r, p.1 ≤ p.2 ∧ 1 ≤ p.2 ∧ p.2 ≤ i := by
  induction i with
  | zero => intro r p hp; simp [shuffle_swaps] at hp
  | succ i ih =>
    intro r p hp
    rw [shuffle_swaps, List.mem_cons] at hp
    rcases hp with hp | hp
    · rw [hp]
      have : (rand r).1 % (i + 1 + 1) < i + 1 + 1 := Nat.mod_lt _ (by omega)
      exact ⟨by show (rand r).1 % (i + 1 + 1) ≤ i + 1; omega, by show 1 ≤ i + 1; omega,
        le_refl _⟩
    · obtain ⟨h1, h2, h3⟩ := ih _ p hp
      exact ⟨h1, h2, by omega⟩

theorem swap_at_drop {α : Type} (buf : List α) (j i n : Nat) (hj : j < n) (hi : i < n) :
    (swap_at buf j i).drop n = buf.drop n := by
  unfold swap_at
  split
  · rw [List.drop_set_of_lt _ _ hi, List.drop_set_of_lt _ _ hj]
  · rfl

theorem swap_at_take {α : Type} (buf : List α) (j i n : Nat) (hj : j < n) (hi : i < n) :
    ((swap_at buf j i).take n).Perm (buf.take n) := by
  unfold swap_at
  split
  · rename_i tmp bi h1 h2
    rw [List.set_take, List.set_take]
    apply swap_perm
    · rw [List.getElem?_take_of_lt hj]; exact h1
    · rw [List.getElem?_take_of_lt hi]; exact h2
  · exact List.Perm.refl _

theorem swaps_drop_take {α : Type} (n : Nat) (ps : List (Nat × Nat)) :
    ∀ (buf : List α), (∀ p ∈ ps, p.1 < n ∧ p.2 < n) →
      (ps.foldl (fun b p => swap_at b p.1 p.2) buf).drop n = buf.drop n ∧
      ((ps.foldl (fun b p => swap_at b p.1 p.2) buf).take n).Perm (buf.take n) := by
  induction ps with
  | nil => intro buf _; exact ⟨rfl, List.Perm.refl _⟩
  | cons p ps ih =>
    intro buf h
    obtain ⟨h1, h2⟩ := h p (List.mem_cons_self _ _)
    obtain ⟨i1, i2⟩ := ih (swap_at buf p.1 p.2) (fun q hq => h q (List.mem_cons_of_mem _ hq))
    rw [List.foldl_cons]
    exact ⟨i1.trans (swap_at_drop buf _ _ n h1 h2), i2.trans (swap_at_take buf _ _ n h1 h2)⟩

/-- C22: for a buffer of `n` elements of any kind and every sequence of `rand()` outcomes,
`shuffle` is the succession of the exchanges of elements `j` and `i` with
`0 <= j <= i <= n-1`; it leaves the buffer a permutation of its input, of the same length,
and touches no element beyond the first `n`; for `n <= 1` the buffer is unchanged. -/
theorem C22_shuffle_permutation {α : Type} (r : Nat → Nat) (buf : List α) (n : Nat) :
    (shuffle r buf n).1 =
      (shuffle_swaps (n - 1) r).foldl (fun b p => swap_at b p.1 p.2) buf ∧
    (∀ p ∈ shuffle_swaps (n - 1) r, p.1 ≤ p.2 ∧ p.2 ≤ n - 1 ∧ p.2 < n) ∧
    (shuffle r buf n).1.Perm buf ∧ (shuffle r buf n).1.length = buf.length ∧
    (shuffle r buf n).1.drop n = buf.drop n ∧
    ((shuffle r buf n).1.take n).Perm (buf.take n) ∧
    (n ≤ 1 → (shuffle r buf n).1 = buf) := by
  have hs := shuffle_loop_swaps (n - 1) buf r
  have hr := shuffle_swaps_range (n - 1) r
  have hr2 : ∀ p ∈ shuffle_swaps (n - 1) r, p.1 < n ∧ p.2 < n := by
    intro p hp
    obtain ⟨h1, h2, h3⟩ := hr p hp
    omega
  obtain ⟨d1, d2⟩ := swaps_drop_take n (shuffle_swaps (n - 1) r) buf hr2
  refine ⟨hs, ?_, shuffle_perm r buf n, (shuffle_perm r buf n).length_eq, ?_, ?_, ?_⟩
  · intro p hp
    obtain ⟨h1, h2, h3⟩ := hr p hp
    exact ⟨h1, h3, by omega⟩
  · show (shuffle_loop (n - 1) buf r).1.drop n = _
    rw [hs]; exact d1
  · show ((shuffle_loop (n - 1) buf r).1.take n).Perm _
    rw [hs]; exact d2
  · intro hn
    have e : n - 1 = 0 := by omega
    show (shuffle_loop (n - 1) buf r).1 = buf
    rw [e]
    rfl

/-! ## The UDP banner -/

/-- C24: with banners enabled, for a captured UDP frame of length `len >= H`, where `H` is
the Ethernet+IPv6+UDP header size (`len` is an `int`), `recv_handler_udp` emits no event
when `len == H`, and otherwise exactly one event, a banner event; the number of bytes
copied to the buffer `temp` is `min(len - H, BANNER_MAX_LENGTH)`, which never exceeds the
`BANNER_MAX_LENGTH` bytes of the buffer, and when the output is raw the payload of the
event is these first bytes of the datagram payload, unchanged. -/
theorem C24_udp_banner (C : scanconsts) (c : scan) (ts : Nat) (len : Int)
    (packet : rx_packet) (src : List Nat) (hb : c.banners ≠ 0)
    (hlen : ((C.FRAME_ETH_SIZE + C.FRAME_IP_SIZE + C.UDP_HEADER_SIZE : Nat) : Int) ≤ len)
    (hint : len < 2 ^ 31) :
    (len = ((C.FRAME_ETH_SIZE + C.FRAME_IP_SIZE + C.UDP_HEADER_SIZE : Nat) : Int) →
      recv_handler_udp C c ts len packet src = []) ∧
    (len ≠ ((C.FRAME_ETH_SIZE + C.FRAME_IP_SIZE + C.UDP_HEADER_SIZE : Nat) : Int) →
      ∃ data, recv_handler_udp C c ts len packet src =
          [event.banner ts src out_proto.UDP packet.v data] ∧
        (c.raw = true →
          data = packet.udp_data.take
            (min (len - ((C.FRAME_ETH_SIZE + C.FRAME_IP_SIZE + C.UDP_HEADER_SIZE : Nat) : Int)).toNat
              C.BANNER_MAX_LENGTH) ∧
          data.length ≤ C.BANNER_MAX_LENGTH) ∧
        (c.raw = false →
          data = C.banner_postprocess C.IP_TYPE_UDP packet.v
            (packet.udp_data.take
              (min (len - ((C.FRAME_ETH_SIZE + C.FRAME_IP_SIZE + C.UDP_HEADER_SIZE : Nat) : Int)).toNat
                C.BANNER_MAX_LENGTH)))) ∧
    min (len - ((C.FRAME_ETH_SIZE + C.FRAME_IP_SIZE + C.UDP_HEADER_SIZE : Nat) : Int)).toNat
      C.BANNER_MAX_LENGTH ≤ C.BANNER_MAX_LENGTH := by
  have h1 : ¬ len < C.FRAME_ETH_SIZE + C.FRAME_IP_SIZE + C.UDP_HEADER_SIZE := by
    push_cast at hlen; omega
  have hmod : ((len - ((C.FRAME_ETH_SIZE + C.FRAME_IP_SIZE + C.UDP_HEADER_SIZE : Nat) : Int))
      % 2 ^ 32).toNat =
      (len - ((C.FRAME_ETH_SIZE + C.FRAME_IP_SIZE + C.UDP_HEADER_SIZE : Nat) : Int)).toNat := by
    rw [Int.emod_eq_of_lt (by omega) (by omega)]
  refine ⟨?_, ?_, Nat.min_le_right _ _⟩
  · intro he
    unfold recv_handler_udp
    rw [if_neg h1, if_neg hb]
    dsimp only
    rw [hmod, if_pos (by rw [he]; simp)]
  · intro hne
    unfold recv_handler_udp
    rw [if_neg h1, if_neg hb]
    dsimp only
    rw [hmod, if_neg (by omega)]
    generalize hP : (len - ((C.FRAME_ETH_SIZE + C.FRAME_IP_SIZE + C.UDP_HEADER_SIZE : Nat) : Int)).toNat = P
    have hmin : (if P > C.BANNER_MAX_LENGTH then C.BANNER_MAX_LENGTH else P) =
        min P C.BANNER_MAX_LENGTH := by
      by_cases hp : P > C.BANNER_MAX_LENGTH
      · rw [if_pos hp]; omega
      · rw [if_neg hp]; omega
    rw [hmin]
    refine ⟨_, rfl, ?_, ?_⟩
    · intro hraw
      rw [hraw]
      refine ⟨rfl, ?_⟩
      show (packet.udp_data.take (min P C.BANNER_MAX_LENGTH)).length ≤ _
      rw [List.length_take]
      omega
    · intro hraw
      rw [hraw]
      rfl

set_option maxRecDepth 100000 in
/-- Witness for C24: with banners enabled and raw output, a frame of 14+40+8+3 bytes with
the payload 1, 2, 3 gives one banner event with these three bytes, and a frame of 62 bytes
gives no event. -/
theorem C24_udp_banner_witness :
    recv_handler_udp ex_scanconsts { ex_scan with banners := 1, raw := true } 7 62
      (ex_rx false false false []) ex_addr_db8 = [] ∧
    recv_handler_udp ex_scanconsts { ex_scan with banners := 1, raw := true } 7 65
      (ex_rx false false false [1, 2, 3]) ex_addr_db8 =
      [event.banner 7 ex_addr_db8 out_proto.UDP 80 [1, 2, 3]] :=
  ⟨(C24_udp_banner ex_scanconsts { ex_scan with banners := 1, raw := true } 7 62
      (ex_rx false false false []) ex_addr_db8 (by decide) (by decide) (by decide)).1
      (by decide),
    by
      obtain ⟨data, h1, h2, _⟩ :=
        (C24_udp_banner ex_scanconsts { ex_scan with banners := 1, raw := true } 7 65
          (ex_rx false false false [1, 2, 3]) ex_addr_db8 (by decide) (by decide)
          (by decide)).2.1 (by decide)
      rw [h1, (h2 rfl).1]
      rfl⟩

/-! ## A line of the stream that does not parse -/

set_option maxRecDepth 1000000 in
/-- C25, which the code does not meet: for the stream of the three lines `::1`, `bad`,
`::1` the first refill stops at the line that does not parse, with one address cached; the
first `target_gen_next` call returns it, and the second call refills from the line after
`bad` and hands out the address of the third line. When the line that does not parse comes
first in its refill, as in the stream `bad`, `::1`, the first call reports "no more". -/
theorem C25_generation_resumes_after_bad_line :
    line_addr ex_stream_consts (ex_line_bad ++ [Char.ofNat 10]) = some none ∧
    (fill_cache ex_stream_consts (gen_stream ex_stream_consts (fun _ => 0)
        (stream_of [ex_line_one, ex_line_bad, ex_line_one] []))).map
        (fun g => (g.cache_size, g.targets_from)) =
      some (1, stream_of [ex_line_one] []) ∧
    (gen_calls ex_stream_consts 2 (gen_stream ex_stream_consts (fun _ => 0)
        (stream_of [ex_line_one, ex_line_bad, ex_line_one] []))).map
        (fun q => (q.1, q.2.1)) =
      some (2, [[0, 0, 0, 0, 0, 0, 0, 0, 0, 0, 0, 0, 0, 0, 0, 1],
        [0, 0, 0, 0, 0, 0, 0, 0, 0, 0, 0, 0, 0, 0, 0, 1]]) ∧
    (gen_calls ex_stream_consts 1 (gen_stream ex_stream_consts (fun _ => 0)
        (stream_of [ex_line_bad, ex_line_one] []))).map (fun q => (q.1, q.2.1)) =
      some (0, []) := by
  decide


/-! ## The delays of `target_gen_finish_add` -/

theorem finish_add_max_foldl (ts : List targetstate) :
    ∀ m0 : Nat,
      m0 ≤ ts.foldl (fun max t => if (progress_single t 0 0).1 > max
        then (progress_single t 0 0).1 else max) m0 ∧
      (∀ t ∈ ts, (progress_single t 0 0).1 ≤ ts.foldl (fun max t =>
        if (progress_single t 0 0).1 > max then (progress_single t 0 0).1 else max) m0) ∧
      (ts.foldl (fun max t => if (progress_single t 0 0).1 > max
          then (progress_single t 0 0).1 else max) m0 = m0 ∨
        ∃ t ∈ ts, (progress_single t 0 0).1 = ts.foldl (fun max t =>
          if (progress_single t 0 0).1 > max then (progress_single t 0 0).1 else max) m0) := by
  induction ts with
  | nil => intro m0; exact ⟨le_refl _, fun t ht => absurd ht (List.not_mem_nil _), Or.inl rfl⟩
  | cons t ts ih =>
    intro m0
    rw [List.foldl_cons]
    obtain ⟨i1, i2, i3⟩ := ih (if (progress_single t 0 0).1 > m0
      then (progress_single t 0 0).1 else m0)
    refine ⟨?_, ?_, ?_⟩
    · refine le_trans ?_ i1
      split_ifs <;> omega
    · intro x hx
      rcases List.mem_cons.1 hx with hx | hx
      · rw [hx]
        refine le_trans ?_ i1
        split_ifs <;> omega
      · exact i2 x hx
    · rcases i3 with h | ⟨x, hx, h⟩
      · by_cases hgt : (progress_single t 0 0).1 > m0
        · rw [if_pos hgt] at h
          exact Or.inr ⟨t, List.mem_cons_self _ _, by rw [if_pos hgt]; exact h.symm⟩
        · rw [if_neg hgt] at h
          left
          rw [if_neg hgt]
          exact h
      · exact Or.inr ⟨x, List.mem_cons_of_mem _ hx, h⟩

theorem progress_total_delay (t : targetstate) (d : Nat) :
    (progress_single { t with delayed_start := d } 0 0).1 = (progress_single t 0 0).1 := by
  rw [progress_single_total, progress_single_total]

theorem finish_add_delays_range (max : Nat) (hmax : max + 1 < 2 ^ 64) :
    ∀ (ts : List targetstate) (r : Nat → Nat),
      (∀ t ∈ ts, (progress_single t 0 0).1 ≤ max ∧ t.delayed_start = 0) →
      ∃ ts2 r2, finish_add_delays max ts r = some (ts2, r2) ∧
        ts2.map (fun t => t.spec) = ts.map (fun t => t.spec) ∧
        ∀ t2 ∈ ts2, ((progress_single t2 0 0).1 = max → t2.delayed_start = 0) ∧
          t2.delayed_start ≤ max - (progress_single t2 0 0).1 := by
  intro ts
  induction ts with
  | nil =>
    intro r _
    exact ⟨[], r, rfl, rfl, fun t ht => absurd ht (List.not_mem_nil _)⟩
  | cons t ts ih =>
    intro r h
    obtain ⟨h1, h2⟩ := h t (List.mem_cons_self _ _)
    have hrest : ∀ x ∈ ts, (progress_single x 0 0).1 ≤ max ∧ x.delayed_start = 0 :=
      fun x hx => h x (List.mem_cons_of_mem _ hx)
    rw [finish_add_delays]
    by_cases he : (progress_single t 0 0).1 = max
    · rw [if_pos he]
      obtain ⟨ts2, r2, i1, i2, i3⟩ := ih r hrest
      rw [i1]
      refine ⟨t :: ts2, r2, rfl, by rw [List.map_cons, List.map_cons, i2], ?_⟩
      intro x hx
      rcases List.mem_cons.1 hx with hx | hx
      · rw [hx]; exact ⟨fun _ => h2, by rw [h2]; exact Nat.zero_le _⟩
      · exact i3 x hx
    · rw [if_neg he, if_pos (by omega)]
      obtain ⟨ts2, r2, i1, i2, i3⟩ := ih (rand64 r).2 hrest
      rw [i1]
      refine ⟨_ :: ts2, r2, rfl, by rw [List.map_cons, List.map_cons, i2], ?_⟩
      intro x hx
      rcases List.mem_cons.1 hx with hx | hx
      · rw [hx, progress_total_delay]
        have e : (max - (progress_single t 0 0).1 + 1) % 2 ^ 64 =
            max - (progress_single t 0 0).1 + 1 := Nat.mod_eq_of_lt (by omega)
        have hlt : (rand64 r).1 % ((max - (progress_single t 0 0).1 + 1) % 2 ^ 64) <
            max - (progress_single t 0 0).1 + 1 := by
          rw [e]; exact Nat.mod_lt _ (by omega)
        exact ⟨fun hc => absurd hc he, by
          show (rand64 r).1 % ((max - (progress_single t 0 0).1 + 1) % 2 ^ 64) ≤ _
          omega⟩
      · exact i3 x hx

/-- C23: after `target_gen_finish_add` on a non-streaming list of at least one target, each
with fewer than 64 varying bits, for every outcome of `rand64()` (and of `rand()`, and with
even spread compiled in or not): the call returns 0, the targets are the specs added, in
some order, every target whose address total `2^k` equals the maximum total `max` has
`delayed_start == 0`, and every target with total `t` has `delayed_start <= max - t`. -/
theorem C23_delays_in_range (E : consts) (r : Nat → Nat) (v : Int) (specs : List targetspec)
    (hne : specs ≠ []) (hwf : ∀ s ∈ specs, wf16 s.mask)
    (hk : ∀ s ∈ specs, varying_bits s.mask < 64) :
    ∃ g mx, target_gen_finish_add E (gen_load E r v specs) = some (0, g) ∧
      (∀ s ∈ specs, 2 ^ varying_bits s.mask ≤ mx) ∧
      (∃ s ∈ specs, 2 ^ varying_bits s.mask = mx) ∧
      (g.targets.map (fun t => t.spec)).Perm specs ∧
      ∀ t ∈ g.targets, (2 ^ varying_bits t.spec.mask = mx → t.delayed_start = 0) ∧
        t.delayed_start ≤ mx - 2 ^ varying_bits t.spec.mask := by
  have htot : ∀ t : targetstate, t.spec ∈ specs →
      (progress_single t 0 0).1 = 2 ^ varying_bits t.spec.mask := by
    intro t ht
    have h1 := hk _ ht
    rw [varying_bits_eq _ (hwf _ ht)] at h1 ⊢
    rw [progress_single_total, if_pos h1]
  have hspec : (specs.map new_target).map (fun t => t.spec) = specs := by
    rw [List.map_map]
    exact List.map_id'' (fun s => rfl) specs
  have hmem : ∀ t ∈ specs.map new_target, t.spec ∈ specs ∧ t.delayed_start = 0 := by
    intro t ht
    obtain ⟨s, hs, rfl⟩ := List.mem_map.1 ht
    exact ⟨hs, rfl⟩
  obtain ⟨_, m2, m3⟩ := finish_add_max_foldl (specs.map new_target) 0
  have hmx : ∃ t ∈ specs.map new_target,
      (progress_single t 0 0).1 = finish_add_max (specs.map new_target) := by
    rcases m3 with h | h
    · obtain ⟨s, rest, hs⟩ := List.exists_cons_of_ne_nil hne
      have hs1 : new_target s ∈ specs.map new_target :=
        List.mem_map.2 ⟨s, by rw [hs]; exact List.mem_cons_self _ _, rfl⟩
      have h3 := m2 _ hs1
      rw [h, htot _ (hmem _ hs1).1] at h3
      have := Nat.two_pow_pos (varying_bits (new_target s).spec.mask)
      omega
    · exact h
  obtain ⟨tm, htm, hmeq⟩ := hmx
  have hmax : finish_add_max (specs.map new_target) + 1 < 2 ^ 64 := by
    rw [← hmeq, htot _ (hmem _ htm).1]
    have h1 := hk _ (hmem _ htm).1
    have : 2 ^ varying_bits tm.spec.mask ≤ 2 ^ 63 :=
      Nat.pow_le_pow_right (by norm_num) (by omega)
    omega
  have hfin : ∀ (ts2 tf : List targetstate),
      ts2.map (fun t => t.spec) = (specs.map new_target).map (fun t => t.spec) →
      (∀ t2 ∈ ts2, ((progress_single t2 0 0).1 = finish_add_max (specs.map new_target) →
          t2.delayed_start = 0) ∧
        t2.delayed_start ≤ finish_add_max (specs.map new_target) - (progress_single t2 0 0).1) →
      tf.Perm ts2 →
      (tf.map (fun t => t.spec)).Perm specs ∧
      ∀ t ∈ tf, (2 ^ varying_bits t.spec.mask = finish_add_max (specs.map new_target) →
          t.delayed_start = 0) ∧
        t.delayed_start ≤ finish_add_max (specs.map new_target) -
          2 ^ varying_bits t.spec.mask := by
    intro ts2 tf h1 h2 h3
    rw [hspec] at h1
    refine ⟨by rw [← h1]; exact h3.map _, ?_⟩
    intro t ht
    have ht2 : t ∈ ts2 := h3.mem_iff.1 ht
    have hts : t.spec ∈ specs := by
      rw [← h1]; exact List.mem_map.2 ⟨t, ht2, rfl⟩
    have := h2 t ht2
    rw [htot t hts] at this
    exact this
  have hlen : ¬ (specs.map new_target).length = 0 := by
    rw [List.length_map]
    exact fun h => hne (List.eq_nil_of_length_eq_zero h)
  have hmx1 : ∀ s ∈ specs, 2 ^ varying_bits s.mask ≤ finish_add_max (specs.map new_target) := by
    intro s hs
    have hs1 : new_target s ∈ specs.map new_target := List.mem_map.2 ⟨s, hs, rfl⟩
    have := m2 _ hs1
    rw [htot _ (hmem _ hs1).1] at this
    exact this
  have hmx2 : ∃ s ∈ specs, 2 ^ varying_bits s.mask = finish_add_max (specs.map new_target) :=
    ⟨tm.spec, (hmem _ htm).1, by rw [← htot _ (hmem _ htm).1]; exact hmeq⟩
  have hspread : ∃ ts2 r2,
      (if E.TARGET_EVEN_SPREAD = true then
        finish_add_delays (finish_add_max (specs.map new_target)) (specs.map new_target) r
      else some (specs.map new_target, r)) = some (ts2, r2) ∧
      ts2.map (fun t => t.spec) = (specs.map new_target).map (fun t => t.spec) ∧
      (∀ t2 ∈ ts2, ((progress_single t2 0 0).1 = finish_add_max (specs.map new_target) →
          t2.delayed_start = 0) ∧
        t2.delayed_start ≤
          finish_add_max (specs.map new_target) - (progress_single t2 0 0).1) := by
    by_cases hE : E.TARGET_EVEN_SPREAD = true
    · rw [if_pos hE]
      exact finish_add_delays_range _ hmax _ r (fun t ht => ⟨m2 t ht, (hmem t ht).2⟩)
    · rw [if_neg hE]
      exact ⟨_, _, rfl, rfl, fun t ht => ⟨fun _ => (hmem t ht).2, by
        rw [(hmem t ht).2]; exact Nat.zero_le _⟩⟩
  obtain ⟨ts2, r2, s1, s2, s3⟩ := hspread
  rw [gen_load_eq]
  unfold target_gen_finish_add
  dsimp only
  rw [if_neg (by decide), if_neg hlen, s1]
  dsimp only
  by_cases hv : decide (v ≠ 0) = true
  · rw [if_pos hv]
    refine ⟨_, _, rfl, hmx1, hmx2, ?_⟩
    exact hfin ts2 _ s2 s3 (shuffle_perm r2 ts2 ts2.length)
  · rw [if_neg hv]
    refine ⟨_, _, rfl, hmx1, hmx2, ?_⟩
    exact hfin ts2 _ s2 s3 (List.Perm.refl _)

set_option maxRecDepth 100000 in
/-- Witness for C23: the specs `2001:db8::/117` and `2001:db9::/128`. -/
theorem C23_delays_in_range_witness :
    [ex_spec_large, ex_spec_small] ≠ [] ∧
    ∃ g mx, target_gen_finish_add ex_consts
        (gen_load ex_consts (fun _ => 2047) 0 [ex_spec_large, ex_spec_small]) = some (0, g) ∧
      (∀ s ∈ [ex_spec_large, ex_spec_small], 2 ^ varying_bits s.mask ≤ mx) ∧
      (∃ s ∈ [ex_spec_large, ex_spec_small], 2 ^ varying_bits s.mask = mx) ∧
      (g.targets.map (fun t => t.spec)).Perm [ex_spec_large, ex_spec_small] ∧
      ∀ t ∈ g.targets, (2 ^ varying_bits t.spec.mask = mx → t.delayed_start = 0) ∧
        t.delayed_start ≤ mx - 2 ^ varying_bits t.spec.mask :=
  ⟨by decide,
    C23_delays_in_range ex_consts (fun _ => 2047) 0 [ex_spec_large, ex_spec_small]
      (by decide) (by decide) (by decide)⟩


/-! ## The cache indices -/

theorem fgets_loop_rest_le : ∀ (n : Nat) (f : List Char), (fgets_loop n f).2.length ≤ f.length := by
  intro n
  induction n with
  | zero => intro f; simp [fgets_loop]
  | succ n ih =>
    intro f
    cases f with
    | nil => simp [fgets_loop]
    | cons c f =>
      rw [fgets_loop]
      by_cases hc : c = Char.ofNat 10
      · rw [if_pos hc]; simp
      · rw [if_neg hc]
        have := ih f
        simp only [List.length_cons]
        omega

theorem fgets_rest_lt (f buf f2 : List Char) (h : fgets 128 f = some (buf, f2)) :
    f2.length < f.length := by
  unfold fgets at h
  cases f with
  | nil => simp at h
  | cons c f =>
    rw [if_neg (by simp)] at h
    have e : f2 = (fgets_loop (128 - 1) (c :: f)).2 := by
      have := Option.some.inj h
      rw [this]
    rw [e]
    show (fgets_loop (126 + 1) (c :: f)).2.length < _
    rw [fgets_loop]
    by_cases hc : c = Char.ofNat 10
    · rw [if_pos hc]; simp
    · rw [if_neg hc]
      have := fgets_loop_rest_le 126 f
      simp only [List.length_cons]
      omega

theorem fill_stream_bounds (E : consts) :
    ∀ (fuel : Nat) (f : List Char) (cache : List (List Nat)) (cs : Nat),
      f.length < fuel → cs ≤ E.TARGET_RANDOMIZE_SIZE →
      cache.length = E.TARGET_RANDOMIZE_SIZE →
      ∃ f2 cache2 cs2 log, fill_stream E fuel f cache cs = some (f2, cache2, cs2) ∧
        cache2.length = E.TARGET_RANDOMIZE_SIZE ∧ cs ≤ cs2 ∧ cs2 ≤ E.TARGET_RANDOMIZE_SIZE ∧
        fill_stream_log E fuel f cs = some log ∧
        (log = List.range' cs (cs2 - cs) ∨
          (cs2 < E.TARGET_RANDOMIZE_SIZE ∧ log = List.range' cs (cs2 - cs + 1))) := by
  intro fuel
  induction fuel with
  | zero => intro f cache cs hf; exact absurd hf (by simp)
  | succ fuel ih =>
    intro f cache cs hf hcs hlen
    rw [fill_stream, fill_stream_log]
    by_cases hlt : cs < E.TARGET_RANDOMIZE_SIZE
    · rw [if_pos hlt, if_pos hlt]
      cases hfg : fgets 128 f with
      | none => exact ⟨f, cache, cs, [], rfl, hlen, le_refl _, hcs, rfl, Or.inl (by simp)⟩
      | some q =>
        obtain ⟨buf, f2⟩ := q
        have hf2 : f2.length < fuel := by
          have := fgets_rest_lt f buf f2 hfg
          omega
        dsimp only
        by_cases hcond : ((E.trim_string buf).head? = some (Char.ofNat 35) ||
            (E.trim_string buf).head? = none) = true
        · rw [if_pos hcond, if_pos hcond]
          exact ih f2 cache cs hf2 hcs hlen
        · rw [if_neg hcond, if_neg hcond]
          cases hp : E.parse_ipv6 (E.trim_string buf) with
          | none =>
            exact ⟨f2, cache, cs, [cs], rfl, hlen, le_refl _, hcs, rfl,
              Or.inr ⟨hlt, by simp⟩⟩
          | some a =>
            obtain ⟨f3, cache3, cs3, log, i1, i2, i3, i4, i5, i6⟩ :=
              ih f2 (cache.set cs a) (cs + 1) hf2 (by omega)
                (by rw [List.length_set]; exact hlen)
            dsimp only
            rw [i1, i5]
            refine ⟨f3, cache3, cs3, cs :: log, rfl, i2, by omega, i4, rfl, ?_⟩
            rcases i6 with h | ⟨h1, h⟩
            · left
              rw [h]
              have e : cs3 - cs = (cs3 - (cs + 1)) + 1 := by omega
              rw [e, List.range'_succ]
            · right
              refine ⟨h1, ?_⟩
              rw [h]
              have e : cs3 - cs + 1 = (cs3 - (cs + 1) + 1) + 1 := by omega
              rw [e, List.range'_succ (cs)]
    · rw [if_neg hlt, if_neg hlt]
      exact ⟨f, cache, cs, [], rfl, hlen, le_refl _, hcs, rfl, Or.inl (by simp)⟩

theorem range_split (a k b : Nat) (h1 : a ≤ k) (h2 : k ≤ b) :
    List.range' a (k - a) ++ List.range' k (b - k) = List.range' a (b - a) := by
  have h := List.range'_append_1 a (k - a) (b - k)
  have e1 : a + (k - a) = k := by omega
  have e2 : k - a + (b - k) = b - a := by omega
  have e3 : b - k + (k - a) = b - a := by omega
  rw [e1] at h
  rw [h]
  first
    | rw [e2]
    | rw [e3]

theorem fill_round_bounds (E : consts) :
    ∀ (ts : List targetstate) (s : fillst),
      s.cache_size < E.TARGET_RANDOMIZE_SIZE → s.cache.length = E.TARGET_RANDOMIZE_SIZE →
      (fill_round E ts s).2.cache.length = E.TARGET_RANDOMIZE_SIZE ∧
      s.cache_size ≤ (fill_round E ts s).2.cache_size ∧
      (fill_round E ts s).2.cache_size ≤ E.TARGET_RANDOMIZE_SIZE ∧
      ((fill_round E ts s).2.out = false →
        (fill_round E ts s).2.cache_size < E.TARGET_RANDOMIZE_SIZE) ∧
      ((fill_round E ts s).2.any = true →
        s.any = true ∨ s.cache_size < (fill_round E ts s).2.cache_size) ∧
      fill_round_log E ts s =
        List.range' s.cache_size ((fill_round E ts s).2.cache_size - s.cache_size) := by
  intro ts
  induction ts with
  | nil =>
    intro s hs hlen
    simp only [fill_round, fill_round_log]
    refine ⟨hlen, le_refl _, le_of_lt hs, fun _ => hs, fun h => Or.inl h, by simp⟩
  | cons t ts ih =>
    intro s hs hlen
    rw [fill_round, fill_round_log]
    by_cases hd : t.done = true
    · rw [if_pos hd, if_pos hd]
      exact ih s hs hlen
    · rw [if_neg hd, if_neg hd]
      by_cases hz : t.delayed_start > 0
      · rw [if_pos hz, if_pos hz]
        exact ih s hs hlen
      · rw [if_neg hz, if_neg hz]
        dsimp only
        by_cases hfull : s.cache_size + 1 = E.TARGET_RANDOMIZE_SIZE
        · rw [if_pos hfull, if_pos hfull]
          dsimp only
          refine ⟨by rw [List.length_set]; exact hlen, by omega, by omega,
            fun h => absurd h (by simp), fun _ => Or.inr (by omega), ?_⟩
          have e : s.cache_size + 1 - s.cache_size = 1 := by omega
          rw [e]
          rfl
        · rw [if_neg hfull, if_neg hfull]
          obtain ⟨i1, i2, i3, i4, i5, i6⟩ := ih
            { cache := s.cache.set s.cache_size (next_addr t).2,
              cache_size := s.cache_size + 1, any := true, out := false }
            (by show s.cache_size + 1 < E.TARGET_RANDOMIZE_SIZE; omega)
            (by show (s.cache.set s.cache_size (next_addr t).2).length = _
                rw [List.length_set]; exact hlen)
          have i2b : s.cache_size + 1 ≤ (fill_round E ts
            { cache := s.cache.set s.cache_size (next_addr t).2,
              cache_size := s.cache_size + 1, any := true, out := false }).2.cache_size := i2
          dsimp only
          refine ⟨i1, by omega, i3, i4, fun _ => Or.inr (by omega), ?_⟩
          rw [i6]
          show s.cache_size :: List.range' (s.cache_size + 1) (_ - (s.cache_size + 1)) = _
          generalize (fill_round E ts
            { cache := s.cache.set s.cache_size (next_addr t).2,
              cache_size := s.cache_size + 1, any := true, out := false }).2.cache_size = k
            at i2b ⊢
          have e : k - s.cache_size = (k - (s.cache_size + 1)) + 1 := by omega
          rw [e, List.range'_succ]

theorem fill_while_bounds (E : consts) :
    ∀ (fuel : Nat) (ts : List targetstate) (s : fillst),
      s.cache_size < E.TARGET_RANDOMIZE_SIZE → s.cache.length = E.TARGET_RANDOMIZE_SIZE →
      E.TARGET_RANDOMIZE_SIZE + 1 ≤ fuel + s.cache_size →
      ∃ r, fill_while E fuel ts s = some r ∧
        r.2.cache.length = E.TARGET_RANDOMIZE_SIZE ∧
        s.cache_size ≤ r.2.cache_size ∧ r.2.cache_size ≤ E.TARGET_RANDOMIZE_SIZE ∧
        fill_while_log E fuel ts s =
          some (List.range' s.cache_size (r.2.cache_size - s.cache_size)) := by
  intro fuel
  induction fuel with
  | zero => intro ts s hs _ hf; omega
  | succ fuel ih =>
    intro ts s hs hlen hf
    obtain ⟨i1, i2, i3, i4, i5, i6⟩ :=
      fill_round_bounds E ts { s with any := false } hs hlen
    rw [fill_while, fill_while_log]
    have i2b : s.cache_size ≤ (fill_round E ts { s with any := false }).2.cache_size := i2
    have i6b : fill_round_log E ts { s with any := false } =
        List.range' s.cache_size
          ((fill_round E ts { s with any := false }).2.cache_size - s.cache_size) := i6
    by_cases ho : (fill_round E ts { s with any := false }).2.out = true
    · rw [if_pos ho, if_pos ho]
      exact ⟨_, rfl, i1, i2b, i3, by rw [i6b]⟩
    · rw [if_neg ho, if_neg ho]
      by_cases ha : (!(fill_round E ts { s with any := false }).2.any) = true
      · rw [if_pos ha, if_pos ha]
        exact ⟨_, rfl, i1, i2b, i3, by rw [i6b]⟩
      · rw [if_neg ha, if_neg ha]
        have hany : (fill_round E ts { s with any := false }).2.any = true := by
          simpa using ha
        have hout : (fill_round E ts { s with any := false }).2.out = false := by
          simpa using ho
        have hgrow : s.cache_size < (fill_round E ts { s with any := false }).2.cache_size := by
          rcases i5 hany with h | h
          · exact absurd h (by simp)
          · exact h
        have hlt := i4 hout
        obtain ⟨r, j1, j2, j3, j4, j5⟩ := ih (fill_round E ts { s with any := false }).1
          (fill_round E ts { s with any := false }).2 hlt i1 (by omega)
        rw [j1, j5, i6b]
        refine ⟨r, rfl, j2, by omega, j4, ?_⟩
        exact congrArg some (range_split _ _ _ (le_of_lt hgrow) j3)

theorem range_log (N k : Nat) (log : List Nat) (hk : k ≤ N)
    (h : log = List.range' 0 (k - 0) ∨ (k < N ∧ log = List.range' 0 (k - 0 + 1))) :
    (∀ i ∈ log, i < N) ∧ log.take k = List.range k := by
  rcases h with h | ⟨h1, h⟩
  · subst h
    refine ⟨?_, ?_⟩
    · intro i hi
      rw [List.mem_range'_1] at hi
      omega
    · rw [List.range_eq_range']
      simp
  · subst h
    refine ⟨?_, ?_⟩
    · intro i hi
      rw [List.mem_range'_1] at hi
      omega
    · rw [List.range_eq_range']
      show List.take k (List.range' 0 (k + 1)) = _
      rw [List.range'_1_concat]
      have e : (List.range' 0 k).length = k := by simp
      nth_rewrite 1 [← e]
      exact List.take_left' rfl

theorem fill_cache_bounds (E : consts) (g : gen) (hN : 1 ≤ E.TARGET_RANDOMIZE_SIZE)
    (hlen : g.cache.length = E.TARGET_RANDOMIZE_SIZE) :
    ∃ g1 log, fill_cache E g = some g1 ∧ g1.cache.length = E.TARGET_RANDOMIZE_SIZE ∧
      g1.cache_i = 0 ∧ g1.cache_size ≤ E.TARGET_RANDOMIZE_SIZE ∧
      g1.randomize = g.randomize ∧ fill_cache_log E g = some log ∧
      (∀ i ∈ log, i < E.TARGET_RANDOMIZE_SIZE) ∧
      log.take g1.cache_size = List.range g1.cache_size := by
  unfold fill_cache fill_cache_log
  by_cases hs : g.mode_streaming = true
  · rw [if_pos hs, if_pos hs]
    obtain ⟨f2, cache2, cs2, log, i1, i2, i3, i4, i5, i6⟩ :=
      fill_stream_bounds E (g.targets_from.length + 1) g.targets_from g.cache 0
        (Nat.lt_succ_self _) (Nat.zero_le _) hlen
    rw [i1, i5]
    obtain ⟨k1, k2⟩ := range_log E.TARGET_RANDOMIZE_SIZE cs2 log i4 i6
    exact ⟨_, log, rfl, i2, rfl, i4, rfl, rfl, k1, k2⟩
  · rw [if_neg hs, if_neg hs]
    obtain ⟨r, j1, j2, j3, j4, j5⟩ := fill_while_bounds E (E.TARGET_RANDOMIZE_SIZE + 1)
      g.targets { cache := g.cache, cache_size := 0, any := false, out := false }
      (by show 0 < E.TARGET_RANDOMIZE_SIZE; omega) hlen (by show _ ≤ _ + 0; omega)
    rw [j1, j5]
    obtain ⟨k1, k2⟩ := range_log E.TARGET_RANDOMIZE_SIZE r.2.cache_size _ j4 (Or.inl rfl)
    exact ⟨_, _, rfl, j2, rfl, j4, rfl, rfl, k1, k2⟩

theorem target_gen_next_ok (E : consts) (g : gen) (hN : 1 ≤ E.TARGET_RANDOMIZE_SIZE)
    (h : cache_ok E g) :
    ∃ res g2, target_gen_next E g = some (res, g2) ∧ cache_ok E g2 ∧
      (res = none → g2.cache_i = 0 ∧ g2.cache_size = 0) ∧
      (g.cache_i = g.cache_size → ∀ a, res = some a →
        g2.cache_i = 1 ∧ 1 ≤ g2.cache_size ∧ a = g2.cache.getD 0 []) := by
  obtain ⟨h1, h2, h3⟩ := h
  by_cases he : g.cache_i = g.cache_size
  · obtain ⟨g1, log, f1, f2, f3, f4, f5, _⟩ := fill_cache_bounds E g hN h1
    unfold target_gen_next
    rw [if_pos he, f1]
    dsimp only
    by_cases h0 : g1.cache_size = 0
    · rw [if_pos h0]
      exact ⟨none, g1, rfl, ⟨f2, by omega, f4⟩, fun _ => ⟨f3, h0⟩,
        fun _ a ha => absurd ha (by simp)⟩
    · rw [if_neg h0]
      by_cases hr : g1.randomize = true
      · rw [if_pos hr]
        refine ⟨_, _, rfl, ⟨?_, ?_, f4⟩, fun hn => absurd hn (by simp), fun _ a ha => ?_⟩
        · exact (shuffle_perm _ _ _).length_eq.trans f2
        · show g1.cache_i + 1 ≤ g1.cache_size
          omega
        · refine ⟨by show g1.cache_i + 1 = 1; omega, by show 1 ≤ g1.cache_size; omega, ?_⟩
          have ha2 := Option.some.inj ha
          rw [← ha2]
          show _ = (shuffle g1.rand_next g1.cache g1.cache_size).1.getD 0 []
          rw [← f3]
      · rw [if_neg hr]
        refine ⟨_, _, rfl, ⟨f2, ?_, f4⟩, fun hn => absurd hn (by simp), fun _ a ha => ?_⟩
        · show g1.cache_i + 1 ≤ g1.cache_size
          omega
        · refine ⟨by show g1.cache_i + 1 = 1; omega, by show 1 ≤ g1.cache_size; omega, ?_⟩
          have ha2 := Option.some.inj ha
          rw [← ha2]
          show _ = g1.cache.getD 0 []
          rw [← f3]
  · rw [target_gen_next_cached E g he]
    refine ⟨_, _, rfl, ⟨h1, ?_, h3⟩, fun hn => absurd hn (by simp), fun h => absurd h he⟩
    show g.cache_i + 1 ≤ g.cache_size
    omega

theorem finish_add_cache (E : consts) (g : gen) (r : Int) (g2 : gen)
    (h : target_gen_finish_add E g = some (r, g2)) :
    g2.cache = g.cache ∧ g2.cache_i = g.cache_i ∧ g2.cache_size = g.cache_size := by
  unfold target_gen_finish_add at h
  by_cases hs : g.mode_streaming = true
  · rw [if_pos hs] at h
    cases h
    exact ⟨rfl, rfl, rfl⟩
  · rw [if_neg hs] at h
    by_cases hz : g.targets.length = 0
    · rw [if_pos hz] at h
      cases h
      exact ⟨rfl, rfl, rfl⟩
    · rw [if_neg hz] at h
      dsimp only at h
      generalize (if E.TARGET_EVEN_SPREAD = true then
        finish_add_delays (finish_add_max g.targets) g.targets g.rand_next
        else some (g.targets, g.rand_next)) = sp at h
      cases sp with
      | none => simp at h
      | some q =>
        obtain ⟨ts, rr⟩ := q
        dsimp only at h
        by_cases hr : g.randomize = true
        · rw [if_pos hr] at h
          cases h
          exact ⟨rfl, rfl, rfl⟩
        · rw [if_neg hr] at h
          cases h
          exact ⟨rfl, rfl, rfl⟩

theorem reachable_cache_ok (E : consts) (hN : 1 ≤ E.TARGET_RANDOMIZE_SIZE) (g : gen)
    (hr : reachable E g) : cache_ok E g := by
  induction hr with
  | init g => exact ⟨by simp [target_gen_init], le_refl _, Nat.zero_le _⟩
  | set_randomized g v _ ih => exact ih
  | set_streaming g f _ ih => exact ih
  | add g s _ ih =>
    unfold target_gen_add
    by_cases hs : g.mode_streaming = true
    · rw [if_pos hs]; exact ih
    · rw [if_neg hs]; exact ih
  | finish_add g r g2 _ h ih =>
    obtain ⟨e1, e2, e3⟩ := finish_add_cache E g r g2 h
    unfold cache_ok
    rw [e1, e2, e3]
    exact ih
  | next g res g2 _ h ih =>
    obtain ⟨res2, g3, k1, k2, _⟩ := target_gen_next_ok E g hN ih
    rw [h] at k1
    cases k1
    exact k2

theorem gen_calls_cached (E : consts) :
    ∀ (j : Nat) (g : gen), g.cache_i + j ≤ g.cache_size →
      gen_calls E j g = some (j, (List.range' g.cache_i j).map (fun i => g.cache.getD i []),
        { g with cache_i := g.cache_i + j }) := by
  intro j
  induction j with
  | zero => intro g _; rfl
  | succ j ih =>
    intro g hj
    rw [gen_calls_succ E g j _ _ _ (ih g (by omega))]
    rw [target_gen_next_cached E _ (by show g.cache_i + j ≠ g.cache_size; omega)]
    dsimp only
    rw [List.range'_1_concat, List.map_append]
    rfl

theorem reachable_foldl_add (E : consts) :
    ∀ (specs : List targetspec) (g : gen), reachable E g →
      reachable E (specs.foldl (fun g s => (target_gen_add g s).2) g) := by
  intro specs
  induction specs with
  | nil => intro g h; exact h
  | cons s specs ih => intro g h; exact ih _ (reachable.add g s h)

theorem reachable_load (E : consts) (r : Nat → Nat) (v : Int) (specs : List targetspec) :
    reachable E (gen_load E r v specs) :=
  reachable_foldl_add E specs _ (reachable.set_randomized _ v (reachable.init (gen_static r)))

theorem ex_gen_126_reachable : reachable ex_consts ex_gen_126 :=
  reachable.finish_add _ 0 _ (reachable_load ex_consts (fun _ => 0) 0 _) ex_gen_126_load

/-- C21: in every state of the generator reached from `target_gen_init` through the
functions of `target-gen.c` that change it, `cache_i ≤ cache_size ≤ TARGET_RANDOMIZE_SIZE`
(both are natural numbers, so `0 ≤ cache_i`), and the cache has `TARGET_RANDOMIZE_SIZE`
slots. `fill_cache` returns, and every slot index it writes to, or hands to `parse_ipv6`, is
below `TARGET_RANDOMIZE_SIZE`; the indices start with `0, 1, ..., cache_size - 1`. While
`cache_i + j ≤ cache_size`, the next `j` calls of `target_gen_next` return the slots
`cache_i, ..., cache_i + j - 1` in this order and do not refill. `target_gen_next` returns;
a call that returns -1 leaves `cache_i = cache_size = 0`; a call that refills and returns an
address returns slot 0 and leaves `cache_i = 1`, and the `cache_size - 1` calls after it
return the slots `1, ..., cache_size - 1`, each once, and leave `cache_i = cache_size`, so
that the call after them refills. `TARGET_RANDOMIZE_SIZE`, a constant of a header, is taken
to be at least 1. -/
theorem C21_cache_bounds (E : consts) (g : gen) (hN : 1 ≤ E.TARGET_RANDOMIZE_SIZE)
    (hr : reachable E g) :
    (g.cache_i ≤ g.cache_size ∧ g.cache_size ≤ E.TARGET_RANDOMIZE_SIZE ∧
      g.cache.length = E.TARGET_RANDOMIZE_SIZE) ∧
    (∃ g1 log, fill_cache E g = some g1 ∧ fill_cache_log E g = some log ∧
      (∀ i ∈ log, i < E.TARGET_RANDOMIZE_SIZE) ∧
      log.take g1.cache_size = List.range g1.cache_size ∧
      g1.cache_i = 0 ∧ g1.cache_size ≤ E.TARGET_RANDOMIZE_SIZE) ∧
    (∀ j, g.cache_i + j ≤ g.cache_size →
      gen_calls E j g = some (j, (List.range' g.cache_i j).map (fun i => g.cache.getD i []),
        { g with cache_i := g.cache_i + j })) ∧
    (∃ res g2, target_gen_next E g = some (res, g2) ∧
      (res = none → g2.cache_i = 0 ∧ g2.cache_size = 0) ∧
      (g.cache_i = g.cache_size → ∀ a, res = some a →
        a = g2.cache.getD 0 [] ∧ g2.cache_i = 1 ∧ 1 ≤ g2.cache_size ∧
        gen_calls E (g2.cache_size - 1) g2 = some (g2.cache_size - 1,
          (List.range' 1 (g2.cache_size - 1)).map (fun i => g2.cache.getD i []),
          { g2 with cache_i := g2.cache_size }))) := by
  have hok := reachable_cache_ok E hN g hr
  obtain ⟨h1, h2, h3⟩ := hok
  obtain ⟨g1, log, f1, _, f3, f4, _, f6, f7, f8⟩ := fill_cache_bounds E g hN h1
  obtain ⟨res, g2, n1, _, n3, n4⟩ := target_gen_next_ok E g hN ⟨h1, h2, h3⟩
  refine ⟨⟨h2, h3, h1⟩, ⟨g1, log, f1, f6, f7, f8, f3, f4⟩, fun j hj => gen_calls_cached E j g hj,
    ⟨res, g2, n1, n3, fun he a ha => ?_⟩⟩
  obtain ⟨m1, m2, m3⟩ := n4 he a ha
  refine ⟨m3, m1, m2, ?_⟩
  have hc := gen_calls_cached E (g2.cache_size - 1) g2 (by omega)
  have e : 1 + (g2.cache_size - 1) = g2.cache_size := by omega
  rw [m1, e] at hc
  exact hc

/-- Witness for C21: the generator loaded with `2001:db8::/126`, before its first refill. -/
theorem C21_cache_bounds_witness :
    1 ≤ ex_consts.TARGET_RANDOMIZE_SIZE ∧ reachable ex_consts ex_gen_126 ∧
    (ex_gen_126.cache_i ≤ ex_gen_126.cache_size ∧
      ex_gen_126.cache_size ≤ ex_consts.TARGET_RANDOMIZE_SIZE ∧
      ex_gen_126.cache.length = ex_consts.TARGET_RANDOMIZE_SIZE) ∧
    (∃ g1 log, fill_cache ex_consts ex_gen_126 = some g1 ∧
      fill_cache_log ex_consts ex_gen_126 = some log ∧
      (∀ i ∈ log, i < ex_consts.TARGET_RANDOMIZE_SIZE) ∧
      log.take g1.cache_size = List.range g1.cache_size ∧
      g1.cache_i = 0 ∧ g1.cache_size ≤ ex_consts.TARGET_RANDOMIZE_SIZE) ∧
    (∀ j, ex_gen_126.cache_i + j ≤ ex_gen_126.cache_size →
      gen_calls ex_consts j ex_gen_126 = some (j,
        (List.range' ex_gen_126.cache_i j).map (fun i => ex_gen_126.cache.getD i []),
        { ex_gen_126 with cache_i := ex_gen_126.cache_i + j })) ∧
    (∃ res g2, target_gen_next ex_consts ex_gen_126 = some (res, g2) ∧
      (res = none → g2.cache_i = 0 ∧ g2.cache_size = 0) ∧
      (ex_gen_126.cache_i = ex_gen_126.cache_size → ∀ a, res = some a →
        a = g2.cache.getD 0 [] ∧ g2.cache_i = 1 ∧ 1 ≤ g2.cache_size ∧
        gen_calls ex_consts (g2.cache_size - 1) g2 = some (g2.cache_size - 1,
          (List.range' 1 (g2.cache_size - 1)).map (fun i => g2.cache.getD i []),
          { g2 with cache_i := g2.cache_size }))) :=
  ⟨by decide, ex_gen_126_reachable,
    C21_cache_bounds ex_consts ex_gen_126 (by decide) ex_gen_126_reachable⟩


end Fi6s
